import Mathlib

/-!
# Phone SLAM bridge: synchronization and transport decoding

A shallow embedding of the sensor bridge sources
(`phone_slam.cpp`, `phone_slam_websocket.cpp`, `phone_slam_phyphox.cpp`)
together with theorems about the embedded functions.

Modelling conventions
* `double` / `float` values are exact rationals (`ℚ`): comparisons and the
  subtraction `t_start - 1.0` are exact, rounding, infinities and NaN are
  outside the model.
* `std::vector`, `std::queue` and `std::string` are lists; a byte is a natural
  number below 256; unsigned machine arithmetic is reduced explicitly.
* Global variables become fields of explicit state records that every
  operation takes and returns; `size_t` and `uint64_t` are 64 bits wide.
* Definitions named after a source function are its embedding. A definition
  whose comment starts with "Specification" is written from the description
  of the behaviour (or from the RFC it cites) and is what the embedding is
  compared with.
-/

set_option autoImplicit false

/-! ## `std::string` operations used by the parsers -/

namespace StdString

/-- Search loop of `std::string::find`: scan `s` from its head, `i` being the
index of the head in the whole string, for the first place where `pat` starts. -/
def findAux (pat : List Char) : List Char → Nat → Option Nat
  | [], i => if pat.isEmpty then some i else none
  | c :: cs, i => if pat.isPrefixOf (c :: cs) then some i else findAux pat cs (i + 1)

/-- `s.find(pat, pos)`: index of the first occurrence of `pat` that starts at
or after `pos`; `none` is `std::string::npos`. -/
def findFrom (s pat : List Char) (pos : Nat) : Option Nat :=
  if pos > s.length then none else findAux pat (s.drop pos) pos

/-- `s.find(pat)`. -/
def find (s pat : List Char) : Option Nat := findFrom s pat 0

/-- Search of `std::string::rfind`: index of the last place where `pat`
starts in `s`, `i` being the index of the head of `s` in the whole string. -/
def rfindAux (pat : List Char) : List Char → Nat → Option Nat
  | [], i => if pat.isEmpty then some i else none
  | c :: cs, i =>
    match rfindAux pat cs (i + 1) with
    | some k => some k
    | none => if pat.isPrefixOf (c :: cs) then some i else none

/-- `s.rfind(pat)`. -/
def rfind (s pat : List Char) : Option Nat := rfindAux pat s 0

/-- `s.substr(pos, count)` for `pos ≤ s.length`. -/
def substr (s : List Char) (pos count : Nat) : List Char := (s.drop pos).take count

/-- `s.substr(pos)` for `pos ≤ s.length`. -/
def substrFrom (s : List Char) (pos : Nat) : List Char := s.drop pos

/-- The tokens successive calls `std::getline(ss, token, delim)` extract from
a stream holding `s`; `cur` is the token read so far. A call that meets the
end of the stream without having read a character fails and ends the loop. -/
def getlineTokens (delim : Char) : List Char → List Char → List (List Char)
  | [], cur => if cur.isEmpty then [] else [cur]
  | c :: cs, cur =>
    if c = delim then cur :: getlineTokens delim cs [] else getlineTokens delim cs (cur ++ [c])

/-- `isdigit` on a character of the string. -/
def isdigit (c : Char) : Bool := decide ('0' ≤ c ∧ c ≤ '9')

/-- `isspace` in the C locale. -/
def isspace (c : Char) : Bool :=
  c = ' ' || c = '\t' || c = '\n' || c = '\x0b' || c = '\x0c' || c = '\r'

/-- Value of a run of decimal digits. -/
def digitsValue (ds : List Char) : Nat :=
  ds.foldl (fun acc c => acc * 10 + (c.toNat - '0'.toNat)) 0

/-- Optional sign in front of a number: the sign and the rest of the text. -/
def takeSign : List Char → Bool × List Char
  | '-' :: r => (true, r)
  | '+' :: r => (false, r)
  | s => (false, s)

/-- Exponent part of a decimal number, 0 when there is none. -/
def exponentValue : List Char → Int
  | c :: r =>
    if c = 'e' ∨ c = 'E' then
      let signed := takeSign r
      let ds := signed.2.takeWhile isdigit
      if ds.isEmpty then 0
      else if signed.1 then - (digitsValue ds : Int) else (digitsValue ds : Int)
    else 0
  | [] => 0

/-- The number `std::stof` reads from decimal text, as an exact rational:
leading white space, an optional sign, digits with an optional fraction, an
optional exponent; `none` stands for the `std::invalid_argument` exception
thrown when no digit can be read. Hexadecimal, infinity and NaN spellings,
rounding to `float` and `std::out_of_range` are outside this model. -/
def stofDecimal (s : List Char) : Option ℚ :=
  let signed := takeSign (s.dropWhile isspace)
  let intDigits := signed.2.takeWhile isdigit
  let afterInt := signed.2.dropWhile isdigit
  let fracDigits : List Char :=
    match afterInt with
    | '.' :: r => r.takeWhile isdigit
    | _ => []
  let afterFrac : List Char :=
    match afterInt with
    | '.' :: r => r.dropWhile isdigit
    | _ => afterInt
  if intDigits.isEmpty ∧ fracDigits.isEmpty then
    none
  else
    let mantissa : ℚ := (digitsValue (intDigits ++ fracDigits) : ℚ)
    let exponent : Int := exponentValue afterFrac - (fracDigits.length : Int)
    some ((if signed.1 then -mantissa else mantissa) * (10 : ℚ) ^ exponent)

end StdString


/-! ## `phone_slam.cpp` -/

namespace PhoneSlam

/-- IMU measurement struct: timestamp, accelerometer and gyroscope triples. -/
structure ImuMeasurement where
  timestamp : ℚ
  ax : ℚ
  ay : ℚ
  az : ℚ
  gx : ℚ
  gy : ℚ
  gz : ℚ
deriving DecidableEq, Repr

/-- The estimator's inertial point `ORB_SLAM3::IMU::Point`, as built by its
constructor `Point(acc_x, acc_y, acc_z, ang_vel_x, ang_vel_y, ang_vel_z, timestamp)`. -/
structure Point where
  acc_x : ℚ
  acc_y : ℚ
  acc_z : ℚ
  ang_vel_x : ℚ
  ang_vel_y : ℚ
  ang_vel_z : ℚ
  t : ℚ
deriving DecidableEq, Repr

/-- Decoded grayscale pixel matrix (`cv::Mat`), rows of pixel bytes. -/
abbrev Mat := List (List Nat)

/-- Frame with timestamp. -/
structure TimestampedFrame where
  timestamp : ℚ
  image : Mat
deriving DecidableEq, Repr

/-- Thread-safe queue: the wrapped `std::queue` (front of the queue is the head
of the list) and the capacity `max_size_`, which is 100 unless set otherwise. -/
structure SafeQueue (T : Type) where
  queue_ : List T := []
  max_size_ : Nat := 100
deriving DecidableEq, Repr

namespace SafeQueue

variable {T : Type}

/-- `SafeQueue::push`: enqueue at the back, then drop the front entry when the
size exceeds `max_size_`. -/
def push (q : SafeQueue T) (item : T) : SafeQueue T :=
  let pushed := q.queue_ ++ [item]
  if pushed.length > q.max_size_ then
    { q with queue_ := pushed.tail }
  else
    { q with queue_ := pushed }

/-- `SafeQueue::pop`: the result flag, the caller's `item` after the call, and
the queue after the call. -/
def pop (q : SafeQueue T) (item : T) : Bool × T × SafeQueue T :=
  match q.queue_ with
  | [] => (false, item, q)
  | front :: rest => (true, front, { q with queue_ := rest })

/-- `SafeQueue::empty`. -/
def empty (q : SafeQueue T) : Bool := q.queue_.isEmpty

/-- `SafeQueue::size`. -/
def size (q : SafeQueue T) : Nat := q.queue_.length

/-- `SafeQueue::clear`: pops until the queue is empty. -/
def clear (q : SafeQueue T) : SafeQueue T := { q with queue_ := [] }

end SafeQueue

/-- The conversion done inside `getImuMeasurements`: an `ImuMeasurement` turned
into the estimator's point format. -/
def toPoint (imu : ImuMeasurement) : Point :=
  { acc_x := imu.ax, acc_y := imu.ay, acc_z := imu.az,
    ang_vel_x := imu.gx, ang_vel_y := imu.gy, ang_vel_z := imu.gz,
    t := imu.timestamp }

/-- `getImuMeasurements(t_start, t_end)` run on the buffer `g_imu_buffer`:
returns the collected measurements and the buffer after the
`remove_if`/`erase` step. -/
def getImuMeasurements (g_imu_buffer : List ImuMeasurement) (t_start t_end : ℚ) :
    List Point × List ImuMeasurement :=
  let measurements : List Point :=
    g_imu_buffer.foldl
      (fun measurements imu =>
        if imu.timestamp > t_start ∧ imu.timestamp ≤ t_end then
          measurements ++ [toPoint imu]
        else
          measurements)
      []
  let kept := g_imu_buffer.filter (fun m => !decide (m.timestamp < t_start - 1))
  (measurements, kept)

/-- One call `SLAM.TrackMonocular(image, timestamp, imu_measurements)`. -/
structure TrackCall where
  image : Mat
  timestamp : ℚ
  imu_measurements : List Point
deriving DecidableEq, Repr

/-- The variables of `main` that the synchronization loop reads and writes,
the shared inertial buffer, and the calls made to the estimator so far. -/
structure LoopState where
  last_frame_time : ℚ := 0
  frame_count : Nat := 0
  g_imu_buffer : List ImuMeasurement := []
  tracked : List TrackCall := []
deriving DecidableEq, Repr

/-- State of `main` on entry to the loop, for a given inertial buffer. -/
def initialState (g_imu_buffer : List ImuMeasurement) : LoopState :=
  { last_frame_time := 0, frame_count := 0, g_imu_buffer := g_imu_buffer, tracked := [] }

/-- Body of the loop for a frame that `g_frame_queue.pop` delivered. -/
def processFrame (s : LoopState) (frame : TimestampedFrame) : LoopState :=
  let queried : List Point × List ImuMeasurement :=
    if s.last_frame_time > 0 then
      getImuMeasurements s.g_imu_buffer s.last_frame_time frame.timestamp
    else
      ([], s.g_imu_buffer)
  let imu_measurements := queried.1
  let calls : List TrackCall :=
    if imu_measurements.length ≥ 2 then
      [{ image := frame.image, timestamp := frame.timestamp,
         imu_measurements := imu_measurements }]
    else if s.last_frame_time = 0 then
      [{ image := frame.image, timestamp := frame.timestamp, imu_measurements := [] }]
    else
      []
  { last_frame_time := frame.timestamp,
    frame_count := s.frame_count + 1,
    g_imu_buffer := queried.2,
    tracked := s.tracked ++ calls }

/-- One iteration of `while (g_running)`: `frame` is default-constructed, then
a frame is popped into it and processed, or the queue is found empty and
everything is left as it is (the loop then sleeps). -/
def loopIteration (q : SafeQueue TimestampedFrame) (s : LoopState) :
    SafeQueue TimestampedFrame × LoopState :=
  let popped := q.pop { timestamp := 0, image := [] }
  if popped.1 then
    (popped.2.2, processFrame s popped.2.1)
  else
    (popped.2.2, s)

/-- The loop run over the frames it pops, in order, with no producer writing
to the inertial buffer in between. -/
def runFrames (s : LoopState) (frames : List TimestampedFrame) : LoopState :=
  frames.foldl processFrame s

/-- The call `recv(sock_fd, buffer, len, 0)` on the datagram socket: with no
datagram before the receive timeout it returns -1; otherwise it copies at most
`len` bytes of the datagram into `buffer` and returns the number of bytes
copied, the rest of a longer datagram being discarded (the flags are 0, so the
length of the datagram itself is not reported). -/
def recv (datagram : Option (List Nat)) (len : Nat) : Int × List Nat :=
  match datagram with
  | none => (-1, [])
  | some bytes => (((bytes.take len).length : Nat), bytes.take len)

/-- The `memcpy` calls that fill `imu` from the 32 received bytes; `toDouble`
and `toFloat` read 8 and 4 bytes as `double` and `float`. -/
def decodeImu (toDouble toFloat : List Nat → ℚ) (buffer : List Nat) : ImuMeasurement :=
  { timestamp := toDouble (buffer.take 8),
    ax := toFloat ((buffer.drop 8).take 4),
    ay := toFloat ((buffer.drop 12).take 4),
    az := toFloat ((buffer.drop 16).take 4),
    gx := toFloat ((buffer.drop 20).take 4),
    gy := toFloat ((buffer.drop 24).take 4),
    gz := toFloat ((buffer.drop 28).take 4) }

/-- One pass of the receive loop of `imuReceiverThread`: `g_imu_buffer` after
the pass, for the datagram (if any) that arrived. -/
def imuReceiverStep (toDouble toFloat : List Nat → ℚ) (g_imu_buffer : List ImuMeasurement)
    (datagram : Option (List Nat)) : List ImuMeasurement :=
  let received := recv datagram 32
  let n := received.1
  let buffer := received.2
  if n = 32 then
    let imu := decodeImu toDouble toFloat buffer
    let pushed := g_imu_buffer ++ [imu]
    if pushed.length > 10000 then pushed.drop 5000 else pushed
  else
    g_imu_buffer

/-- Specification: the samples of the buffer inside the half-open window
`(a, b]`, in buffer order: the window a frame pair asks for. -/
def samplesInWindow (buf : List ImuMeasurement) (a b : ℚ) : List ImuMeasurement :=
  buf.filter (fun m => decide (a < m.timestamp ∧ m.timestamp ≤ b))

/-- A run of pushes onto a queue, oldest push first. -/
def pushAll {T : Type} (q : SafeQueue T) (items : List T) : SafeQueue T :=
  items.foldl SafeQueue.push q

/-- Inertial sample that carries only a timestamp (all readings zero). -/
def sampleAt (t : ℚ) : ImuMeasurement :=
  { timestamp := t, ax := 0, ay := 0, az := 0, gx := 0, gy := 0, gz := 0 }

/-- Frame that carries only a timestamp (empty image). -/
def frameAt (t : ℚ) : TimestampedFrame :=
  { timestamp := t, image := [] }

/-- Specification: the dispatches the pairing rule prescribes for the frames
that follow a frame at time `prev`, read off the buffer `buf`: a frame at `t` goes to the
estimator with the samples in `(prev, t]` when there are at least 2 of them
and is skipped otherwise. -/
def expectedDispatches (buf : List ImuMeasurement) : ℚ → List TimestampedFrame → List TrackCall
  | _, [] => []
  | prev, f :: fs =>
    (if 2 ≤ (samplesInWindow buf prev f.timestamp).length then
      [{ image := f.image, timestamp := f.timestamp,
         imu_measurements := (samplesInWindow buf prev f.timestamp).map toPoint }]
    else
      []) ++ expectedDispatches buf f.timestamp fs

end PhoneSlam

/-! ## `phone_slam_websocket.cpp` -/

namespace PhoneSlamWebsocket

open StdString

/-- IMU measurement struct. -/
structure ImuMeasurement where
  timestamp : ℚ
  ax : ℚ
  ay : ℚ
  az : ℚ
  gx : ℚ
  gy : ℚ
  gz : ℚ
deriving DecidableEq, Repr

/-- Base64 encoding for WebSocket handshake: the alphabet. -/
def base64_chars : List Char :=
  "ABCDEFGHIJKLMNOPQRSTUVWXYZabcdefghijklmnopqrstuvwxyz0123456789+/".toList

/-- State of the loop of `base64_encode`: the fill index `i`, the three input
bytes `char_array_3` and the output string `ret`. -/
structure Base64State where
  i : Nat
  char_array_3 : Nat × Nat × Nat
  ret : List Char
deriving DecidableEq, Repr

/-- `char_array_3[i] = b`. -/
def setArray3 (a : Nat × Nat × Nat) (i b : Nat) : Nat × Nat × Nat :=
  if i = 0 then (b, a.2.1, a.2.2) else if i = 1 then (a.1, b, a.2.2) else (a.1, a.2.1, b)

/-- The four assignments to `char_array_4` (each stored into an
`unsigned char`). -/
def charArray4 (a : Nat × Nat × Nat) : List Nat :=
  [((a.1 &&& 0xfc) >>> 2) % 256,
   ((((a.1 &&& 0x03) <<< 4) + ((a.2.1 &&& 0xf0) >>> 4))) % 256,
   ((((a.2.1 &&& 0x0f) <<< 2) + ((a.2.2 &&& 0xc0) >>> 6))) % 256,
   (a.2.2 &&& 0x3f) % 256]

/-- `base64_chars[k]`. -/
def base64Char (k : Nat) : Char := base64_chars.getD k 'A'

/-- Body of `while (len--)` for the input byte `b`. -/
def base64Step (s : Base64State) (b : Nat) : Base64State :=
  let arr := setArray3 s.char_array_3 s.i b
  let i := s.i + 1
  if i = 3 then
    { i := 0, char_array_3 := arr, ret := s.ret ++ (charArray4 arr).map base64Char }
  else
    { i := i, char_array_3 := arr, ret := s.ret }

/-- The block `if (i) ...` after the loop of `base64_encode`: zero-fill, three
sextets, `i + 1` output characters and the `=` padding. -/
def base64Finish (s : Base64State) : List Char :=
  if s.i ≠ 0 then
    let arr : Nat × Nat × Nat :=
      if s.i = 1 then (s.char_array_3.1, 0, 0) else (s.char_array_3.1, s.char_array_3.2.1, 0)
    let char_array_4 := (charArray4 arr).take 3
    s.ret ++ (char_array_4.take (s.i + 1)).map base64Char ++ List.replicate (3 - s.i) '='
  else
    s.ret

/-- `base64_encode(data, len)` with `data` the `len` input bytes. -/
def base64_encode (data : List Nat) : List Char :=
  base64Finish (data.foldl base64Step { i := 0, char_array_3 := (0, 0, 0), ret := [] })

/-- Storage for accumulating sensor data (accelerometer and gyroscope come
separately). -/
structure SensorAccumulator where
  ax : ℚ := 0
  ay : ℚ := 0
  az : ℚ := 0
  gx : ℚ := 0
  gy : ℚ := 0
  gz : ℚ := 0
  hasAccel : Bool := false
  hasGyro : Bool := false
  lastAccelTime : ℚ := 0
  lastGyroTime : ℚ := 0
deriving DecidableEq, Repr

/-- `extractJsonFloat(json, key)`: the float after a key in JSON; `stof` is
`std::stof`, `none` standing for a thrown exception. -/
def extractJsonFloat (stof : List Char → Option ℚ) (json key : List Char) : ℚ :=
  match find json (['"'] ++ key ++ ['"']) with
  | none => 0
  | some pos0 =>
    match findFrom json [':'] pos0 with
    | none => 0
    | some pos1 =>
      let afterColon := json.drop (pos1 + 1)
      let skipped := (afterColon.takeWhile (fun c => c = ' ' || c = '"')).length
      let pos := pos1 + 1 + skipped
      let number := (json.drop pos).takeWhile
        (fun c => isdigit c || c = '.' || c = '-' || c = 'e' || c = 'E' || c = '+')
      let end_ := pos + number.length
      if end_ > pos then
        match stof (substr json pos (end_ - pos)) with
        | some v => v
        | none => 0
      else
        0

/-- The x, y, z values `parseSensorData` reads from a message. -/
def parseValues (stof : List Char → Option ℚ) (data : List Char) : ℚ × ℚ × ℚ :=
  match find data "\"values\"".toList with
  | none => (0, 0, 0)
  | some valuesPos =>
    match findFrom data ['['] valuesPos with
    | some bracketPos =>
      let start := bracketPos + 1
      match findFrom data [']'] start with
      | none => (0, 0, 0)
      | some end_ =>
        let valuesStr := substr data start (end_ - start)
        let tokens := getlineTokens ',' valuesStr []
        let value := fun (idx : Nat) =>
          match tokens.get? idx with
          | some token =>
            match stof token with
            | some val => val
            | none => 0
          | none => 0
        (value 0, value 1, value 2)
    | none =>
      (extractJsonFloat stof data ['x'], extractJsonFloat stof data ['y'],
        extractJsonFloat stof data ['z'])

/-- `parseSensorData(data, imu)` run on the accumulator `g_sensor_accum` at
clock reading `now`: the returned flag, `imu` after the call and the
accumulator after the call. -/
def parseSensorData (stof : List Char → Option ℚ) (g_sensor_accum : SensorAccumulator)
    (data : List Char) (now : ℚ) (imu : ImuMeasurement) :
    Bool × ImuMeasurement × SensorAccumulator :=
  let isAccel := (find data "accelerometer".toList).isSome
  let isGyro := (find data "gyroscope".toList).isSome
  if !isAccel && !isGyro then
    (false, imu, g_sensor_accum)
  else
    let xyz := parseValues stof data
    let x := xyz.1
    let y := xyz.2.1
    let z := xyz.2.2
    let accum1 : SensorAccumulator :=
      if isAccel then
        { g_sensor_accum with ax := x, ay := y, az := z, hasAccel := true, lastAccelTime := now }
      else
        g_sensor_accum
    let accum2 : SensorAccumulator :=
      if isGyro then
        { accum1 with gx := x, gy := y, gz := z, hasGyro := true, lastGyroTime := now }
      else
        accum1
    if accum2.hasAccel && accum2.hasGyro then
      (true,
        { timestamp := now, ax := accum2.ax, ay := accum2.ay, az := accum2.az,
          gx := accum2.gx, gy := accum2.gy, gz := accum2.gz },
        { accum2 with hasAccel := false, hasGyro := false })
    else
      (false, imu, accum2)

/-- The return values of `parseSensorData` over a sequence of messages, each
with the clock reading of its call, and the accumulator at the end; every call
gets a fresh `imu`, as in the receiver thread. -/
def runMessages (stof : List Char → Option ℚ) (imu : ImuMeasurement) :
    SensorAccumulator → List (List Char × ℚ) → List Bool × SensorAccumulator
  | accum, [] => ([], accum)
  | accum, (data, now) :: rest =>
    let r := parseSensorData stof accum data now imu
    let tail := runMessages stof imu r.2.2 rest
    (r.1 :: tail.1, tail.2)

/-- Specification: the emission rule of the accumulator. `pending` holds the
messages recorded since the previous emission; a message leads to an emission
exactly when, with it recorded, some pending message is an accelerometer
reading and some pending message is a gyroscope reading; an emission empties
the pending list. -/
def expectedEmissions : List (List Char) → List (List Char) → List Bool
  | _, [] => []
  | pending, data :: rest =>
    let recorded := pending ++ [data]
    let emit := recorded.any (fun m => decide ("accelerometer".toList <:+: m))
      && recorded.any (fun m => decide ("gyroscope".toList <:+: m))
    emit :: expectedEmissions (if emit then [] else recorded) rest

/-- Largest length `std::string::resize` accepts before it throws
`std::length_error`; every 64-bit implementation stays below `2^63`. -/
def string_max_size : Nat := 2 ^ 63 - 1

/-- The part of `decodeWebSocketFrame` after the extended length has been
read: mask offset, completeness check, unmasking or copy, `consumed`, and the
opcode test. `header_len + payload_len` is 64-bit unsigned arithmetic. -/
def decodePayload (data : List Nat) (len opcode : Nat) (masked : Bool)
    (payload_len header_len0 : Nat) : Option (List Nat × Nat) :=
  let mask_offset := header_len0
  let header_len := if masked then header_len0 + 4 else header_len0
  if len < (header_len + payload_len) % 2 ^ 64 then
    some ([], 0)
  else if payload_len > string_max_size then
    none
  else
    let result : List Nat :=
      if masked then
        (List.range payload_len).map
          (fun i => (data.getD (header_len + i) 0 ^^^ data.getD (mask_offset + i % 4) 0) % 256)
      else
        (List.range payload_len).map (fun i => data.getD (header_len + i) 0)
    let consumed := (header_len + payload_len) % 2 ^ 64
    if opcode = 1 ∨ opcode = 2 then
      some (result, consumed)
    else
      some ([], consumed)

/-- `decodeWebSocketFrame(data, len, consumed)`: `data` is the memory the
pointer refers to, `len` the number of bytes the caller vouches for. The
result is the returned string with the final value of `consumed`, or `none`
when `result.resize` throws. -/
def decodeWebSocketFrame (data : List Nat) (len : Nat) : Option (List Nat × Nat) :=
  if len < 2 then
    some ([], 0)
  else
    let opcode := data.getD 0 0 &&& 0x0F
    let masked : Bool := (data.getD 1 0 &&& 0x80) != 0
    let payload_len := data.getD 1 0 &&& 0x7F
    if payload_len = 126 then
      if len < 4 then
        some ([], 0)
      else
        decodePayload data len opcode masked ((data.getD 2 0 <<< 8) ||| data.getD 3 0) 4
    else if payload_len = 127 then
      if len < 10 then
        some ([], 0)
      else
        decodePayload data len opcode masked
          ((List.range 8).foldl
            (fun payload_len i => ((payload_len <<< 8) % 2 ^ 64) ||| data.getD (2 + i) 0) 0)
          10
    else
      decodePayload data len opcode masked payload_len 2

/-- Specification: value of a character of the RFC 4648 base64 alphabet
(table 1). -/
def rfc4648Value (c : Char) : Option Nat :=
  if 'A' ≤ c ∧ c ≤ 'Z' then some (c.toNat - 'A'.toNat)
  else if 'a' ≤ c ∧ c ≤ 'z' then some (c.toNat - 'a'.toNat + 26)
  else if '0' ≤ c ∧ c ≤ '9' then some (c.toNat - '0'.toNat + 52)
  else if c = '+' then some 62
  else if c = '/' then some 63
  else none

/-- Specification: the standard padded base64 decoder of RFC 4648 section 4.
The text is read
in groups of four characters; each group gives three bytes, except that a
final group ending in `=` gives two bytes and one ending in `==` gives one
byte; characters outside the alphabet, padding anywhere else, non-zero
unused bits and a length that is not a multiple of four are rejected. -/
def rfc4648Decode : List Char → Option (List Nat)
  | [] => some []
  | a :: b :: c :: d :: rest =>
    if d = '=' then
      if rest ≠ [] then none
      else if c = '=' then
        match rfc4648Value a, rfc4648Value b with
        | some va, some vb => if vb % 16 ≠ 0 then none else some [va * 4 + vb / 16]
        | _, _ => none
      else
        match rfc4648Value a, rfc4648Value b, rfc4648Value c with
        | some va, some vb, some vc =>
          if vc % 4 ≠ 0 then none else some [va * 4 + vb / 16, vb % 16 * 16 + vc / 4]
        | _, _, _ => none
    else
      match rfc4648Value a, rfc4648Value b, rfc4648Value c, rfc4648Value d,
        rfc4648Decode rest with
      | some va, some vb, some vc, some vd, some bytes =>
        some ([va * 4 + vb / 16, vb % 16 * 16 + vc / 4, vc % 4 * 64 + vd] ++ bytes)
      | _, _, _, _, _ => none
  | _ => none


/-- The output of `base64_encode` arranged by input chunk: four characters
for each full group of three bytes, then the padded group for one or two
left-over bytes. -/
def encodeChunks : List Nat → List Char
  | a :: b :: c :: rest => (charArray4 (a, b, c)).map base64Char ++ encodeChunks rest
  | [a, b] => ((charArray4 (a, b, 0)).take 3).map base64Char ++ ['=']
  | [a] => ((charArray4 (a, 0, 0)).take 2).map base64Char ++ ['=', '=']
  | [] => []

/-- Specification: the three ways RFC 6455 writes a payload length. -/
inductive LengthEncoding where
  | bits7
  | ext16
  | ext64
deriving DecidableEq, Repr

/-- Specification: the payload lengths a length encoding can express. -/
def LengthEncoding.fits : LengthEncoding → Nat → Prop
  | .bits7, n => n ≤ 125
  | .ext16, n => n < 2 ^ 16
  | .ext64, n => n < 2 ^ 63

/-- Specification: a 4-byte masking key. -/
structure MaskKey where
  k0 : Nat
  k1 : Nat
  k2 : Nat
  k3 : Nat
deriving DecidableEq, Repr

/-- The key bytes in wire order. -/
def MaskKey.bytes (k : MaskKey) : List Nat := [k.k0, k.k1, k.k2, k.k3]

/-- Specification, RFC 6455 section 5.3: octet `i` of the transformed data is octet `i` of the
original data XOR octet `i mod 4` of the masking key. -/
def maskPayload (k : MaskKey) (payload : List Nat) : List Nat :=
  payload.enum.map (fun p => p.2 ^^^ k.bytes.getD (p.1 % 4) 0)

/-- Specification, RFC 6455 section 5.2: the length bytes after the first header byte, with the
mask bit on top of the 7-bit length field. -/
def encodeLength (enc : LengthEncoding) (masked : Bool) (n : Nat) : List Nat :=
  let maskBit := if masked then 128 else 0
  match enc with
  | .bits7 => [maskBit + n]
  | .ext16 => [maskBit + 126, n / 256, n % 256]
  | .ext64 =>
    [maskBit + 127, n / 256 ^ 7 % 256, n / 256 ^ 6 % 256, n / 256 ^ 5 % 256, n / 256 ^ 4 % 256,
      n / 256 ^ 3 % 256, n / 256 ^ 2 % 256, n / 256 % 256, n % 256]

/-- Specification: header of a frame as RFC 6455 section 5.2 lays it out: FIN, three reserved
bits, opcode; mask bit and length; the masking key when the frame is masked. -/
def encodeHeader (fin : Bool) (rsv opcode : Nat) (enc : LengthEncoding) (mask : Option MaskKey)
    (n : Nat) : List Nat :=
  [(if fin then 128 else 0) + rsv * 16 + opcode]
    ++ encodeLength enc mask.isSome n
    ++ (match mask with
        | some k => k.bytes
        | none => [])

/-- Specification: a complete frame as RFC 6455 section 5.2 lays it out: the header followed by
the payload, masked when a key is given. -/
def encodeFrame (fin : Bool) (rsv opcode : Nat) (enc : LengthEncoding) (mask : Option MaskKey)
    (payload : List Nat) : List Nat :=
  encodeHeader fin rsv opcode enc mask payload.length
    ++ (match mask with
        | some k => maskPayload k payload
        | none => payload)

end PhoneSlamWebsocket

/-! ## `phone_slam_phyphox.cpp` -/

namespace PhoneSlamPhyphox

open StdString

/-- IMU measurement struct. -/
structure ImuMeasurement where
  timestamp : ℚ
  ax : ℚ
  ay : ℚ
  az : ℚ
  gx : ℚ
  gy : ℚ
  gz : ℚ
deriving DecidableEq, Repr

/-- The string `searchKey` built inside `extractValue`: the quoted key
followed by the opening of its buffer array. -/
def searchKey (key : List Char) : List Char :=
  ['"'] ++ key ++ "\":\x7b\"buffer\":[".toList

/-- The step "get last value if multiple" of `extractValue`: the text after
the last comma of `valueStr`, or all of it when it has no comma. -/
def lastValue (valueStr : List Char) : List Char :=
  match rfind valueStr [','] with
  | some lastComma => substrFrom valueStr (lastComma + 1)
  | none => valueStr

/-- The lambda `extractValue` of `parsePhyphoxData`, which captures `json`;
`stof` is `std::stof`, `none` standing for a thrown exception. -/
def extractValue (stof : List Char → Option ℚ) (json key : List Char) : ℚ :=
  match find json (searchKey key) with
  | some found =>
    let pos := found + (searchKey key).length
    match findFrom json [']'] pos with
    | some endPos =>
      match stof (lastValue (substr json pos (endPos - pos))) with
      | some v => v
      | none => 0
    | none => 0
  | none => 0

/-- One axis of `parsePhyphoxData`: the first key name, then the second and
the third while the value read so far equals 0. -/
def axisValue (stof : List Char → Option ℚ) (json : List Char) (k1 k2 k3 : String) : ℚ :=
  let v1 := extractValue stof json k1.toList
  let v2 := if v1 = 0 then extractValue stof json k2.toList else v1
  if v2 = 0 then extractValue stof json k3.toList else v2

/-- `parsePhyphoxData(json, imu)`: the returned flag and `imu` after the call. -/
def parsePhyphoxData (stof : List Char → Option ℚ) (json : List Char) (imu : ImuMeasurement) :
    Bool × ImuMeasurement :=
  (true,
    { imu with
      ax := axisValue stof json "accX" "acc_x" "accelerationX",
      ay := axisValue stof json "accY" "acc_y" "accelerationY",
      az := axisValue stof json "accZ" "acc_z" "accelerationZ",
      gx := axisValue stof json "gyroX" "gyro_x" "gyroscopeX",
      gy := axisValue stof json "gyroY" "gyro_y" "gyroscopeY",
      gz := axisValue stof json "gyroZ" "gyro_z" "gyroscopeZ" })

/-- Specification: text of a buffer array body, the values `v1, ..., vn`
separated by commas. -/
def joinValues : List (List Char) → List Char
  | [] => []
  | [v] => v
  | v :: w :: rest => v ++ ',' :: joinValues (w :: rest)

end PhoneSlamPhyphox

/-! ## Operation sequences on the shared queue and buffer of `phone_slam.cpp` -/

namespace PhoneSlam

/-- A call a thread makes on a `SafeQueue`: `push(item)`, `pop(item)` with the
caller's output variable, or `clear()`. -/
inductive QueueOp (T : Type) where
  | push (item : T)
  | pop (item : T)
  | clear
deriving DecidableEq, Repr

/-- The queue after one call. -/
def applyQueueOp {T : Type} (q : SafeQueue T) : QueueOp T → SafeQueue T
  | .push item => q.push item
  | .pop item => (q.pop item).2.2
  | .clear => q.clear

/-- The queue after a finite interleaving of calls; every call holds the
mutex for its whole body, so the calls take effect one after the other. -/
def runQueueOps {T : Type} (q : SafeQueue T) (ops : List (QueueOp T)) : SafeQueue T :=
  ops.foldl applyQueueOp q

/-- A step that touches `g_imu_buffer`: one pass of the receive loop of
`imuReceiverThread` for the datagram that arrived (if any), or one call
`getImuMeasurements(t_start, t_end)` of the synchronization loop. -/
inductive BufferOp where
  | receive (datagram : Option (List Nat))
  | query (t_start t_end : ℚ)

/-- `g_imu_buffer` after one step. -/
def applyBufferOp (toDouble toFloat : List Nat → ℚ) (g_imu_buffer : List ImuMeasurement) :
    BufferOp → List ImuMeasurement
  | .receive datagram => imuReceiverStep toDouble toFloat g_imu_buffer datagram
  | .query t_start t_end => (getImuMeasurements g_imu_buffer t_start t_end).2

/-- `g_imu_buffer` after a finite interleaving of steps; every step holds
`g_imu_mutex` while it touches the buffer. -/
def runBufferOps (toDouble toFloat : List Nat → ℚ) (g_imu_buffer : List ImuMeasurement)
    (ops : List BufferOp) : List ImuMeasurement :=
  ops.foldl (applyBufferOp toDouble toFloat) g_imu_buffer

end PhoneSlam

/-! ## Inertial buffer and synchronization loop of `phone_slam_websocket.cpp` -/

namespace PhoneSlamWebsocket

open StdString

/-- The conversion done inside `getImuMeasurements`: an `ImuMeasurement` turned
into the estimator's point format. -/
def toPoint (imu : ImuMeasurement) : PhoneSlam.Point :=
  { acc_x := imu.ax, acc_y := imu.ay, acc_z := imu.az,
    ang_vel_x := imu.gx, ang_vel_y := imu.gy, ang_vel_z := imu.gz,
    t := imu.timestamp }

/-- `getImuMeasurements(t_start, t_end)` of the WebSocket variant run on the
buffer `g_imu_buffer` ("get recent IMU measurements and clear buffer"):
returns the collected measurements and the buffer after `clear()`. -/
def getImuMeasurements (g_imu_buffer : List ImuMeasurement) (_t_start _t_end : ℚ) :
    List PhoneSlam.Point × List ImuMeasurement :=
  let measurements : List PhoneSlam.Point :=
    g_imu_buffer.foldl (fun measurements imu => measurements ++ [toPoint imu]) []
  (measurements, [])

/-- The statements `websocketReceiverThread` runs for a decoded, non-empty
payload: `imu.timestamp` is set from the clock (`stamp`), `parseSensorData`
is called (reading the clock again, `now`), and on success the sample is
appended to `g_imu_buffer` with the size cap applied. The result is the
accumulator and the buffer afterwards. -/
def handlePayload (stof : List Char → Option ℚ) (g_sensor_accum : SensorAccumulator)
    (g_imu_buffer : List ImuMeasurement) (payload : List Char) (stamp now : ℚ) :
    SensorAccumulator × List ImuMeasurement :=
  let imu : ImuMeasurement :=
    { timestamp := stamp, ax := 0, ay := 0, az := 0, gx := 0, gy := 0, gz := 0 }
  let parsed := parseSensorData stof g_sensor_accum payload now imu
  if parsed.1 then
    let pushed := g_imu_buffer ++ [parsed.2.1]
    (parsed.2.2, if pushed.length > 10000 then pushed.drop 5000 else pushed)
  else
    (parsed.2.2, g_imu_buffer)

/-- A step that touches `g_imu_buffer` in the WebSocket variant: the receiver
thread handling one payload, or the synchronization loop calling
`getImuMeasurements(t_start, t_end)`. -/
inductive BufferOp where
  | payload (text : List Char) (stamp now : ℚ)
  | query (t_start t_end : ℚ)

/-- Accumulator and buffer after one step. -/
def applyBufferOp (stof : List Char → Option ℚ)
    (state : SensorAccumulator × List ImuMeasurement) :
    BufferOp → SensorAccumulator × List ImuMeasurement
  | .payload text stamp now => handlePayload stof state.1 state.2 text stamp now
  | .query t_start t_end => (state.1, (getImuMeasurements state.2 t_start t_end).2)

/-- Accumulator and buffer after a finite interleaving of steps. -/
def runBufferOps (stof : List Char → Option ℚ)
    (state : SensorAccumulator × List ImuMeasurement) (ops : List BufferOp) :
    SensorAccumulator × List ImuMeasurement :=
  ops.foldl (applyBufferOp stof) state

/-- The variables of `main` that the synchronization loop of the WebSocket
variant reads and writes, the shared inertial buffer, and the calls made to
the estimator so far. -/
structure LoopState where
  last_frame_time : ℚ := 0
  frame_count : Nat := 0
  g_imu_buffer : List ImuMeasurement := []
  tracked : List PhoneSlam.TrackCall := []
deriving DecidableEq, Repr

/-- Body of the loop of the WebSocket variant for a frame that `cap.read`
delivered: `gray` is the converted image, `timestamp` the clock reading. -/
def processFrame (s : LoopState) (gray : PhoneSlam.Mat) (timestamp : ℚ) : LoopState :=
  let queried : List PhoneSlam.Point × List ImuMeasurement :=
    if s.last_frame_time > 0 then
      getImuMeasurements s.g_imu_buffer s.last_frame_time timestamp
    else
      ([], s.g_imu_buffer)
  let imu_measurements := queried.1
  { last_frame_time := timestamp,
    frame_count := s.frame_count + 1,
    g_imu_buffer := queried.2,
    tracked := s.tracked ++
      [{ image := gray, timestamp := timestamp, imu_measurements := imu_measurements }] }

/-- The loop of the WebSocket variant run over the frames it reads, each with
its clock reading, with no producer writing to the buffer in between. -/
def runFrames (s : LoopState) (frames : List (PhoneSlam.Mat × ℚ)) : LoopState :=
  frames.foldl (fun st f => processFrame st f.1 f.2) s

/-- The accumulator after a sequence of `parseSensorData` calls. -/
def accumAfter (stof : List Char → Option ℚ) (imu : ImuMeasurement)
    (accum : SensorAccumulator) (msgs : List (List Char × ℚ)) : SensorAccumulator :=
  (runMessages stof imu accum msgs).2

/-- The samples `parseSensorData` hands back over a sequence of messages, one
for each call that returns true. -/
def emittedSamples (stof : List Char → Option ℚ) (imu : ImuMeasurement) :
    SensorAccumulator → List (List Char × ℚ) → List ImuMeasurement
  | _, [] => []
  | accum, (data, now) :: rest =>
    let r := parseSensorData stof accum data now imu
    (if r.1 then [r.2.1] else []) ++ emittedSamples stof imu r.2.2 rest

/-- Specification: the x, y, z values of the most recent message so far that
is a reading of the sensor named `word`, if there is one. -/
def lastReading (stof : List Char → Option ℚ) (word : List Char) (msgs : List (List Char)) :
    Option (ℚ × ℚ × ℚ) :=
  (msgs.reverse.find? (fun m => decide (word <:+: m))).map (parseValues stof)

end PhoneSlamWebsocket

/-! ## Camera receiver of `phone_slam.cpp` -/

namespace PhoneSlam

/-- A client connection as the receiver sees it: `stream` holds the bytes the
client sends before it closes the connection, in order; `arrivals` tells, for
each coming call of `recv`, how many bytes are at hand at that moment (taken
as at least 1 while the stream lasts, and as the whole rest of the stream
when the list is used up). -/
structure Connection where
  stream : List Nat
  arrivals : List Nat
deriving DecidableEq, Repr

/-- The call `recv(client_fd, buf, len, 0)` on the stream socket: the return
value, the bytes written to `buf`, and the connection afterwards. It hands
over at most `len` of the bytes at hand; once the stream is used up the
client has closed and the call returns 0. -/
def recvStream (conn : Connection) (len : Nat) : Int × List Nat × Connection :=
  if conn.stream.isEmpty then
    (0, [], conn)
  else
    let atHand := max 1 (conn.arrivals.headD conn.stream.length)
    let n := min len (min atHand conn.stream.length)
    ((n : Nat), conn.stream.take n,
      { stream := conn.stream.drop n, arrivals := conn.arrivals.tail })

/-- The conversion `(int)size` of a 32-bit unsigned value. -/
def toInt32 (size : Nat) : Int :=
  if size % 2 ^ 32 < 2 ^ 31 then (size % 2 ^ 32 : Nat) else ((size % 2 ^ 32 : Nat) : Int) - 2 ^ 32

/-- The two read loops of `cameraReceiverThread`,
`while (bytes_read < want) { n = recv(fd, buf + bytes_read, total - bytes_read, 0);
if (n <= 0) break; bytes_read += n; }`, with `want = total = 12` for the
header and `want = (int)size`, `total = size` for the payload. The result is
`bytes_read`, the bytes received and the connection after the loop. Every
pass that goes on adds at least one byte, so `fuel = total` passes suffice. -/
def readLoop : Nat → Int → Nat → Int → List Nat → Connection → Int × List Nat × Connection
  | 0, _, _, bytes_read, received, conn => (bytes_read, received, conn)
  | fuel + 1, want, total, bytes_read, received, conn =>
    if bytes_read < want then
      let r := recvStream conn (((total : Int) - bytes_read) % 2 ^ 32).toNat
      if r.1 ≤ 0 then
        (bytes_read, received, r.2.2)
      else
        readLoop fuel want total (bytes_read + r.1) (received ++ r.2.1) r.2.2
    else
      (bytes_read, received, conn)

/-- The `memcpy` of the four length bytes of the header into `uint32_t size`
on a little-endian host. -/
def readUInt32 (bytes : List Nat) : Nat :=
  bytes.getD 0 0 + 256 * bytes.getD 1 0 + 65536 * bytes.getD 2 0 + 16777216 * bytes.getD 3 0

/-- What the camera receiver has done on a connection: the connection itself,
the frame queue, the buffers handed to `cv::imdecode` so far (each with the
timestamp of its header), and whether the inner loop is still running. -/
structure CameraState where
  conn : Connection
  g_frame_queue : SafeQueue TimestampedFrame := {}
  decoded : List (ℚ × List Nat) := []
  connected : Bool := true
deriving DecidableEq, Repr

/-- One pass of the inner loop of `cameraReceiverThread`: read the 12-byte
header, read the payload into `jpeg_data` (a vector of `size` zero bytes that
the received bytes overwrite from the front), decode it and push the frame
when it is not empty. `toDouble` reads 8 bytes as a `double`; `imdecode` is
`cv::imdecode`, `none` standing for an empty matrix. A short header or a
short payload leaves the loop. -/
def receiveFrame (toDouble : List Nat → ℚ) (imdecode : List Nat → Option Mat)
    (st : CameraState) : CameraState :=
  let head := readLoop 12 12 12 0 [] st.conn
  if head.1 < 12 then
    { st with conn := head.2.2, connected := false }
  else
    let header := head.2.1
    let timestamp := toDouble (header.take 8)
    let size := readUInt32 (header.drop 8)
    let body := readLoop size (toInt32 size) size 0 [] head.2.2
    if body.1 < toInt32 size then
      { st with conn := body.2.2, connected := false }
    else
      let jpeg_data := body.2.1 ++ List.replicate (size - body.2.1.length) 0
      match imdecode jpeg_data with
      | some frame =>
        { conn := body.2.2,
          g_frame_queue := st.g_frame_queue.push { timestamp := timestamp, image := frame },
          decoded := st.decoded ++ [(timestamp, jpeg_data)],
          connected := true }
      | none =>
        { conn := body.2.2,
          g_frame_queue := st.g_frame_queue,
          decoded := st.decoded ++ [(timestamp, jpeg_data)],
          connected := true }

/-- The inner loop `while (g_running)` of `cameraReceiverThread` on one
connection, for at most `fuel` passes; every pass that goes on takes at least
the 12 header bytes off the stream. -/
def serveClientLoop (toDouble : List Nat → ℚ) (imdecode : List Nat → Option Mat) :
    Nat → CameraState → CameraState
  | 0, st => st
  | fuel + 1, st =>
    let next := receiveFrame toDouble imdecode st
    if next.connected then serveClientLoop toDouble imdecode fuel next else next

/-- The inner loop run on a fresh connection until the client is gone. -/
def serveClient (toDouble : List Nat → ℚ) (imdecode : List Nat → Option Mat)
    (st : CameraState) : CameraState :=
  serveClientLoop toDouble imdecode (st.conn.stream.length + 1) st

end PhoneSlam

/-! ## Poller of `phone_slam_phyphox.cpp` -/

namespace PhoneSlamPhyphox

/-- One pass of the loop of `phyphoxPollerThread` for the response `httpGet`
returned, at clock reading `now`: `g_imu_buffer` after the pass. -/
def pollStep (stof : List Char → Option ℚ) (g_imu_buffer : List ImuMeasurement)
    (response : List Char) (now : ℚ) : List ImuMeasurement :=
  if !response.isEmpty then
    let imu : ImuMeasurement :=
      { timestamp := now, ax := 0, ay := 0, az := 0, gx := 0, gy := 0, gz := 0 }
    let parsed := parsePhyphoxData stof response imu
    if parsed.1 then
      let pushed := g_imu_buffer ++ [parsed.2]
      if pushed.length > 10000 then pushed.drop 5000 else pushed
    else
      g_imu_buffer
  else
    g_imu_buffer

/-- Specification: the first value of a list that is not 0, and 0 when there
is none. -/
def firstNonZero (values : List ℚ) : ℚ :=
  (values.find? (fun v => decide (v ≠ 0))).getD 0

end PhoneSlamPhyphox

/-! ## Text UDP receiver of `phone_slam_ipwebcam.cpp` -/

namespace PhoneSlamIpwebcam

open StdString

/-- IMU measurement struct. -/
structure ImuMeasurement where
  timestamp : ℚ
  ax : ℚ
  ay : ℚ
  az : ℚ
  gx : ℚ
  gy : ℚ
  gz : ℚ
deriving DecidableEq, Repr

/-- An item of a `sscanf` format: a literal character or the conversion `%f`. -/
inductive FormatItem where
  | lit (c : Char)
  | float
deriving DecidableEq, Repr

/-- The items of a format string that holds only literal characters (none of
them white space) and `%f` conversions. -/
def formatItems : List Char → List FormatItem
  | '%' :: 'f' :: rest => FormatItem.float :: formatItems rest
  | c :: rest => FormatItem.lit c :: formatItems rest
  | [] => []

/-- `sscanf(text, format, ...)`: the values of the conversions that succeed,
in order; the return value is their number (a negative return value, for an
input that ends before the first conversion, counts as none). A literal must
match the next character; `scanFloat` is the conversion `%f`, which skips
white space and reads a number off the front of the text. -/
def sscanf (scanFloat : List Char → Option (ℚ × List Char)) :
    List FormatItem → List Char → List ℚ
  | [], _ => []
  | FormatItem.lit _ :: _, [] => []
  | FormatItem.lit c :: format, x :: rest =>
    if x = c then sscanf scanFloat format rest else []
  | FormatItem.float :: format, text =>
    match scanFloat text with
    | some (v, rest) => v :: sscanf scanFloat format rest
    | none => []

/-- `strstr(text, pat)`: the text from the first occurrence of `pat` on, or
`none` for a null pointer. -/
def strstr (text pat : List Char) : Option (List Char) :=
  (find text pat).map (fun pos => text.drop pos)

/-- The call `recvfrom(sock_fd, buffer, len, 0, ...)` on the datagram socket:
-1 when no datagram arrives before the timeout, otherwise at most `len` bytes
of the datagram are copied and their number is returned. -/
def recvfrom (datagram : Option (List Nat)) (len : Nat) : Int × List Nat :=
  match datagram with
  | none => (-1, [])
  | some bytes => (((bytes.take len).length : Nat), bytes.take len)

/-- The C string in `buffer` after `buffer[n] = 0`: the received bytes up to
the first zero byte. -/
def cString (received : List Nat) : List Char :=
  (received.takeWhile (fun b => b ≠ 0)).map Char.ofNat

/-- The push onto `g_imu_buffer` with the size cap applied. -/
def appendImu (g_imu_buffer : List ImuMeasurement) (imu : ImuMeasurement) :
    List ImuMeasurement :=
  let pushed := g_imu_buffer ++ [imu]
  if pushed.length > 10000 then pushed.drop 5000 else pushed

/-- One pass of the receive loop of `imuReceiverThread` of the IP Webcam
variant, at clock reading `now`: `g_imu_buffer` after the pass. -/
def imuReceiverStep (scanFloat : List Char → Option (ℚ × List Char))
    (g_imu_buffer : List ImuMeasurement) (datagram : Option (List Nat)) (now : ℚ) :
    List ImuMeasurement :=
  let received := recvfrom datagram 255
  let n := received.1
  if n > 0 then
    let buffer := cString received.2
    let csv := sscanf scanFloat (formatItems "%f,%f,%f,%f,%f,%f".toList) buffer
    if csv.length = 6 then
      appendImu g_imu_buffer
        { timestamp := now, ax := csv.getD 0 0, ay := csv.getD 1 0, az := csv.getD 2 0,
          gx := csv.getD 3 0, gy := csv.getD 4 0, gz := csv.getD 5 0 }
    else
      match strstr buffer "\"accelerometer\"".toList, strstr buffer "\"gyroscope\"".toList with
      | some accel, some gyro =>
        let a := sscanf scanFloat
          (formatItems "\"accelerometer\":\x7b\"x\":%f,\"y\":%f,\"z\":%f\x7d".toList) accel
        let g := sscanf scanFloat
          (formatItems "\"gyroscope\":\x7b\"x\":%f,\"y\":%f,\"z\":%f\x7d".toList) gyro
        appendImu g_imu_buffer
          { timestamp := now, ax := a.getD 0 0, ay := a.getD 1 0, az := a.getD 2 0,
            gx := g.getD 0 0, gy := g.getD 1 0, gz := g.getD 2 0 }
      | _, _ => g_imu_buffer
  else
    g_imu_buffer

end PhoneSlamIpwebcam

/-! ## Byte streams of camera frames -/

namespace PhoneSlam

/-- Specification: the bytes of a sequence of complete camera frames, each
given as its 12-byte header and its payload, in stream order. -/
def framesBytes : List (List Nat × List Nat) → List Nat
  | [] => []
  | frame :: rest => frame.1 ++ frame.2 ++ framesBytes rest

/-- Specification: a complete camera frame, a 12-byte header whose length
field gives the length of the payload, below `2^31`. -/
def CompleteFrame (frame : List Nat × List Nat) : Prop :=
  frame.1.length = 12 ∧ readUInt32 (frame.1.drop 8) = frame.2.length ∧ frame.2.length < 2 ^ 31

/-- Specification: what is left of a frame of that kind when the connection
ends in the middle of it: fewer than 12 header bytes, or a whole header
followed by fewer payload bytes than its length field announces. -/
def TruncatedFrame (bytes : List Nat) : Prop :=
  bytes.length < 12
    ∨ ∃ header rest, bytes = header ++ rest ∧ header.length = 12
        ∧ rest.length < readUInt32 (header.drop 8) ∧ readUInt32 (header.drop 8) < 2 ^ 31

end PhoneSlam

/-! ## Drain loop of `websocketReceiverThread` -/

namespace PhoneSlamWebsocket

/-- What the loop `while (recvBuffer.size() >= 2)` of
`websocketReceiverThread` works on: the receive buffer, the accumulator and
the IMU buffer; `parsed` records, in order, the payloads that were passed to
`parseSensorData`. -/
structure DrainState where
  recvBuffer : List Nat
  g_sensor_accum : SensorAccumulator
  g_imu_buffer : List ImuMeasurement
  parsed : List (List Char)

/-- How one pass through the loop ends: the loop is left (its condition is
false or `break` is reached), `decodeWebSocketFrame` throws, or the body runs
to its end and the condition is tested again. -/
inductive DrainStep where
  | stop (state : DrainState)
  | threw (state : DrainState)
  | next (state : DrainState)

/-- One pass through `while (recvBuffer.size() >= 2) { ... }`: the frame
decoder is called on the whole buffer, `consumed == 0` breaks, otherwise the
first `consumed` bytes are erased and a non-empty payload is handled.
`clock k` gives the two clock readings taken for the `k`-th payload that
reaches `parseSensorData`. -/
def drainIteration (stof : List Char → Option ℚ) (clock : Nat → ℚ × ℚ) (st : DrainState) :
    DrainStep :=
  if st.recvBuffer.length ≥ 2 then
    match decodeWebSocketFrame st.recvBuffer st.recvBuffer.length with
    | none => .threw st
    | some (payload, consumed) =>
      if consumed = 0 then
        .stop st
      else
        let recvBuffer := st.recvBuffer.drop consumed
        if !payload.isEmpty then
          let text := payload.map Char.ofNat
          let time := clock st.parsed.length
          let handled :=
            handlePayload stof st.g_sensor_accum st.g_imu_buffer text time.1 time.2
          .next { recvBuffer := recvBuffer, g_sensor_accum := handled.1,
                  g_imu_buffer := handled.2, parsed := st.parsed ++ [text] }
        else
          .next { recvBuffer := recvBuffer, g_sensor_accum := st.g_sensor_accum,
                  g_imu_buffer := st.g_imu_buffer, parsed := st.parsed }
  else
    .stop st

/-- Outcome of running the loop with a bound on the number of passes. -/
inductive DrainResult where
  | finished (state : DrainState)
  | threw (state : DrainState)
  | outOfFuel

/-- The loop `while (recvBuffer.size() >= 2) { ... }`, run for at most `fuel`
passes. -/
def drainLoop (stof : List Char → Option ℚ) (clock : Nat → ℚ × ℚ) :
    Nat → DrainState → DrainResult
  | 0, _ => .outOfFuel
  | fuel + 1, st =>
    match drainIteration stof clock st with
    | .stop st1 => .finished st1
    | .threw st1 => .threw st1
    | .next st1 => drainLoop stof clock fuel st1

end PhoneSlamWebsocket

/-! ## Messages of the sensor server -/

namespace PhoneSlamWebsocket

open StdString

/-- Specification: the two sensors whose readings the accumulator combines. -/
inductive Sensor where
  | accelerometer
  | gyroscope
deriving DecidableEq, Repr

/-- Specification: the name of the sensor as it stands in the `type` field of
a message. -/
def Sensor.word : Sensor → List Char
  | .accelerometer => "accelerometer".toList
  | .gyroscope => "gyroscope".toList

/-- Specification: the two shapes of the `values` field of a message, the
array `[x,y,z]` and the object with the members `x`, `y`, `z`. -/
inductive ValuesFormat where
  | array
  | object
deriving DecidableEq, Repr

/-- Specification: a reading as the sensor server sends it: the sensor, the
shape of the `values` field, and the texts of the numbers x, y and z. -/
structure Reading where
  sensor : Sensor
  format : ValuesFormat
  x : List Char
  y : List Char
  z : List Char
deriving DecidableEq, Repr

/-- Specification: the message that carries a reading, in the wire format
`\x7b"type":"android.sensor.accelerometer","values":[x,y,z]\x7d`, with
`gyroscope` for the other sensor and
`\x7b"x":x,"y":y,"z":z\x7d` for the other shape of the `values` field. -/
def Reading.text (r : Reading) : List Char :=
  "\x7b\"type\":\"android.sensor.".toList ++ (r.sensor.word ++ ("\",\"values\":".toList
    ++ ((match r.format with
        | .array => '[' :: (r.x ++ ',' :: (r.y ++ ',' :: (r.z ++ [']'])))
        | .object =>
          "\x7b\"x\":".toList ++ (r.x ++ (",\"y\":".toList ++ (r.y ++ (",\"z\":".toList
            ++ (r.z ++ ['\x7d']))))))
      ++ ['\x7d'])))

/-- Specification: the x, y, z values of a reading: what `std::stof` makes of
the three texts, 0 where it throws. -/
def Reading.values (stof : List Char → Option ℚ) (r : Reading) : ℚ × ℚ × ℚ :=
  ((stof r.x).getD 0, (stof r.y).getD 0, (stof r.z).getD 0)

end PhoneSlamWebsocket

/-! # Theorems -/

/-! ## Theorems: `std::string` operations -/

namespace StdString

theorem findAux_isSome_iff (pat : List Char) (s : List Char) (i : Nat) :
    (findAux pat s i).isSome = true ↔ pat <:+: s := by
  induction s generalizing i with
  | nil =>
    cases pat with
    | nil => simp [findAux]
    | cons p ps => simp [findAux]
  | cons c cs ih =>
    unfold findAux
    by_cases h : pat.isPrefixOf (c :: cs) = true
    · rw [if_pos h]
      simp only [Option.isSome_some, true_iff]
      exact (List.isPrefixOf_iff_prefix.mp h).isInfix
    · rw [if_neg h, ih (i + 1), List.infix_cons_iff]
      constructor
      · intro hi; exact Or.inr hi
      · rintro (hp | hi)
        · exact absurd (List.isPrefixOf_iff_prefix.mpr hp) h
        · exact hi

theorem find_isSome_iff (s pat : List Char) : (find s pat).isSome = true ↔ pat <:+: s := by
  unfold find findFrom
  rw [if_neg (by omega), List.drop_zero]
  exact findAux_isSome_iff pat s 0

end StdString

/-! ## Theorems: `phone_slam.cpp` -/

namespace PhoneSlam

theorem foldl_collect_eq (p : ImuMeasurement → Prop) [DecidablePred p]
    (buf : List ImuMeasurement) (acc : List Point) :
    buf.foldl (fun measurements imu =>
        if p imu then measurements ++ [toPoint imu] else measurements) acc
      = acc ++ (buf.filter (fun m => decide (p m))).map toPoint := by
  induction buf generalizing acc with
  | nil => simp
  | cons m rest ih =>
    by_cases h : p m
    · simp [List.foldl_cons, h, ih, List.filter_cons]
    · simp [List.foldl_cons, h, ih, List.filter_cons]

theorem getImuMeasurements_fst (buf : List ImuMeasurement) (a b : ℚ) :
    (getImuMeasurements buf a b).1 = (samplesInWindow buf a b).map toPoint := by
  unfold getImuMeasurements samplesInWindow
  simp only []
  rw [foldl_collect_eq (fun imu => imu.timestamp > a ∧ imu.timestamp ≤ b) buf []]
  simp

theorem getImuMeasurements_snd (buf : List ImuMeasurement) (a b : ℚ) :
    (getImuMeasurements buf a b).2 = buf.filter (fun m => decide (a - 1 ≤ m.timestamp)) := by
  unfold getImuMeasurements
  simp only []
  apply List.filter_congr
  intro m _
  simp only [← not_lt, decide_not]

theorem push_max_size {T : Type} (q : SafeQueue T) (x : T) :
    (q.push x).max_size_ = q.max_size_ := by
  unfold SafeQueue.push
  simp only []
  split <;> rfl

theorem push_queue_of_le {T : Type} (q : SafeQueue T) (x : T)
    (h : q.queue_.length ≤ q.max_size_) :
    (q.push x).queue_ = (q.queue_ ++ [x]).drop ((q.queue_ ++ [x]).length - q.max_size_) := by
  unfold SafeQueue.push
  simp only []
  split
  · rename_i hgt
    simp only [List.length_append, List.length_singleton] at hgt ⊢
    have : q.queue_.length + 1 - q.max_size_ = 1 := by omega
    rw [this, List.drop_one]
  · rename_i hgt
    simp only [List.length_append, List.length_singleton] at hgt ⊢
    have : q.queue_.length + 1 - q.max_size_ = 0 := by omega
    rw [this, List.drop_zero]

theorem pushAll_queue {T : Type} (xs : List T) (q : SafeQueue T)
    (h : q.queue_.length ≤ q.max_size_) :
    (pushAll q xs).queue_
        = (q.queue_ ++ xs).drop ((q.queue_ ++ xs).length - q.max_size_)
      ∧ (pushAll q xs).max_size_ = q.max_size_ := by
  induction xs generalizing q with
  | nil =>
    have : q.queue_.length - q.max_size_ = 0 := by omega
    simp [pushAll, this]
  | cons x rest ih =>
    have hq := push_queue_of_le q x h
    have hm := push_max_size q x
    have hlen : (q.push x).queue_.length ≤ (q.push x).max_size_ := by
      rw [hq, hm]
      simp only [List.length_drop, List.length_append, List.length_singleton]
      omega
    have step := ih (q.push x) hlen
    have hfold : pushAll q (x :: rest) = pushAll (q.push x) rest := rfl
    rw [hfold, step.1, step.2, hm]
    refine ⟨?_, rfl⟩
    have hsplit : q.queue_ ++ x :: rest = (q.queue_ ++ [x]) ++ rest := by simp
    rw [hsplit]
    by_cases hfull : q.queue_.length + 1 ≤ q.max_size_
    · have h0 : (q.queue_ ++ [x]).length - q.max_size_ = 0 := by
        simp only [List.length_append, List.length_singleton]; omega
      rw [hq, h0, List.drop_zero]
    · have h1 : (q.queue_ ++ [x]).length - q.max_size_ = 1 := by
        simp only [List.length_append, List.length_singleton]; omega
      rw [hq, h1]
      have hd : List.drop 1 (q.queue_ ++ [x]) ++ rest
          = List.drop 1 ((q.queue_ ++ [x]) ++ rest) := by
        cases hc : q.queue_ ++ [x] with
        | nil => simp at hc
        | cons y ys => simp
      rw [hd, List.drop_drop]
      congr 1
      simp only [List.length_drop, List.length_append, List.length_singleton]
      omega

/-- C3: after `N > 100` pushes onto an empty queue of the default capacity 100
(no pops in between), `size()` is 100 and the queue holds exactly the 100 most
recently pushed items, in arrival order. -/
theorem pushAll_keeps_most_recent {T : Type} (items : List T) (hN : 100 < items.length) :
    (pushAll ({} : SafeQueue T) items).size = 100
      ∧ (pushAll ({} : SafeQueue T) items).queue_ = items.drop (items.length - 100) := by
  have h := (pushAll_queue items ({} : SafeQueue T) (by simp)).1
  simp only [List.nil_append] at h
  refine ⟨?_, h⟩
  unfold SafeQueue.size
  rw [h, List.length_drop]
  omega

/-- The C3 theorem applied to the 103 pushes `0, 1, ..., 102`. -/
theorem pushAll_keeps_most_recent_witness :
    100 < (List.range 103).length
      ∧ (pushAll ({} : SafeQueue Nat) (List.range 103)).size = 100
      ∧ (pushAll ({} : SafeQueue Nat) (List.range 103)).queue_
          = (List.range 103).drop ((List.range 103).length - 100) :=
  ⟨by simp, pushAll_keeps_most_recent (List.range 103) (by simp)⟩

/-- C10: the first frame the synchronization loop processes is handed to the
estimator with an empty inertial window, whatever its timestamp and whatever
the inertial buffer holds; the buffer is not touched. This holds for the loop
body and for a whole iteration that pops the frame from the queue. -/
theorem first_frame_dispatched_with_empty_window (buf : List ImuMeasurement)
    (frame : TimestampedFrame) (waiting : List TimestampedFrame) :
    (processFrame (initialState buf) frame).tracked
        = [{ image := frame.image, timestamp := frame.timestamp, imu_measurements := [] }]
      ∧ (processFrame (initialState buf) frame).g_imu_buffer = buf
      ∧ (loopIteration { queue_ := frame :: waiting } (initialState buf)).2.tracked
        = [{ image := frame.image, timestamp := frame.timestamp, imu_measurements := [] }] := by
  simp [processFrame, initialState, loopIteration, SafeQueue.pop]

theorem runFrames_after_zero (buf : List ImuMeasurement) (image0 : Mat)
    (frame : TimestampedFrame) :
    (runFrames (initialState buf) [{ timestamp := 0, image := image0 }, frame]).tracked
      = [{ image := image0, timestamp := 0, imu_measurements := [] },
         { image := frame.image, timestamp := frame.timestamp, imu_measurements := [] }] := by
  simp [runFrames, processFrame, initialState]

/-- C9 (the loop run on the failing input): with an empty inertial buffer and
a first frame at timestamp 0, the window of every second frame holds no sample
at all, yet the second frame is handed to the estimator (with an empty
window), because the recorded previous-frame time is still 0. -/
theorem second_frame_after_zero_is_dispatched (frame : TimestampedFrame) :
    (samplesInWindow [] 0 frame.timestamp).length < 2
      ∧ (runFrames (initialState []) [frameAt 0, frame]).tracked
        = [{ image := [], timestamp := 0, imu_measurements := [] },
           { image := frame.image, timestamp := frame.timestamp, imu_measurements := [] }] := by
  refine ⟨by simp [samplesInWindow], ?_⟩
  simp [runFrames, processFrame, initialState, frameAt]

/-- C1 (the loop run on the failing input): with frames at t = 0, 1, 2 and
samples at t = 0.5, 0.9, 1.5, 1.8 the estimator receives frame 0 with an empty
window, frame 1 with an empty window (not `[0.5, 0.9]`) and frame 2 with the
window `[1.5, 1.8]`. -/
theorem sync_loop_frames_0_1_2 :
    (runFrames
        (initialState [sampleAt (1/2), sampleAt (9/10), sampleAt (3/2), sampleAt (9/5)])
        [frameAt 0, frameAt 1, frameAt 2]).tracked
      = [{ image := [], timestamp := 0, imu_measurements := [] },
         { image := [], timestamp := 1, imu_measurements := [] },
         { image := [], timestamp := 2,
           imu_measurements := [toPoint (sampleAt (3/2)), toPoint (sampleAt (9/5))] }] := by
  simp [runFrames, processFrame, initialState, frameAt, getImuMeasurements, sampleAt]
  norm_num

theorem imuReceiverStep_short (toDouble toFloat : List Nat → ℚ) (buf : List ImuMeasurement)
    (bytes : List Nat) (hlen : bytes.length < 32) :
    imuReceiverStep toDouble toFloat buf (some bytes) = buf := by
  have hn : ((bytes.take 32).length : Int) ≠ 32 := by
    rw [List.length_take]; omega
  simp only [imuReceiverStep, recv]
  rw [if_neg hn]

theorem imuReceiverStep_long (toDouble toFloat : List Nat → ℚ) (buf : List ImuMeasurement)
    (bytes : List Nat) (hlen : 32 ≤ bytes.length) (hroom : buf.length < 10000) :
    imuReceiverStep toDouble toFloat buf (some bytes)
      = buf ++ [decodeImu toDouble toFloat (bytes.take 32)] := by
  have hn : ((bytes.take 32).length : Int) = 32 := by
    rw [List.length_take]; omega
  simp only [imuReceiverStep, recv]
  rw [if_pos hn, if_neg (by simp only [List.length_append, List.length_singleton]; omega)]

/-- C6 (the receive loop run on the failing input): for a 33-byte datagram
`recv` with a 32-byte buffer returns 32, so the pass appends one sample, read
from the first 32 bytes, to an empty inertial buffer. -/
theorem imuReceiverStep_accepts_33_bytes (toDouble toFloat : List Nat → ℚ) :
    (recv (some (List.replicate 33 0)) 32).1 = 32
      ∧ imuReceiverStep toDouble toFloat [] (some (List.replicate 33 0))
        = [decodeImu toDouble toFloat (List.replicate 32 0)] := by
  refine ⟨by decide, ?_⟩
  rw [imuReceiverStep_long toDouble toFloat [] (List.replicate 33 0) (by simp) (by simp)]
  simp

theorem samplesInWindow_trimmed (buf : List ImuMeasurement) (c a b : ℚ) (h : c ≤ a) :
    samplesInWindow (buf.filter (fun m => decide (c - 1 ≤ m.timestamp))) a b
      = samplesInWindow buf a b := by
  unfold samplesInWindow
  rw [List.filter_filter]
  apply List.filter_congr
  intro m _
  by_cases hm : a < m.timestamp ∧ m.timestamp ≤ b
  · have : c - 1 ≤ m.timestamp := by linarith [hm.1]
    simp [hm, this]
  · simp [hm]

theorem runFrames_positive_aux (buf : List ImuMeasurement) (fs : List TimestampedFrame) :
    ∀ s : LoopState, 0 < s.last_frame_time →
      (∀ a b, s.last_frame_time ≤ a →
        samplesInWindow s.g_imu_buffer a b = samplesInWindow buf a b) →
      List.Chain (· < ·) s.last_frame_time (fs.map (·.timestamp)) →
      (runFrames s fs).tracked = s.tracked ++ expectedDispatches buf s.last_frame_time fs := by
  induction fs with
  | nil => intro s _ _ _; simp [runFrames, expectedDispatches]
  | cons f rest ih =>
    intro s hpos hinv hchain
    simp only [List.map_cons, List.chain_cons] at hchain
    obtain ⟨hlt, hrest⟩ := hchain
    have hstep : runFrames s (f :: rest) = runFrames (processFrame s f) rest := rfl
    have hlast : (processFrame s f).last_frame_time = f.timestamp := rfl
    have hbuf : (processFrame s f).g_imu_buffer
        = s.g_imu_buffer.filter (fun m => decide (s.last_frame_time - 1 ≤ m.timestamp)) := by
      simp only [processFrame, if_pos hpos]
      exact getImuMeasurements_snd _ _ _
    have htr : (processFrame s f).tracked = s.tracked ++
        (if 2 ≤ (samplesInWindow buf s.last_frame_time f.timestamp).length then
          [{ image := f.image, timestamp := f.timestamp,
             imu_measurements := (samplesInWindow buf s.last_frame_time f.timestamp).map toPoint }]
        else []) := by
      simp only [processFrame, if_pos hpos, getImuMeasurements_fst, List.length_map,
        hinv _ f.timestamp (le_refl _), if_neg (ne_of_gt hpos), ge_iff_le]
    have hinv2 : ∀ a b, (processFrame s f).last_frame_time ≤ a →
        samplesInWindow (processFrame s f).g_imu_buffer a b = samplesInWindow buf a b := by
      intro a b ha
      rw [hlast] at ha
      rw [hbuf, samplesInWindow_trimmed _ _ _ _ (by linarith), hinv a b (by linarith)]
    have hpos2 : 0 < (processFrame s f).last_frame_time := by rw [hlast]; linarith
    rw [hstep, ih (processFrame s f) hpos2 hinv2 (by rw [hlast]; exact hrest), htr, hlast]
    simp [expectedDispatches]

/-- Pairing rule of the loop for positive timestamps: when the first
frame's timestamp is positive and the timestamps increase strictly, the first
frame goes to the estimator with an empty window and every later frame goes
with exactly the samples of the original buffer in `(t_prev, t]` when there
are at least 2 of them, and is skipped otherwise. -/
theorem runFrames_positive (buf : List ImuMeasurement) (f0 : TimestampedFrame)
    (fs : List TimestampedFrame) (h0 : 0 < f0.timestamp)
    (hinc : List.Chain (· < ·) f0.timestamp (fs.map (·.timestamp))) :
    (runFrames (initialState buf) (f0 :: fs)).tracked
      = { image := f0.image, timestamp := f0.timestamp, imu_measurements := [] }
          :: expectedDispatches buf f0.timestamp fs := by
  have hstep : runFrames (initialState buf) (f0 :: fs)
      = runFrames (processFrame (initialState buf) f0) fs := rfl
  have hlast : (processFrame (initialState buf) f0).last_frame_time = f0.timestamp := rfl
  have hbuf : (processFrame (initialState buf) f0).g_imu_buffer = buf := by
    simp [processFrame, initialState]
  have htr : (processFrame (initialState buf) f0).tracked
      = [{ image := f0.image, timestamp := f0.timestamp, imu_measurements := [] }] := by
    simp [processFrame, initialState]
  rw [hstep, runFrames_positive_aux buf fs _ (by rw [hlast]; exact h0)
    (by intro a b _; rw [hbuf]) (by rw [hlast]; exact hinc), htr, hlast]
  rfl


end PhoneSlam

/-! ## Theorems: `phone_slam_websocket.cpp` -/

namespace PhoneSlamWebsocket

open StdString



theorem parseSensorData_flags (stof : List Char → Option ℚ) (accum : SensorAccumulator)
    (data : List Char) (now : ℚ) (imu : ImuMeasurement) :
    (parseSensorData stof accum data now imu).1
        = (((find data "accelerometer".toList).isSome || (find data "gyroscope".toList).isSome)
            && (accum.hasAccel || (find data "accelerometer".toList).isSome)
            && (accum.hasGyro || (find data "gyroscope".toList).isSome))
      ∧ (parseSensorData stof accum data now imu).2.2.hasAccel
        = (!(parseSensorData stof accum data now imu).1
            && (accum.hasAccel || (find data "accelerometer".toList).isSome))
      ∧ (parseSensorData stof accum data now imu).2.2.hasGyro
        = (!(parseSensorData stof accum data now imu).1
            && (accum.hasGyro || (find data "gyroscope".toList).isSome)) := by
  unfold parseSensorData
  cases (find data "accelerometer".toList).isSome <;>
    cases (find data "gyroscope".toList).isSome <;>
    cases hA : accum.hasAccel <;> cases hG : accum.hasGyro <;> simp [hA, hG]


theorem runMessages_eq_expected (stof : List Char → Option ℚ) (imu : ImuMeasurement)
    (msgs : List (List Char × ℚ)) :
    ∀ (accum : SensorAccumulator) (pending : List (List Char)),
      accum.hasAccel = pending.any (fun m => decide ("accelerometer".toList <:+: m)) →
      accum.hasGyro = pending.any (fun m => decide ("gyroscope".toList <:+: m)) →
      (accum.hasAccel && accum.hasGyro) = false →
      (runMessages stof imu accum msgs).1 = expectedEmissions pending (msgs.map Prod.fst) := by
  induction msgs with
  | nil => intro accum pending _ _ _; rfl
  | cons m rest ih =>
    intro accum pending hA hG hnot
    obtain ⟨data, now⟩ := m
    obtain ⟨h1, h2, h3⟩ := parseSensorData_flags stof accum data now imu
    have hfa : (find data "accelerometer".toList).isSome
        = decide ("accelerometer".toList <:+: data) := by
      rw [Bool.eq_iff_iff, find_isSome_iff]; simp
    have hfg : (find data "gyroscope".toList).isSome
        = decide ("gyroscope".toList <:+: data) := by
      rw [Bool.eq_iff_iff, find_isSome_iff]; simp
    have hemit : (parseSensorData stof accum data now imu).1
        = ((pending ++ [data]).any (fun m => decide ("accelerometer".toList <:+: m))
          && (pending ++ [data]).any (fun m => decide ("gyroscope".toList <:+: m))) := by
      rw [h1, List.any_append, List.any_append, ← hA, ← hG, hfa, hfg]
      simp only [List.any_cons, List.any_nil, Bool.or_false]
      revert hnot
      cases accum.hasAccel <;> cases accum.hasGyro <;>
        cases decide ("accelerometer".toList <:+: data) <;>
        cases decide ("gyroscope".toList <:+: data) <;> simp
    have hstep : (runMessages stof imu accum ((data, now) :: rest)).1
        = (parseSensorData stof accum data now imu).1
          :: (runMessages stof imu (parseSensorData stof accum data now imu).2.2 rest).1 := rfl
    rw [hstep]
    simp only [List.map_cons, expectedEmissions]
    rw [← hemit]
    congr 1
    apply ih
    · rw [h2]
      cases hr : (parseSensorData stof accum data now imu).1
      · rw [hfa, hA]
        simp only [Bool.not_false, Bool.true_and, Bool.false_eq_true, ↓reduceIte,
          List.any_append, List.any_cons, List.any_nil, Bool.or_false]
      · simp
    · rw [h3]
      cases hr : (parseSensorData stof accum data now imu).1
      · rw [hfg, hG]
        simp only [Bool.not_false, Bool.true_and, Bool.false_eq_true, ↓reduceIte,
          List.any_append, List.any_cons, List.any_nil, Bool.or_false]
      · simp
    · rw [h2, h3]
      cases hr : (parseSensorData stof accum data now imu).1
      · rw [h1] at hr
        revert hr hnot
        cases accum.hasAccel <;> cases accum.hasGyro <;>
          cases (find data "accelerometer".toList).isSome <;>
          cases (find data "gyroscope".toList).isSome <;> simp
      · simp

/-- C5: over every sequence of messages fed to `parseSensorData` from a fresh
accumulator, a call returns true exactly when, with its message recorded, an
accelerometer reading and a gyroscope reading have both arrived since the
previous emission; and after every call that returns true, from any
accumulator state, `hasAccel` and `hasGyro` are both false. -/
theorem parseSensorData_emits_iff_both_fresh (stof : List Char → Option ℚ)
    (imu : ImuMeasurement) (msgs : List (List Char × ℚ)) (accum : SensorAccumulator)
    (data : List Char) (now : ℚ) :
    (runMessages stof imu {} msgs).1 = expectedEmissions [] (msgs.map Prod.fst)
      ∧ ((parseSensorData stof accum data now imu).1 = true →
          (parseSensorData stof accum data now imu).2.2.hasAccel = false
            ∧ (parseSensorData stof accum data now imu).2.2.hasGyro = false) := by
  refine ⟨runMessages_eq_expected stof imu msgs {} [] rfl rfl rfl, ?_⟩
  intro hr
  obtain ⟨_, h2, h3⟩ := parseSensorData_flags stof accum data now imu
  rw [h2, h3, hr]
  simp

/-- The C5 theorem on the messages accelerometer, gyroscope and on a call
with a gyroscope message while an accelerometer reading is pending. -/
theorem parseSensorData_emits_iff_both_fresh_witness :
    (runMessages stofDecimal ⟨0, 0, 0, 0, 0, 0, 0⟩ {}
        [("accelerometer".toList, 1), ("gyroscope".toList, 2)]).1
        = expectedEmissions [] ["accelerometer".toList, "gyroscope".toList]
      ∧ (parseSensorData stofDecimal { hasAccel := true } "gyroscope".toList 2
          ⟨0, 0, 0, 0, 0, 0, 0⟩).1 = true
      ∧ (parseSensorData stofDecimal { hasAccel := true } "gyroscope".toList 2
          ⟨0, 0, 0, 0, 0, 0, 0⟩).2.2.hasAccel = false
      ∧ (parseSensorData stofDecimal { hasAccel := true } "gyroscope".toList 2
          ⟨0, 0, 0, 0, 0, 0, 0⟩).2.2.hasGyro = false := by
  have h := parseSensorData_emits_iff_both_fresh stofDecimal ⟨0, 0, 0, 0, 0, 0, 0⟩
    [("accelerometer".toList, 1), ("gyroscope".toList, 2)] { hasAccel := true }
    "gyroscope".toList 2
  have hemit : (parseSensorData stofDecimal { hasAccel := true } "gyroscope".toList 2
      ⟨0, 0, 0, 0, 0, 0, 0⟩).1 = true := by
    rw [(parseSensorData_flags _ _ _ _ _).1]
    decide
  exact ⟨h.1, hemit, h.2 hemit⟩

theorem base64_loop_eq_chunks (data : List Nat) :
    ∀ (arr : Nat × Nat × Nat) (ret : List Char),
      base64Finish (data.foldl base64Step { i := 0, char_array_3 := arr, ret := ret })
        = ret ++ encodeChunks data := by
  induction data using encodeChunks.induct with
  | case1 a b c rest ih =>
    intro arr ret
    simp only [List.foldl_cons, base64Step, setArray3, encodeChunks]
    simp only [Nat.zero_add, Nat.reduceAdd, Nat.reduceEqDiff, if_true, if_false,
      Nat.succ_ne_self, OfNat.ofNat_ne_one, OfNat.one_ne_ofNat, one_ne_zero]
    rw [ih]
    simp
  | case2 a b =>
    intro arr ret
    simp [base64Step, setArray3, encodeChunks, base64Finish, charArray4]
  | case3 a =>
    intro arr ret
    simp [base64Step, setArray3, encodeChunks, base64Finish, charArray4]
  | case4 =>
    intro arr ret
    simp [encodeChunks, base64Finish]


set_option maxRecDepth 100000 in
theorem byte_sextets : ∀ b : Nat, b < 256 →
    (b &&& 0xfc) >>> 2 = b / 4 ∧ (b &&& 0x03) <<< 4 = b % 4 * 16 ∧ (b &&& 0xf0) >>> 4 = b / 16
      ∧ (b &&& 0x0f) <<< 2 = b % 16 * 4 ∧ (b &&& 0xc0) >>> 6 = b / 64 ∧ b &&& 0x3f = b % 64 := by
  decide

set_option maxRecDepth 100000 in
theorem rfc4648Value_base64Char : ∀ v : Nat, v < 64 →
    rfc4648Value (base64Char v) = some v ∧ base64Char v ≠ '=' := by
  decide

theorem charArray4_eq (a b c : Nat) (ha : a < 256) (hb : b < 256) (hc : c < 256) :
    charArray4 (a, b, c) = [a / 4, a % 4 * 16 + b / 16, b % 16 * 4 + c / 64, c % 64] := by
  obtain ⟨a1, a2, _, _, _, _⟩ := byte_sextets a ha
  obtain ⟨_, _, b3, b4, _, _⟩ := byte_sextets b hb
  obtain ⟨_, _, _, _, c5, c6⟩ := byte_sextets c hc
  simp only [charArray4, a1, a2, b3, b4, c5, c6, List.cons.injEq, and_true]
  refine ⟨?_, ?_, ?_, ?_⟩ <;> omega

theorem rfc4648Decode_encodeChunks (data : List Nat) (hbytes : ∀ b ∈ data, b < 256) :
    rfc4648Decode (encodeChunks data) = some data := by
  induction data using encodeChunks.induct with
  | case1 a b c rest ih =>
    have ha : a < 256 := hbytes a (by simp)
    have hb : b < 256 := hbytes b (by simp)
    have hc : c < 256 := hbytes c (by simp)
    have hrest := ih (fun x hx => hbytes x (by simp [hx]))
    obtain ⟨v0, _⟩ := rfc4648Value_base64Char (a / 4) (by omega)
    obtain ⟨v1, _⟩ := rfc4648Value_base64Char (a % 4 * 16 + b / 16) (by omega)
    obtain ⟨v2, _⟩ := rfc4648Value_base64Char (b % 16 * 4 + c / 64) (by omega)
    obtain ⟨v3, n3⟩ := rfc4648Value_base64Char (c % 64) (by omega)
    simp only [encodeChunks, charArray4_eq a b c ha hb hc, List.map_cons, List.map_nil,
      List.cons_append, List.nil_append]
    unfold rfc4648Decode
    rw [if_neg n3]
    simp only [v0, v1, v2, v3, hrest, List.cons_append, List.nil_append, Option.some.injEq,
      List.cons.injEq, and_true]
    refine ⟨?_, ?_, ?_⟩ <;> omega
  | case2 a b =>
    have ha : a < 256 := hbytes a (by simp)
    have hb : b < 256 := hbytes b (by simp)
    obtain ⟨v0, _⟩ := rfc4648Value_base64Char (a / 4) (by omega)
    obtain ⟨v1, _⟩ := rfc4648Value_base64Char (a % 4 * 16 + b / 16) (by omega)
    obtain ⟨v2, n2⟩ := rfc4648Value_base64Char (b % 16 * 4 + 0 / 64) (by omega)
    have henc : encodeChunks [a, b]
        = ((charArray4 (a, b, 0)).take 3).map base64Char ++ ['='] := rfl
    rw [henc, charArray4_eq a b 0 ha hb (by omega)]
    simp only [List.take, List.map_cons, List.map_nil, List.cons_append, List.nil_append]
    unfold rfc4648Decode
    rw [if_pos rfl, if_neg (by simp), if_neg n2]
    simp only [v0, v1, v2]
    rw [if_neg (by omega)]
    simp only [Option.some.injEq, List.cons.injEq, and_true]
    refine ⟨?_, ?_⟩ <;> omega
  | case3 a =>
    have ha : a < 256 := hbytes a (by simp)
    obtain ⟨v0, _⟩ := rfc4648Value_base64Char (a / 4) (by omega)
    obtain ⟨v1, _⟩ := rfc4648Value_base64Char (a % 4 * 16 + 0 / 16) (by omega)
    have henc : encodeChunks [a]
        = ((charArray4 (a, 0, 0)).take 2).map base64Char ++ ['=', '='] := rfl
    rw [henc, charArray4_eq a 0 0 ha (by omega) (by omega)]
    simp only [List.take, List.map_cons, List.map_nil, List.cons_append, List.nil_append]
    unfold rfc4648Decode
    rw [if_pos rfl, if_neg (by simp), if_pos rfl]
    simp only [v0, v1]
    rw [if_neg (by omega)]
    simp only [Option.some.injEq, List.cons.injEq, and_true]
    omega
  | case4 => simp [encodeChunks, rfc4648Decode]

/-- C7: for every byte sequence, and so for every 16-byte WebSocket key, the
standard padded RFC 4648 decoder applied to the output of `base64_encode`
gives back the original bytes. -/
theorem base64_encode_roundtrip (data : List Nat) (hbytes : ∀ b ∈ data, b < 256) :
    rfc4648Decode (base64_encode data) = some data := by
  unfold base64_encode
  rw [base64_loop_eq_chunks data (0, 0, 0) [], List.nil_append]
  exact rfc4648Decode_encodeChunks data hbytes

/-- The C7 theorem applied to the 16-byte key `0, 17, 34, ..., 255`. -/
theorem base64_encode_roundtrip_witness :
    rfc4648Decode (base64_encode
        [0, 17, 34, 51, 68, 85, 102, 119, 136, 153, 170, 187, 204, 221, 238, 255])
      = some [0, 17, 34, 51, 68, 85, 102, 119, 136, 153, 170, 187, 204, 221, 238, 255] :=
  base64_encode_roundtrip _ (by decide)

set_option maxRecDepth 100000 in
theorem byte_and_masks : ∀ b : Nat, b < 256 →
    b &&& 0x0F = b % 16 ∧ b &&& 0x7F = b % 128 ∧ ((b &&& 0x80 != 0) = decide (128 ≤ b)) := by
  decide

theorem map_range_getD (l : List Nat) :
    (List.range l.length).map (fun i => l.getD i 0) = l := by
  apply List.ext_getElem
  · simp
  · intro i h1 h2
    simp [List.getD_eq_getElem, h2]

theorem getD_frame_payload (hdr body rest : List Nat) (i : Nat) (hi : i < body.length) :
    (hdr ++ body ++ rest).getD (hdr.length + i) 0 = body.getD i 0 := by
  rw [List.append_assoc, List.getD_append_right _ _ _ _ (by omega)]
  simp only [Nat.add_sub_cancel_left]
  rw [List.getD_append _ _ _ _ hi]

theorem maskPayload_length (k : MaskKey) (payload : List Nat) :
    (maskPayload k payload).length = payload.length := by
  simp [maskPayload]

theorem maskPayload_getD (k : MaskKey) (payload : List Nat) (i : Nat) (hi : i < payload.length) :
    (maskPayload k payload).getD i 0 = payload.getD i 0 ^^^ k.bytes.getD (i % 4) 0 := by
  have h2 : i < (maskPayload k payload).length := by rw [maskPayload_length]; exact hi
  rw [List.getD_eq_getElem _ _ h2, List.getD_eq_getElem _ _ hi]
  simp [maskPayload]

theorem decodePayload_unmasked (hdr payload rest : List Nat) (len opcode : Nat)
    (hlo : hdr.length + payload.length ≤ len) (hhi : len < 2 ^ 63) :
    decodePayload (hdr ++ payload ++ rest) len opcode false payload.length hdr.length
      = some (if opcode = 1 ∨ opcode = 2 then payload else [],
          hdr.length + payload.length) := by
  have hmod : (hdr.length + payload.length) % 2 ^ 64 = hdr.length + payload.length :=
    Nat.mod_eq_of_lt (by omega)
  have hmax : ¬ payload.length > string_max_size := by
    unfold string_max_size; omega
  have hres : (List.range payload.length).map
      (fun i => (hdr ++ payload ++ rest).getD (hdr.length + i) 0) = payload := by
    conv_rhs => rw [← map_range_getD payload]
    apply List.map_congr_left
    intro i hi
    exact getD_frame_payload hdr payload rest i (List.mem_range.mp hi)
  unfold decodePayload
  simp only [Bool.false_eq_true, if_false, hmod, hres, if_neg (not_lt.mpr hlo), if_neg hmax]
  by_cases hop : opcode = 1 ∨ opcode = 2
  · rw [if_pos hop, if_pos hop]
  · rw [if_neg hop, if_neg hop]


theorem decodePayload_masked (hdr0 payload rest : List Nat) (k : MaskKey) (len opcode : Nat)
    (hpay : ∀ b ∈ payload, b < 256)
    (hlo : hdr0.length + 4 + payload.length ≤ len) (hhi : len < 2 ^ 63) :
    decodePayload (hdr0 ++ k.bytes ++ maskPayload k payload ++ rest) len opcode true
        payload.length hdr0.length
      = some (if opcode = 1 ∨ opcode = 2 then payload else [],
          hdr0.length + 4 + payload.length) := by
  have hmod : (hdr0.length + 4 + payload.length) % 2 ^ 64 = hdr0.length + 4 + payload.length :=
    Nat.mod_eq_of_lt (by omega)
  have hmax : ¬ payload.length > string_max_size := by
    unfold string_max_size; omega
  have hklen : k.bytes.length = 4 := rfl
  have hres : (List.range payload.length).map
      (fun i => ((hdr0 ++ k.bytes ++ maskPayload k payload ++ rest).getD (hdr0.length + 4 + i) 0
        ^^^ (hdr0 ++ k.bytes ++ maskPayload k payload ++ rest).getD (hdr0.length + i % 4) 0)
          % 256) = payload := by
    conv_rhs => rw [← map_range_getD payload]
    apply List.map_congr_left
    intro i hi
    have hi2 : i < payload.length := List.mem_range.mp hi
    have h1 : (hdr0 ++ k.bytes ++ maskPayload k payload ++ rest).getD (hdr0.length + 4 + i) 0
        = (maskPayload k payload).getD i 0 := by
      have := getD_frame_payload (hdr0 ++ k.bytes) (maskPayload k payload) rest i
        (by rw [maskPayload_length]; exact hi2)
      rw [List.length_append, hklen] at this
      exact this
    have h2 : (hdr0 ++ k.bytes ++ maskPayload k payload ++ rest).getD (hdr0.length + i % 4) 0
        = k.bytes.getD (i % 4) 0 := by
      have := getD_frame_payload hdr0 k.bytes (maskPayload k payload ++ rest) (i % 4)
        (by rw [hklen]; omega)
      rw [← List.append_assoc] at this
      exact this
    have hb : payload.getD i 0 < 256 := by
      rw [List.getD_eq_getElem _ _ hi2]
      exact hpay _ (List.getElem_mem _)
    rw [h1, h2, maskPayload_getD k payload i hi2, Nat.xor_cancel_right, Nat.mod_eq_of_lt hb]
  unfold decodePayload
  simp only [if_true, hmod, hres, if_neg (not_lt.mpr hlo), if_neg hmax]
  by_cases hop : opcode = 1 ∨ opcode = 2
  · rw [if_pos hop, if_pos hop]
  · rw [if_neg hop, if_neg hop]

theorem shift_or_byte (pl b : Nat) (hpl : pl < 2 ^ 56) (hb : b < 256) :
    ((pl <<< 8) % 2 ^ 64) ||| b = pl * 256 + b := by
  have h1 : pl <<< 8 = 2 ^ 8 * pl := by rw [Nat.shiftLeft_eq, Nat.mul_comm]
  have h2 : (2 ^ 8 * pl) % 2 ^ 64 = 2 ^ 8 * pl := Nat.mod_eq_of_lt (by omega)
  rw [h1, h2, ← Nat.mul_add_lt_is_or (by omega : b < 2 ^ 8) pl]
  omega

theorem shift_or_16 (hi lo : Nat) (hlo : lo < 256) :
    (hi <<< 8) ||| lo = hi * 256 + lo := by
  have h1 : hi <<< 8 = 2 ^ 8 * hi := by rw [Nat.shiftLeft_eq, Nat.mul_comm]
  rw [h1, ← Nat.mul_add_lt_is_or (by omega : lo < 2 ^ 8) hi]
  omega

theorem be64_fold (n : Nat) (hn : n < 2 ^ 63) (b0 b1 : Nat) (tl : List Nat) :
    (List.range 8).foldl
      (fun payload_len i => ((payload_len <<< 8) % 2 ^ 64) |||
        (b0 :: b1 :: n / 256 ^ 7 % 256 :: n / 256 ^ 6 % 256 :: n / 256 ^ 5 % 256
          :: n / 256 ^ 4 % 256 :: n / 256 ^ 3 % 256 :: n / 256 ^ 2 % 256 :: n / 256 % 256
          :: n % 256 :: tl).getD (2 + i) 0) 0 = n := by
  have hr : List.range 8 = [0, 1, 2, 3, 4, 5, 6, 7] := by decide
  rw [hr]
  simp only [List.foldl_cons, List.foldl_nil, List.getD_cons_succ, List.getD_cons_zero,
    Nat.reduceAdd]
  rw [shift_or_byte (0) (n / 256 ^ 7 % 256) (by omega) (by omega)]
  rw [shift_or_byte (0 * 256 + n / 256 ^ 7 % 256) (n / 256 ^ 6 % 256) (by omega) (by omega)]
  rw [shift_or_byte ((0 * 256 + n / 256 ^ 7 % 256) * 256 + n / 256 ^ 6 % 256) (n / 256 ^ 5 % 256) (by omega) (by omega)]
  rw [shift_or_byte (((0 * 256 + n / 256 ^ 7 % 256) * 256 + n / 256 ^ 6 % 256) * 256 + n / 256 ^ 5 % 256) (n / 256 ^ 4 % 256) (by omega) (by omega)]
  rw [shift_or_byte ((((0 * 256 + n / 256 ^ 7 % 256) * 256 + n / 256 ^ 6 % 256) * 256 + n / 256 ^ 5 % 256) * 256 + n / 256 ^ 4 % 256) (n / 256 ^ 3 % 256) (by omega) (by omega)]
  rw [shift_or_byte (((((0 * 256 + n / 256 ^ 7 % 256) * 256 + n / 256 ^ 6 % 256) * 256 + n / 256 ^ 5 % 256) * 256 + n / 256 ^ 4 % 256) * 256 + n / 256 ^ 3 % 256) (n / 256 ^ 2 % 256) (by omega) (by omega)]
  rw [shift_or_byte ((((((0 * 256 + n / 256 ^ 7 % 256) * 256 + n / 256 ^ 6 % 256) * 256 + n / 256 ^ 5 % 256) * 256 + n / 256 ^ 4 % 256) * 256 + n / 256 ^ 3 % 256) * 256 + n / 256 ^ 2 % 256) (n / 256 % 256) (by omega) (by omega)]
  rw [shift_or_byte (((((((0 * 256 + n / 256 ^ 7 % 256) * 256 + n / 256 ^ 6 % 256) * 256 + n / 256 ^ 5 % 256) * 256 + n / 256 ^ 4 % 256) * 256 + n / 256 ^ 3 % 256) * 256 + n / 256 ^ 2 % 256) * 256 + n / 256 % 256) (n % 256) (by omega) (by omega)]
  omega


theorem first_byte_opcode (fin : Bool) (rsv opcode : Nat) (hrsv : rsv < 8)
    (hop : opcode < 16) :
    ((if fin then 128 else 0) + rsv * 16 + opcode) &&& 0x0F = opcode := by
  have hlt : (if fin then 128 else 0) + rsv * 16 + opcode < 256 := by
    cases fin <;> simp <;> omega
  rw [(byte_and_masks _ hlt).1]
  cases fin <;> simp <;> omega

theorem second_byte_fields (masked : Bool) (n7 : Nat) (hn : n7 < 128) :
    ((if masked then 128 else 0) + n7) &&& 0x7F = n7
      ∧ ((((if masked then 128 else 0) + n7) &&& 0x80 != 0) = masked) := by
  have hlt : (if masked then 128 else 0) + n7 < 256 := by
    cases masked <;> simp <;> omega
  rw [(byte_and_masks _ hlt).2.1, (byte_and_masks _ hlt).2.2]
  cases masked
  · simp; omega
  · simp; omega

theorem decodeWebSocketFrame_encodeFrame (fin : Bool) (rsv opcode : Nat) (enc : LengthEncoding)
    (mask : Option MaskKey) (payload rest : List Nat) (len : Nat)
    (hop : opcode < 16) (hrsv : rsv < 8)
    (hfit : enc.fits payload.length)
    (hpay : ∀ b ∈ payload, b < 256)
    (hlo : (encodeFrame fin rsv opcode enc mask payload).length ≤ len)
    (hhi : len < 2 ^ 63) :
    decodeWebSocketFrame (encodeFrame fin rsv opcode enc mask payload ++ rest) len
      = some (if opcode = 1 ∨ opcode = 2 then payload else [],
          (encodeHeader fin rsv opcode enc mask payload.length).length + payload.length) := by
  have hb0 := first_byte_opcode fin rsv opcode hrsv hop
  cases enc with
  | bits7 =>
    have hn : payload.length ≤ 125 := hfit
    cases mask with
    | none =>
      have hb1 := second_byte_fields false payload.length (by omega)
      simp only [Bool.false_eq_true, if_false, Nat.zero_add] at hb1
      have hdata : encodeFrame fin rsv opcode .bits7 none payload ++ rest
          = [(if fin then 128 else 0) + rsv * 16 + opcode, payload.length] ++ payload ++ rest := by
        simp [encodeFrame, encodeHeader, encodeLength]
      have hlen : (encodeFrame fin rsv opcode .bits7 none payload).length
          = 2 + payload.length := by
        simp [encodeFrame, encodeHeader, encodeLength]; omega
      have hhdr : (encodeHeader fin rsv opcode .bits7 none payload.length).length = 2 := by
        simp [encodeHeader, encodeLength]
      rw [hlen] at hlo
      have key := decodePayload_unmasked
        [(if fin then 128 else 0) + rsv * 16 + opcode, payload.length] payload rest len opcode
        (by simpa using hlo) hhi
      rw [hdata, hhdr]
      unfold decodeWebSocketFrame
      rw [if_neg (by omega)]
      simp only [List.cons_append, List.nil_append, List.getD_cons_zero, List.getD_cons_succ,
        hb0, hb1.1, hb1.2]
      rw [if_neg (by omega), if_neg (by omega)]
      simpa using key
    | some k =>
      have hb1 := second_byte_fields true payload.length (by omega)
      simp only [if_true] at hb1
      have hdata : encodeFrame fin rsv opcode .bits7 (some k) payload ++ rest
          = [(if fin then 128 else 0) + rsv * 16 + opcode, 128 + payload.length] ++ k.bytes
              ++ maskPayload k payload ++ rest := by
        simp [encodeFrame, encodeHeader, encodeLength]
      have hlen : (encodeFrame fin rsv opcode .bits7 (some k) payload).length
          = 2 + 4 + payload.length := by
        simp [encodeFrame, encodeHeader, encodeLength, maskPayload_length, MaskKey.bytes]; omega
      have hhdr : (encodeHeader fin rsv opcode .bits7 (some k) payload.length).length
          = 2 + 4 := by
        simp [encodeHeader, encodeLength, MaskKey.bytes]
      rw [hlen] at hlo
      have key := decodePayload_masked
        [(if fin then 128 else 0) + rsv * 16 + opcode, 128 + payload.length] payload rest k len
        opcode hpay (by simpa using hlo) hhi
      rw [hdata, hhdr]
      unfold decodeWebSocketFrame
      rw [if_neg (by omega)]
      simp only [List.cons_append, List.nil_append, List.getD_cons_zero, List.getD_cons_succ,
        hb0, hb1.1, hb1.2]
      rw [if_neg (by omega), if_neg (by omega)]
      simpa using key
  | ext16 =>
    have hn : payload.length < 2 ^ 16 := hfit
    have hlen16 : ((payload.length / 256) <<< 8) ||| (payload.length % 256) = payload.length := by
      rw [shift_or_16 _ _ (by omega)]; omega
    cases mask with
    | none =>
      have hb1 := second_byte_fields false 126 (by omega)
      simp only [Bool.false_eq_true, if_false, Nat.zero_add] at hb1
      have hdata : encodeFrame fin rsv opcode .ext16 none payload ++ rest
          = [(if fin then 128 else 0) + rsv * 16 + opcode, 126, payload.length / 256,
              payload.length % 256] ++ payload ++ rest := by
        simp [encodeFrame, encodeHeader, encodeLength]
      have hlen : (encodeFrame fin rsv opcode .ext16 none payload).length
          = 4 + payload.length := by
        simp [encodeFrame, encodeHeader, encodeLength]; omega
      have hhdr : (encodeHeader fin rsv opcode .ext16 none payload.length).length = 4 := by
        simp [encodeHeader, encodeLength]
      rw [hlen] at hlo
      have key := decodePayload_unmasked
        [(if fin then 128 else 0) + rsv * 16 + opcode, 126, payload.length / 256,
          payload.length % 256] payload rest len opcode (by simpa using hlo) hhi
      rw [hdata, hhdr]
      unfold decodeWebSocketFrame
      rw [if_neg (by omega)]
      simp only [List.cons_append, List.nil_append, List.getD_cons_zero, List.getD_cons_succ,
        hb0, hb1.1, hb1.2]
      rw [if_pos trivial, if_neg (by omega), hlen16]
      simpa using key
    | some k =>
      have hb1 := second_byte_fields true 126 (by omega)
      simp only [if_true] at hb1
      have hdata : encodeFrame fin rsv opcode .ext16 (some k) payload ++ rest
          = [(if fin then 128 else 0) + rsv * 16 + opcode, 128 + 126, payload.length / 256,
              payload.length % 256] ++ k.bytes ++ maskPayload k payload ++ rest := by
        simp [encodeFrame, encodeHeader, encodeLength]
      have hlen : (encodeFrame fin rsv opcode .ext16 (some k) payload).length
          = 4 + 4 + payload.length := by
        simp [encodeFrame, encodeHeader, encodeLength, maskPayload_length, MaskKey.bytes]; omega
      have hhdr : (encodeHeader fin rsv opcode .ext16 (some k) payload.length).length
          = 4 + 4 := by
        simp [encodeHeader, encodeLength, MaskKey.bytes]
      rw [hlen] at hlo
      have key := decodePayload_masked
        [(if fin then 128 else 0) + rsv * 16 + opcode, 128 + 126, payload.length / 256,
          payload.length % 256] payload rest k len opcode hpay (by simpa using hlo) hhi
      rw [hdata, hhdr]
      unfold decodeWebSocketFrame
      rw [if_neg (by omega)]
      simp only [List.cons_append, List.nil_append, List.getD_cons_zero, List.getD_cons_succ,
        hb0, hb1.1, hb1.2]
      rw [if_pos trivial, if_neg (by omega), hlen16]
      simpa using key
  | ext64 =>
    have hn : payload.length < 2 ^ 63 := hfit
    cases mask with
    | none =>
      have hb1 := second_byte_fields false 127 (by omega)
      simp only [Bool.false_eq_true, if_false, Nat.zero_add] at hb1
      have hdata : encodeFrame fin rsv opcode .ext64 none payload ++ rest
          = [(if fin then 128 else 0) + rsv * 16 + opcode, 127,
              payload.length / 256 ^ 7 % 256, payload.length / 256 ^ 6 % 256,
              payload.length / 256 ^ 5 % 256, payload.length / 256 ^ 4 % 256,
              payload.length / 256 ^ 3 % 256, payload.length / 256 ^ 2 % 256,
              payload.length / 256 % 256, payload.length % 256] ++ payload ++ rest := by
        simp [encodeFrame, encodeHeader, encodeLength]
      have hlen : (encodeFrame fin rsv opcode .ext64 none payload).length
          = 10 + payload.length := by
        simp [encodeFrame, encodeHeader, encodeLength]; omega
      have hhdr : (encodeHeader fin rsv opcode .ext64 none payload.length).length = 10 := by
        simp [encodeHeader, encodeLength]
      rw [hlen] at hlo
      have key := decodePayload_unmasked
        [(if fin then 128 else 0) + rsv * 16 + opcode, 127,
          payload.length / 256 ^ 7 % 256, payload.length / 256 ^ 6 % 256,
          payload.length / 256 ^ 5 % 256, payload.length / 256 ^ 4 % 256,
          payload.length / 256 ^ 3 % 256, payload.length / 256 ^ 2 % 256,
          payload.length / 256 % 256, payload.length % 256]
        payload rest len opcode (by simpa using hlo) hhi
      rw [hdata, hhdr]
      unfold decodeWebSocketFrame
      rw [if_neg (by omega)]
      simp only [List.cons_append, List.nil_append]
      rw [be64_fold payload.length hn]
      simp only [List.getD_cons_zero, List.getD_cons_succ, hb0, hb1.1, hb1.2]
      rw [if_neg (by omega), if_pos trivial, if_neg (by omega)]
      simpa using key
    | some k =>
      have hb1 := second_byte_fields true 127 (by omega)
      simp only [if_true] at hb1
      have hdata : encodeFrame fin rsv opcode .ext64 (some k) payload ++ rest
          = [(if fin then 128 else 0) + rsv * 16 + opcode, 128 + 127,
              payload.length / 256 ^ 7 % 256, payload.length / 256 ^ 6 % 256,
              payload.length / 256 ^ 5 % 256, payload.length / 256 ^ 4 % 256,
              payload.length / 256 ^ 3 % 256, payload.length / 256 ^ 2 % 256,
              payload.length / 256 % 256, payload.length % 256] ++ k.bytes
              ++ maskPayload k payload ++ rest := by
        simp [encodeFrame, encodeHeader, encodeLength]
      have hlen : (encodeFrame fin rsv opcode .ext64 (some k) payload).length
          = 10 + 4 + payload.length := by
        simp [encodeFrame, encodeHeader, encodeLength, maskPayload_length, MaskKey.bytes]; omega
      have hhdr : (encodeHeader fin rsv opcode .ext64 (some k) payload.length).length
          = 10 + 4 := by
        simp [encodeHeader, encodeLength, MaskKey.bytes]
      rw [hlen] at hlo
      have key := decodePayload_masked
        [(if fin then 128 else 0) + rsv * 16 + opcode, 128 + 127,
          payload.length / 256 ^ 7 % 256, payload.length / 256 ^ 6 % 256,
          payload.length / 256 ^ 5 % 256, payload.length / 256 ^ 4 % 256,
          payload.length / 256 ^ 3 % 256, payload.length / 256 ^ 2 % 256,
          payload.length / 256 % 256, payload.length % 256]
        payload rest k len opcode hpay (by simpa using hlo) hhi
      rw [hdata, hhdr]
      unfold decodeWebSocketFrame
      rw [if_neg (by omega)]
      simp only [List.cons_append, List.nil_append]
      rw [be64_fold payload.length hn]
      simp only [List.getD_cons_zero, List.getD_cons_succ, hb0, hb1.1, hb1.2]
      rw [if_neg (by omega), if_pos trivial, if_neg (by omega)]
      simpa using key

/-- C4: a complete RFC 6455 frame with opcode 1 or 2, in any of the three
length encodings that fits the payload, masked with any 4-byte key or
unmasked, with any FIN and reserved bits and any bytes following it in the
receive buffer, is decoded by `decodeWebSocketFrame` to exactly the original
payload, with `consumed` equal to header length plus payload length. -/
theorem decodeWebSocketFrame_roundtrip (fin : Bool) (rsv opcode : Nat) (enc : LengthEncoding)
    (mask : Option MaskKey) (payload rest : List Nat) (len : Nat)
    (hop : opcode = 1 ∨ opcode = 2) (hrsv : rsv < 8)
    (hfit : enc.fits payload.length)
    (hpay : ∀ b ∈ payload, b < 256)
    (hlo : (encodeFrame fin rsv opcode enc mask payload).length ≤ len)
    (hhi : len < 2 ^ 63) :
    decodeWebSocketFrame (encodeFrame fin rsv opcode enc mask payload ++ rest) len
      = some (payload, (encodeHeader fin rsv opcode enc mask payload.length).length
          + payload.length) := by
  have h := decodeWebSocketFrame_encodeFrame fin rsv opcode enc mask payload rest len
    (by omega) hrsv hfit hpay hlo hhi
  rw [if_pos hop] at h
  exact h

/-- The C4 theorem on a masked text frame of 130 bytes, whose length goes
through the 16-bit extended encoding, followed by two more bytes in the
receive buffer: the payload comes back unmasked and `consumed` is 8 + 130. -/
theorem decodeWebSocketFrame_roundtrip_witness :
    decodeWebSocketFrame
        (encodeFrame true 0 1 LengthEncoding.ext16 (some ⟨18, 52, 86, 120⟩)
          (List.replicate 130 97) ++ [129, 0]) 140
        = some (List.replicate 130 97,
            (encodeHeader true 0 1 LengthEncoding.ext16 (some ⟨18, 52, 86, 120⟩)
              (List.replicate 130 97).length).length + (List.replicate 130 97).length)
      ∧ (encodeHeader true 0 1 LengthEncoding.ext16 (some ⟨18, 52, 86, 120⟩)
          (List.replicate 130 97).length).length + (List.replicate 130 97).length = 8 + 130 :=
  ⟨decodeWebSocketFrame_roundtrip true 0 1 LengthEncoding.ext16
      (some ⟨18, 52, 86, 120⟩) (List.replicate 130 97) [129, 0] 140 (Or.inl rfl) (by decide)
      (by simp [LengthEncoding.fits])
      (by intro b hb; rw [List.eq_of_mem_replicate hb]; decide)
      (by simp [encodeFrame, encodeHeader, encodeLength, maskPayload_length, MaskKey.bytes])
      (by norm_num),
    by simp [encodeHeader, encodeLength, MaskKey.bytes]⟩

end PhoneSlamWebsocket

/-! ## Theorems: `phone_slam_phyphox.cpp` -/

namespace StdString

theorem findAux_first (pat tail : List Char) :
    ∀ (pre : List Char) (i : Nat),
      (∀ j, j < pre.length → ¬ pat <+: (pre ++ pat ++ tail).drop j) →
      findAux pat (pre ++ pat ++ tail) i = some (i + pre.length) := by
  intro pre
  induction pre with
  | nil =>
    intro i _
    simp only [List.nil_append, List.length_nil, Nat.add_zero]
    cases h : pat ++ tail with
    | nil =>
      have hp : pat = [] := (List.append_eq_nil.mp h).1
      simp [findAux, hp]
    | cons c cs =>
      unfold findAux
      rw [if_pos]
      rw [← h, List.isPrefixOf_iff_prefix]
      exact List.prefix_append pat tail
  | cons c pre ih =>
    intro i hfirst
    have h0 : ¬ pat <+: (c :: pre ++ pat ++ tail) := by
      have := hfirst 0 (by simp)
      simpa using this
    have hrest : ∀ j, j < pre.length → ¬ pat <+: (pre ++ pat ++ tail).drop j := by
      intro j hj
      have := hfirst (j + 1) (by simp; omega)
      simpa using this
    have hne : pat.isPrefixOf (c :: (pre ++ pat ++ tail)) = false := by
      rw [Bool.eq_false_iff]
      intro hp
      exact h0 (by simpa using List.isPrefixOf_iff_prefix.mp hp)
    show findAux pat (c :: (pre ++ pat ++ tail)) i = _
    unfold findAux
    rw [hne]
    simp only [Bool.false_eq_true, if_false]
    rw [ih (i + 1) hrest]
    simp only [List.length_cons]
    congr 1
    omega

theorem findAux_char (c : Char) (post : List Char) :
    ∀ (body : List Char) (i : Nat), c ∉ body →
      findAux [c] (body ++ c :: post) i = some (i + body.length) := by
  intro body
  induction body with
  | nil => intro i _; simp [findAux]
  | cons x xs ih =>
    intro i hc
    have hx : ¬ c = x := fun h => hc (by simp [h])
    have hxs : c ∉ xs := fun h => hc (by simp [h])
    show findAux [c] (x :: (xs ++ c :: post)) i = _
    unfold findAux
    simp only [List.isPrefixOf, beq_iff_eq, Bool.and_true, hx, if_false]
    rw [ih (i + 1) hxs]
    simp only [List.length_cons]
    congr 1
    omega

theorem rfindAux_none (c : Char) :
    ∀ (s : List Char) (i : Nat), c ∉ s → rfindAux [c] s i = none := by
  intro s
  induction s with
  | nil => intro i _; simp [rfindAux]
  | cons x xs ih =>
    intro i hc
    have hx : ¬ c = x := fun h => hc (by simp [h])
    have hxs : c ∉ xs := fun h => hc (by simp [h])
    unfold rfindAux
    rw [ih (i + 1) hxs]
    simp [List.isPrefixOf, hx]

theorem rfindAux_last (c : Char) (last : List Char) (hlast : c ∉ last) :
    ∀ (front : List Char) (i : Nat),
      rfindAux [c] (front ++ c :: last) i = some (i + front.length) := by
  intro front
  induction front with
  | nil =>
    intro i
    show rfindAux [c] (c :: last) i = _
    unfold rfindAux
    rw [rfindAux_none c last (i + 1) hlast]
    simp [List.isPrefixOf]
  | cons x xs ih =>
    intro i
    show rfindAux [c] (x :: (xs ++ c :: last)) i = _
    unfold rfindAux
    rw [ih (i + 1)]
    simp only [List.length_cons]
    congr 1
    omega

end StdString

namespace PhoneSlamPhyphox

open StdString

theorem joinValues_snoc (vn : List Char) :
    ∀ vs : List (List Char), vs ≠ [] →
      ∃ front, joinValues (vs ++ [vn]) = front ++ ',' :: vn
        ∧ ∀ c, c ∈ front → c = ',' ∨ ∃ v ∈ vs, c ∈ v := by
  intro vs
  induction vs with
  | nil => intro h; exact absurd rfl h
  | cons v rest ih =>
    intro _
    cases rest with
    | nil =>
      refine ⟨v, rfl, ?_⟩
      intro c hc
      exact Or.inr ⟨v, by simp, hc⟩
    | cons w rest2 =>
      obtain ⟨front, hfront, hmem⟩ := ih (by simp)
      refine ⟨v ++ ',' :: front, ?_, ?_⟩
      · show v ++ ',' :: joinValues (w :: rest2 ++ [vn]) = _
        rw [hfront]
        simp
      · intro c hc
        simp only [List.mem_append, List.mem_cons] at hc
        rcases hc with h | h | h
        · exact Or.inr ⟨v, by simp, h⟩
        · exact Or.inl h
        · rcases hmem c h with h2 | ⟨u, hu, hcu⟩
          · exact Or.inl h2
          · exact Or.inr ⟨u, by simp [hu], hcu⟩

theorem lastValue_joinValues (vs : List (List Char)) (vn : List Char) (hvn : ',' ∉ vn) :
    lastValue (joinValues (vs ++ [vn])) = vn := by
  by_cases hvs : vs = []
  · subst hvs
    show lastValue vn = vn
    unfold lastValue rfind
    rw [rfindAux_none ',' vn 0 hvn]
  · obtain ⟨front, hfront, _⟩ := joinValues_snoc vn vs hvs
    rw [hfront]
    unfold lastValue rfind
    rw [rfindAux_last ',' vn hvn front 0]
    simp [substrFrom]

theorem not_mem_joinValues (c : Char) (hc : c ≠ ',') (vs : List (List Char)) (vn : List Char)
    (hclean : ∀ v ∈ vs ++ [vn], c ∉ v) : c ∉ joinValues (vs ++ [vn]) := by
  by_cases hvs : vs = []
  · subst hvs
    exact hclean vn (by simp)
  · obtain ⟨front, hfront, hmem⟩ := joinValues_snoc vn vs hvs
    rw [hfront]
    intro h
    simp only [List.mem_append, List.mem_cons] at h
    rcases h with h | h | h
    · rcases hmem c h with h2 | ⟨u, hu, hcu⟩
      · exact hc h2
      · exact hclean u (by simp [hu]) hcu
    · exact hc h
    · exact hclean vn (by simp) h

theorem extractValue_of_first (stof : List Char → Option ℚ) (key pre body post : List Char)
    (hfirst : ∀ i, i < pre.length →
      ¬ searchKey key <+: (pre ++ searchKey key ++ (body ++ ']' :: post)).drop i)
    (hbody : ']' ∉ body) :
    extractValue stof (pre ++ searchKey key ++ (body ++ ']' :: post)) key
      = (stof (lastValue body)).getD 0 := by
  have hfind : find (pre ++ searchKey key ++ (body ++ ']' :: post)) (searchKey key)
      = some pre.length := by
    unfold find findFrom
    rw [if_neg (by omega), List.drop_zero, findAux_first _ _ pre 0 hfirst, Nat.zero_add]
  have hdrop : (pre ++ searchKey key ++ (body ++ ']' :: post)).drop
      (pre.length + (searchKey key).length) = body ++ ']' :: post := by
    rw [← List.length_append]
    exact List.drop_left _ _
  have hend : findFrom (pre ++ searchKey key ++ (body ++ ']' :: post)) [']']
      (pre.length + (searchKey key).length)
      = some (pre.length + (searchKey key).length + body.length) := by
    unfold findFrom
    rw [if_neg (by simp only [List.length_append]; omega), hdrop,
      findAux_char ']' post body _ hbody]
  have hsub : substr (pre ++ searchKey key ++ (body ++ ']' :: post))
      (pre.length + (searchKey key).length)
      (pre.length + (searchKey key).length + body.length
        - (pre.length + (searchKey key).length)) = body := by
    unfold substr
    rw [hdrop, Nat.add_sub_cancel_left]
    exact List.take_left _ _
  unfold extractValue
  simp only [hfind, hend, hsub]
  cases stof (lastValue body) <;> rfl

end PhoneSlamPhyphox

namespace PhoneSlamPhyphox

open StdString

/-- C8 (amended): when the first occurrence of `"key":{"buffer":[` in the
response is followed by the values `v1,...,vn]` (`n ≥ 1`, no value containing
`]`, the last one containing no comma), `extractValue` returns what
`std::stof` reads from `vn`, the last value of the array, and 0 when `stof`
throws; when the pattern `"key":{"buffer":[` does not occur in the response it
returns 0. -/
theorem extractValue_last_of_first_occurrence (stof : List Char → Option ℚ)
    (key pre post : List Char) (vs : List (List Char)) (vn : List Char) (other : List Char)
    (hfirst : ∀ i, i < pre.length →
      ¬ searchKey key <+:
        (pre ++ searchKey key ++ (joinValues (vs ++ [vn]) ++ ']' :: post)).drop i)
    (hbracket : ∀ v ∈ vs ++ [vn], ']' ∉ v) (hcomma : ',' ∉ vn)
    (habsent : ¬ searchKey key <:+: other) :
    extractValue stof (pre ++ searchKey key ++ (joinValues (vs ++ [vn]) ++ ']' :: post)) key
        = (stof vn).getD 0
      ∧ extractValue stof other key = 0 := by
  constructor
  · rw [extractValue_of_first stof key pre _ post hfirst
      (not_mem_joinValues ']' (by decide) vs vn hbracket), lastValue_joinValues vs vn hcomma]
  · have hnone : find other (searchKey key) = none := by
      rw [← Option.not_isSome_iff_eq_none, find_isSome_iff]
      exact habsent
    unfold extractValue
    rw [hnone]

theorem stofDecimal_0_3 : stofDecimal ['0', '.', '3'] = some (3 / 10) := by
  simp [stofDecimal, takeSign, isspace, isdigit, digitsValue, exponentValue]
  norm_num

theorem stofDecimal_1 : stofDecimal ['1'] = some 1 := by
  simp [stofDecimal, takeSign, isspace, isdigit, digitsValue, exponentValue]

theorem stofDecimal_2 : stofDecimal ['2'] = some 2 := by
  simp [stofDecimal, takeSign, isspace, isdigit, digitsValue, exponentValue]

/-- The C8 theorem on the response `{"buffer":{"accX":{"buffer":[0.1,0.2,0.3],"size":3}}}`
and on the response `{}`: the extractor gives 3/10 and 0. -/
theorem extractValue_last_of_first_occurrence_witness :
    extractValue stofDecimal
        ("\x7b\"buffer\":\x7b".toList ++ searchKey "accX".toList
          ++ (joinValues ([['0', '.', '1'], ['0', '.', '2']] ++ [['0', '.', '3']])
            ++ ']' :: ",\"size\":3\x7d\x7d\x7d".toList))
        "accX".toList = 3 / 10
      ∧ extractValue stofDecimal "\x7b\x7d".toList "accX".toList = 0 := by
  have h := extractValue_last_of_first_occurrence stofDecimal "accX".toList
    "\x7b\"buffer\":\x7b".toList ",\"size\":3\x7d\x7d\x7d".toList
    [['0', '.', '1'], ['0', '.', '2']] ['0', '.', '3'] "\x7b\x7d".toList
    (by decide) (by decide) (by decide) (by decide)
  rw [stofDecimal_0_3] at h
  exact h

/-- C8 as stated fails: in the response `"k":{"buffer":[1],"k":{"buffer":[2]`
the pattern occurs with the single value 2, yet `extractValue` reads the
array after the first occurrence of the key and returns 1. -/
theorem extractValue_reads_first_occurrence_only :
    extractValue stofDecimal
        ((searchKey ['k'] ++ ['1', ']', ',']) ++ searchKey ['k']
          ++ (joinValues [['2']] ++ ']' :: []))
        ['k'] = 1
      ∧ (stofDecimal ['2']).getD 0 = 2
      ∧ extractValue stofDecimal
        ((searchKey ['k'] ++ ['1', ']', ',']) ++ searchKey ['k']
          ++ (joinValues [['2']] ++ ']' :: []))
        ['k'] ≠ (stofDecimal ['2']).getD 0 := by
  have hjson : (searchKey ['k'] ++ ['1', ']', ',']) ++ searchKey ['k']
        ++ (joinValues [['2']] ++ ']' :: [])
      = [] ++ searchKey ['k'] ++ (['1'] ++ ']' :: (',' :: searchKey ['k'] ++ ['2', ']'])) := by
    decide
  have h1 : extractValue stofDecimal
      ((searchKey ['k'] ++ ['1', ']', ',']) ++ searchKey ['k']
        ++ (joinValues [['2']] ++ ']' :: [])) ['k'] = 1 := by
    rw [hjson, extractValue_of_first stofDecimal ['k'] [] ['1'] _ (by simp) (by decide)]
    have hl : lastValue ['1'] = ['1'] := by decide
    rw [hl, stofDecimal_1]
    rfl
  have h2 : (stofDecimal ['2']).getD 0 = 2 := by rw [stofDecimal_2]; rfl
  refine ⟨h1, h2, ?_⟩
  rw [h1, h2]
  norm_num

end PhoneSlamPhyphox

/-! ## Theorems: queue, buffer and loop bookkeeping of `phone_slam.cpp` -/

namespace PhoneSlam

/-- C11: for every state of the loop and every frame popped with timestamp
`t`, the recorded previous-frame timestamp after the iteration is `t`, both
for the loop body and for a whole iteration that pops the frame from the
queue, whichever of the three dispatch branches the body takes. -/
theorem last_frame_time_recorded (s : LoopState) (frame : TimestampedFrame)
    (waiting : List TimestampedFrame) :
    (processFrame s frame).last_frame_time = frame.timestamp
      ∧ (loopIteration { queue_ := frame :: waiting } s).2.last_frame_time = frame.timestamp := by
  constructor
  · rfl
  · simp [loopIteration, SafeQueue.pop, processFrame]

/-- The three outcomes of the loop body all occur: a frame dispatched with
its window, a frame skipped, and a first frame dispatched with an empty
window; the timestamp 7 is recorded each time. -/
theorem last_frame_time_recorded_cases :
    (processFrame { last_frame_time := 5, g_imu_buffer := [sampleAt 6, sampleAt 7] }
        (frameAt 7)).tracked.length = 1
      ∧ (processFrame { last_frame_time := 5, g_imu_buffer := [sampleAt 6] }
        (frameAt 7)).tracked.length = 0
      ∧ (processFrame { last_frame_time := 5, g_imu_buffer := [sampleAt 6] }
        (frameAt 7)).last_frame_time = 7
      ∧ (processFrame { last_frame_time := 5, g_imu_buffer := [sampleAt 6, sampleAt 7] }
        (frameAt 7)).last_frame_time = 7 := by
  refine ⟨?_, ?_, rfl, rfl⟩
  · simp [processFrame, getImuMeasurements, sampleAt, frameAt]
    norm_num
  · simp [processFrame, getImuMeasurements, sampleAt, frameAt]
    norm_num

/-- C12: `SafeQueue::pop` always returns (the model is a total function); on
an empty queue it returns false and leaves the queue and the caller's `item`
as they were; on a queue `front :: rest` it returns true with `item = front`,
the oldest entry, and leaves exactly `rest`, in order, with the capacity
unchanged. -/
theorem pop_empty_or_front {T : Type} (q : SafeQueue T) (item : T) :
    (q.queue_ = [] → q.pop item = (false, item, q))
      ∧ (∀ front rest, q.queue_ = front :: rest →
          q.pop item = (true, front, { queue_ := rest, max_size_ := q.max_size_ })) := by
  constructor
  · intro h
    simp [SafeQueue.pop, h]
  · intro front rest h
    simp [SafeQueue.pop, h]

/-- The C12 theorem on an empty queue and on the queue holding 4, 5, 6. -/
theorem pop_empty_or_front_witness :
    (({} : SafeQueue Nat).pop 9 = (false, 9, {}))
      ∧ (({ queue_ := [4, 5, 6] } : SafeQueue Nat).pop 9
          = (true, 4, { queue_ := [5, 6], max_size_ := 100 })) :=
  ⟨(pop_empty_or_front ({} : SafeQueue Nat) 9).1 rfl,
    (pop_empty_or_front ({ queue_ := [4, 5, 6] } : SafeQueue Nat) 9).2 4 [5, 6] rfl⟩

theorem applyQueueOp_bound {T : Type} (q : SafeQueue T) (op : QueueOp T)
    (h : q.queue_.length ≤ q.max_size_) :
    (applyQueueOp q op).queue_.length ≤ (applyQueueOp q op).max_size_
      ∧ (applyQueueOp q op).max_size_ = q.max_size_ := by
  cases op with
  | push item =>
    refine ⟨?_, push_max_size q item⟩
    show (q.push item).queue_.length ≤ (q.push item).max_size_
    rw [push_queue_of_le q item h, push_max_size]
    simp only [List.length_drop, List.length_append, List.length_singleton]
    omega
  | pop item =>
    show ((q.pop item).2.2).queue_.length ≤ ((q.pop item).2.2).max_size_
      ∧ ((q.pop item).2.2).max_size_ = q.max_size_
    unfold SafeQueue.pop
    cases hq : q.queue_ with
    | nil => simp [hq]
    | cons x xs =>
      rw [hq] at h
      simp only [List.length_cons] at h
      simp only [and_true]
      omega
  | clear =>
    show (q.clear).queue_.length ≤ (q.clear).max_size_ ∧ (q.clear).max_size_ = q.max_size_
    simp [SafeQueue.clear]

theorem runQueueOps_bound {T : Type} (ops : List (QueueOp T)) :
    ∀ q : SafeQueue T, q.queue_.length ≤ q.max_size_ →
      (runQueueOps q ops).queue_.length ≤ q.max_size_
        ∧ (runQueueOps q ops).max_size_ = q.max_size_ := by
  induction ops with
  | nil => intro q h; exact ⟨h, rfl⟩
  | cons op rest ih =>
    intro q h
    obtain ⟨h1, h2⟩ := applyQueueOp_bound q op h
    obtain ⟨h3, h4⟩ := ih (applyQueueOp q op) h1
    have hstep : runQueueOps q (op :: rest) = runQueueOps (applyQueueOp q op) rest := rfl
    rw [hstep]
    exact ⟨by rw [← h2]; exact h3, by rw [h4, h2]⟩

/-- C13: starting from an empty `SafeQueue` (capacity 100), after every finite
interleaving of `push`, `pop` and `clear` calls the queue holds at most 100
entries; and a `push` onto a queue that holds exactly 100 entries leaves 100
entries: the old ones without the single oldest, followed by the new item. -/
theorem queue_never_exceeds_capacity {T : Type} (ops : List (QueueOp T))
    (q : SafeQueue T) (item : T) :
    (runQueueOps ({} : SafeQueue T) ops).size ≤ 100
      ∧ (q.max_size_ = 100 → q.size = 100 →
          (q.push item).queue_ = q.queue_.tail ++ [item] ∧ (q.push item).size = 100) := by
  constructor
  · exact (runQueueOps_bound ops ({} : SafeQueue T) (by simp)).1
  · intro hmax hsize
    have hlen : q.queue_.length = 100 := hsize
    have hq := push_queue_of_le q item (by omega)
    have h1 : (q.queue_ ++ [item]).length - q.max_size_ = 1 := by
      simp only [List.length_append, List.length_singleton]; omega
    rw [h1] at hq
    have htail : List.drop 1 (q.queue_ ++ [item]) = q.queue_.tail ++ [item] := by
      cases hc : q.queue_ with
      | nil => rw [hc] at hlen; simp at hlen
      | cons x xs => simp
    rw [htail] at hq
    refine ⟨hq, ?_⟩
    unfold SafeQueue.size
    rw [hq]
    simp only [List.length_append, List.length_tail, List.length_singleton]
    omega

/-- The C13 theorem on 150 pushes interleaved with a pop and a clear, and on a
push of 100 onto the full queue `0, 1, ..., 99`. -/
theorem queue_never_exceeds_capacity_witness :
    (runQueueOps ({} : SafeQueue Nat)
        ((List.range 150).map QueueOp.push ++ [QueueOp.pop 0, QueueOp.clear, QueueOp.push 7])).size
        ≤ 100
      ∧ (({ queue_ := List.range 100 } : SafeQueue Nat).push 100).queue_
          = (List.range 100).tail ++ [100]
      ∧ (({ queue_ := List.range 100 } : SafeQueue Nat).push 100).size = 100 := by
  have h := queue_never_exceeds_capacity
    ((List.range 150).map QueueOp.push ++ [QueueOp.pop 0, QueueOp.clear, QueueOp.push 7])
    ({ queue_ := List.range 100 } : SafeQueue Nat) 100
  exact ⟨h.1, h.2 rfl (by simp [SafeQueue.size])⟩

end PhoneSlam

/-! ## Theorems: size cap and windows of the inertial buffer -/

namespace PhoneSlam

theorem imuReceiverStep_le (toDouble toFloat : List Nat → ℚ) (buf : List ImuMeasurement)
    (datagram : Option (List Nat)) (h : buf.length ≤ 10000) :
    (imuReceiverStep toDouble toFloat buf datagram).length ≤ 10000 := by
  unfold imuReceiverStep
  simp only []
  split
  · split
    · rename_i hgt
      simp only [List.length_append, List.length_singleton] at hgt
      simp only [List.length_drop, List.length_append, List.length_singleton]
      omega
    · rename_i hgt
      exact not_lt.mp hgt
  · exact h

theorem applyBufferOp_le (toDouble toFloat : List Nat → ℚ) (buf : List ImuMeasurement)
    (op : BufferOp) (h : buf.length ≤ 10000) :
    (applyBufferOp toDouble toFloat buf op).length ≤ 10000 := by
  cases op with
  | receive datagram => exact imuReceiverStep_le toDouble toFloat buf datagram h
  | query a b =>
    show (getImuMeasurements buf a b).2.length ≤ 10000
    rw [getImuMeasurements_snd]
    exact le_trans (List.length_filter_le _ _) h

theorem runBufferOps_le (toDouble toFloat : List Nat → ℚ) (ops : List BufferOp) :
    ∀ buf : List ImuMeasurement, buf.length ≤ 10000 →
      (runBufferOps toDouble toFloat buf ops).length ≤ 10000 := by
  induction ops with
  | nil => intro buf h; exact h
  | cons op rest ih =>
    intro buf h
    exact ih _ (applyBufferOp_le toDouble toFloat buf op h)

end PhoneSlam

namespace PhoneSlamWebsocket

theorem handlePayload_le (stof : List Char → Option ℚ) (accum : SensorAccumulator)
    (buf : List ImuMeasurement) (payload : List Char) (stamp now : ℚ)
    (h : buf.length ≤ 10000) :
    (handlePayload stof accum buf payload stamp now).2.length ≤ 10000 := by
  unfold handlePayload
  simp only []
  split
  · simp only []
    split
    · rename_i hgt
      simp only [List.length_append, List.length_singleton] at hgt
      simp only [List.length_drop, List.length_append, List.length_singleton]
      omega
    · rename_i hgt
      exact not_lt.mp hgt
  · exact h

theorem runWebsocketBufferOps_le (stof : List Char → Option ℚ) (ops : List BufferOp) :
    ∀ state : SensorAccumulator × List ImuMeasurement, state.2.length ≤ 10000 →
      (runBufferOps stof state ops).2.length ≤ 10000 := by
  induction ops with
  | nil => intro state h; exact h
  | cons op rest ih =>
    intro state h
    apply ih
    cases op with
    | payload text stamp now => exact handlePayload_le stof state.1 state.2 text stamp now h
    | query a b => simp [applyBufferOp, getImuMeasurements]

/-- C14: starting from an empty inertial buffer, after every step of every
interleaving of receiver passes (append with eviction) and queries the
buffer holds at most 10,000 samples, in the binary UDP variant and in the
WebSocket variant; in particular it does so when no query ever runs. -/
theorem imu_buffer_capped (toDouble toFloat : List Nat → ℚ) (stof : List Char → Option ℚ)
    (ops : List PhoneSlam.BufferOp) (wsOps : List BufferOp)
    (datagrams : List (Option (List Nat))) :
    (PhoneSlam.runBufferOps toDouble toFloat [] ops).length ≤ 10000
      ∧ (runBufferOps stof ({}, []) wsOps).2.length ≤ 10000
      ∧ (PhoneSlam.runBufferOps toDouble toFloat []
          (datagrams.map PhoneSlam.BufferOp.receive)).length ≤ 10000 :=
  ⟨PhoneSlam.runBufferOps_le toDouble toFloat ops [] (by simp),
    runWebsocketBufferOps_le stof wsOps ({}, []) (by simp),
    PhoneSlam.runBufferOps_le toDouble toFloat _ [] (by simp)⟩

end PhoneSlamWebsocket

namespace PhoneSlam

/-- C15: a receiver pass for a 32-byte datagram appends the decoded sample;
when that raises the count above 10,000 exactly the 5,000 oldest samples are
removed and the rest, ending with the new sample, stays in order; when the
count stays at or below 10,000 nothing is removed. -/
theorem append_drops_oldest_5000 (toDouble toFloat : List Nat → ℚ)
    (buf : List ImuMeasurement) (bytes : List Nat) (hlen : bytes.length = 32) :
    (10000 < buf.length + 1 →
        imuReceiverStep toDouble toFloat buf (some bytes)
            = (buf ++ [decodeImu toDouble toFloat bytes]).drop 5000
          ∧ buf ++ [decodeImu toDouble toFloat bytes]
            = buf.take 5000 ++ imuReceiverStep toDouble toFloat buf (some bytes)
          ∧ (imuReceiverStep toDouble toFloat buf (some bytes)).length = buf.length + 1 - 5000
          ∧ (imuReceiverStep toDouble toFloat buf (some bytes)).getLast?
            = some (decodeImu toDouble toFloat bytes))
      ∧ (buf.length + 1 ≤ 10000 →
        imuReceiverStep toDouble toFloat buf (some bytes)
          = buf ++ [decodeImu toDouble toFloat bytes]) := by
  have htake : bytes.take 32 = bytes := List.take_of_length_le (by omega)
  have hn : ((bytes.take 32).length : Int) = 32 := by rw [htake, hlen]; rfl
  constructor
  · intro hfull
    have hstep : imuReceiverStep toDouble toFloat buf (some bytes)
        = (buf ++ [decodeImu toDouble toFloat bytes]).drop 5000 := by
      simp only [imuReceiverStep, recv]
      rw [if_pos hn, if_pos (by simp only [List.length_append, List.length_singleton]; omega),
        htake]
    have hsplit : (buf ++ [decodeImu toDouble toFloat bytes]).take 5000 = buf.take 5000 :=
      List.take_append_of_le_length (by omega)
    refine ⟨hstep, ?_, ?_, ?_⟩
    · rw [hstep, ← hsplit, List.take_append_drop]
    · rw [hstep]
      simp only [List.length_drop, List.length_append, List.length_singleton]
    · rw [hstep, List.getLast?_drop,
        if_neg (by simp only [List.length_append, List.length_singleton]; omega)]
      simp
  · intro hroom
    simp only [imuReceiverStep, recv]
    rw [if_pos hn, if_neg (by simp only [List.length_append, List.length_singleton]; omega),
      htake]

/-- The C15 theorem on a buffer of 10,000 samples (the append evicts) and on a
buffer of 3 samples (it does not). -/
theorem append_drops_oldest_5000_witness :
    imuReceiverStep (fun _ => 0) (fun _ => 0) (List.replicate 10000 (sampleAt 1))
        (some (List.replicate 32 0))
        = (List.replicate 10000 (sampleAt 1)
            ++ [decodeImu (fun _ => 0) (fun _ => 0) (List.replicate 32 0)]).drop 5000
      ∧ imuReceiverStep (fun _ => 0) (fun _ => 0) (List.replicate 3 (sampleAt 1))
        (some (List.replicate 32 0))
        = List.replicate 3 (sampleAt 1)
            ++ [decodeImu (fun _ => 0) (fun _ => 0) (List.replicate 32 0)] :=
  ⟨((append_drops_oldest_5000 (fun _ => 0) (fun _ => 0) (List.replicate 10000 (sampleAt 1))
      (List.replicate 32 0) (List.length_replicate 32 0)).1
      (by rw [List.length_replicate]; omega)).1,
    (append_drops_oldest_5000 (fun _ => 0) (fun _ => 0) (List.replicate 3 (sampleAt 1))
      (List.replicate 32 0) (List.length_replicate 32 0)).2
      (by rw [List.length_replicate]; omega)⟩

end PhoneSlam

/-! ## Theorems: drain query and loop of the WebSocket variant, order of windows -/

namespace PhoneSlamWebsocket

theorem foldl_collect_all (buf : List ImuMeasurement) (acc : List PhoneSlam.Point) :
    buf.foldl (fun measurements imu => measurements ++ [toPoint imu]) acc
      = acc ++ buf.map toPoint := by
  induction buf generalizing acc with
  | nil => simp
  | cons m rest ih => simp [List.foldl_cons, ih]

theorem getImuMeasurements_eq (buf : List ImuMeasurement) (a b : ℚ) :
    getImuMeasurements buf a b = (buf.map toPoint, []) := by
  unfold getImuMeasurements
  simp only []
  rw [foldl_collect_all buf []]
  simp

/-- C16: in the WebSocket variant `getImuMeasurements(t_start, t_end)` returns
one point for every buffered sample, in insertion order, each carrying the
sample's three accelerometer values, its three gyroscope values and its
timestamp, and leaves the buffer empty, for every buffer and all timestamps;
two calls on the same buffer with different timestamps return the same. -/
theorem getImuMeasurements_drains_all (buf : List ImuMeasurement) (a b a2 b2 : ℚ) :
    (getImuMeasurements buf a b).1
        = buf.map (fun imu =>
            PhoneSlam.Point.mk imu.ax imu.ay imu.az imu.gx imu.gy imu.gz imu.timestamp)
      ∧ (getImuMeasurements buf a b).2 = []
      ∧ getImuMeasurements buf a b = getImuMeasurements buf a2 b2 := by
  rw [getImuMeasurements_eq buf a b, getImuMeasurements_eq buf a2 b2]
  exact ⟨rfl, rfl, rfl⟩

/-- C19 (amended): the loop body of the WebSocket variant hands every frame to
the estimator, whatever the number of samples in its window: with the whole
drained buffer as window (the buffer is then empty) when the recorded
previous-frame time is positive, and with an empty window and the buffer
untouched otherwise. -/
theorem websocket_loop_dispatches_every_frame (s : LoopState) (gray : PhoneSlam.Mat)
    (timestamp : ℚ) :
    (processFrame s gray timestamp).tracked
        = s.tracked ++ [PhoneSlam.TrackCall.mk gray timestamp
            (if s.last_frame_time > 0 then s.g_imu_buffer.map toPoint else [])]
      ∧ (processFrame s gray timestamp).g_imu_buffer
        = (if s.last_frame_time > 0 then [] else s.g_imu_buffer) := by
  unfold processFrame
  by_cases h : s.last_frame_time > 0
  · simp [h, getImuMeasurements_eq]
  · simp [h]

/-- C19 as stated fails: with an empty inertial buffer and frames at clock
readings 1 and 2, the second frame has an empty window (fewer than 2 samples)
and is handed to the estimator all the same. -/
theorem websocket_loop_dispatches_short_window :
    (runFrames {} [([], 1), ([], 2)]).tracked
      = [{ image := [], timestamp := 1, imu_measurements := [] },
         { image := [], timestamp := 2, imu_measurements := [] }] := by
  simp [runFrames, processFrame, getImuMeasurements]

end PhoneSlamWebsocket

namespace PhoneSlam

end PhoneSlam

/-! ## Theorems: values carried by the samples of the WebSocket accumulator -/

namespace PhoneSlamWebsocket

open StdString

theorem parseSensorData_values (stof : List Char → Option ℚ) (accum : SensorAccumulator)
    (data : List Char) (now : ℚ) (imu : ImuMeasurement) :
    ((parseSensorData stof accum data now imu).2.2.ax,
        (parseSensorData stof accum data now imu).2.2.ay,
        (parseSensorData stof accum data now imu).2.2.az)
        = (if (find data "accelerometer".toList).isSome then parseValues stof data
            else (accum.ax, accum.ay, accum.az))
      ∧ ((parseSensorData stof accum data now imu).2.2.gx,
        (parseSensorData stof accum data now imu).2.2.gy,
        (parseSensorData stof accum data now imu).2.2.gz)
        = (if (find data "gyroscope".toList).isSome then parseValues stof data
            else (accum.gx, accum.gy, accum.gz))
      ∧ ((parseSensorData stof accum data now imu).1 = true →
          (parseSensorData stof accum data now imu).2.1
            = { timestamp := now,
                ax := (parseSensorData stof accum data now imu).2.2.ax,
                ay := (parseSensorData stof accum data now imu).2.2.ay,
                az := (parseSensorData stof accum data now imu).2.2.az,
                gx := (parseSensorData stof accum data now imu).2.2.gx,
                gy := (parseSensorData stof accum data now imu).2.2.gy,
                gz := (parseSensorData stof accum data now imu).2.2.gz }) := by
  unfold parseSensorData
  cases (find data "accelerometer".toList).isSome <;>
    cases (find data "gyroscope".toList).isSome <;>
    cases hA : accum.hasAccel <;> cases hG : accum.hasGyro <;> simp [hA, hG]

theorem lastReading_append (stof : List Char → Option ℚ) (word : List Char)
    (hist : List (List Char)) (m : List Char) :
    lastReading stof word (hist ++ [m])
      = if word <:+: m then some (parseValues stof m) else lastReading stof word hist := by
  unfold lastReading
  rw [List.reverse_append, List.reverse_singleton, List.singleton_append, List.find?_cons]
  by_cases h : word <:+: m
  · simp [h]
  · simp [h]

theorem accumAfter_append (stof : List Char → Option ℚ) (imu : ImuMeasurement)
    (msgs : List (List Char × ℚ)) (data : List Char) (now : ℚ) :
    ∀ accum : SensorAccumulator,
      accumAfter stof imu accum (msgs ++ [(data, now)])
        = (parseSensorData stof (accumAfter stof imu accum msgs) data now imu).2.2 := by
  induction msgs with
  | nil => intro accum; rfl
  | cons m rest ih =>
    intro accum
    obtain ⟨d, t⟩ := m
    have h1 : accumAfter stof imu accum ((d, t) :: rest ++ [(data, now)])
        = accumAfter stof imu (parseSensorData stof accum d t imu).2.2
            (rest ++ [(data, now)]) := rfl
    have h2 : accumAfter stof imu accum ((d, t) :: rest)
        = accumAfter stof imu (parseSensorData stof accum d t imu).2.2 rest := rfl
    rw [h1, h2, ih]

theorem find_isSome_eq_decide (data word : List Char) :
    (find data word).isSome = decide (word <:+: data) := by
  rw [Bool.eq_iff_iff, find_isSome_iff]
  simp

theorem accumAfter_holds_latest (stof : List Char → Option ℚ) (imu : ImuMeasurement)
    (msgs : List (List Char × ℚ)) :
    ((accumAfter stof imu {} msgs).ax, (accumAfter stof imu {} msgs).ay,
        (accumAfter stof imu {} msgs).az)
        = (lastReading stof "accelerometer".toList (msgs.map Prod.fst)).getD (0, 0, 0)
      ∧ ((accumAfter stof imu {} msgs).gx, (accumAfter stof imu {} msgs).gy,
        (accumAfter stof imu {} msgs).gz)
        = (lastReading stof "gyroscope".toList (msgs.map Prod.fst)).getD (0, 0, 0)
      ∧ ((accumAfter stof imu {} msgs).hasAccel = true →
          (lastReading stof "accelerometer".toList (msgs.map Prod.fst)).isSome = true)
      ∧ ((accumAfter stof imu {} msgs).hasGyro = true →
          (lastReading stof "gyroscope".toList (msgs.map Prod.fst)).isSome = true) := by
  induction msgs using List.reverseRecOn with
  | nil => refine ⟨rfl, rfl, ?_, ?_⟩ <;> intro h <;> cases h
  | append_singleton rest m ih =>
    obtain ⟨data, now⟩ := m
    obtain ⟨ia, ig, fa, fg⟩ := ih
    obtain ⟨va, vg, _⟩ :=
      parseSensorData_values stof (accumAfter stof imu {} rest) data now imu
    obtain ⟨_, ha, hg⟩ :=
      parseSensorData_flags stof (accumAfter stof imu {} rest) data now imu
    rw [accumAfter_append, List.map_append, List.map_cons, List.map_nil, lastReading_append,
      lastReading_append, va, vg, ha, hg, find_isSome_eq_decide, find_isSome_eq_decide]
    by_cases hA : "accelerometer".toList <:+: data <;>
      by_cases hG : "gyroscope".toList <:+: data
    · simp only [hA, hG, decide_True, if_true, Option.getD_some, Option.isSome_some,
        implies_true, and_self]
    · simp only [hA, hG, decide_True, decide_False, if_true, Option.getD_some,
        Option.isSome_some, implies_true, true_and, Bool.false_eq_true, if_false, ig,
        Bool.or_false, Bool.and_eq_true]
      intro h
      exact fg h.2
    · simp only [hA, hG, decide_True, decide_False, if_true, Option.getD_some,
        Option.isSome_some, implies_true, and_true, Bool.false_eq_true, if_false, ia,
        Bool.or_false, Bool.and_eq_true, true_and]
      intro h
      exact fa h.2
    · simp only [hA, hG, decide_False, Bool.false_eq_true, if_false, ia, ig, Bool.or_false,
        Bool.and_eq_true, true_and]
      exact ⟨fun h => fa h.2, fun h => fg h.2⟩

/-- Whenever `parseSensorData` emits a sample, after any sequence of message
texts from a fresh accumulator, the sample carries what `parseValues` reads
from the most recent text so far containing "accelerometer" and from the
most recent text containing "gyroscope", and the clock reading of the call
as timestamp; the texts `a1`, `a2` (accelerometer) and `g` (gyroscope) lead
to exactly one sample, made of what is read from `a2` and from `g`. -/
theorem emitted_sample_latest_parsed (stof : List Char → Option ℚ)
    (imu : ImuMeasurement) (msgs : List (List Char × ℚ)) (data : List Char) (now : ℚ)
    (a1 a2 g : List Char) (t1 t2 t3 : ℚ)
    (ha1 : "accelerometer".toList <:+: a1) (hg1 : ¬ "gyroscope".toList <:+: a1)
    (ha2 : "accelerometer".toList <:+: a2) (hg2 : ¬ "gyroscope".toList <:+: a2)
    (ha3 : ¬ "accelerometer".toList <:+: g) (hg3 : "gyroscope".toList <:+: g) :
    ((parseSensorData stof (accumAfter stof imu {} msgs) data now imu).1 = true →
        lastReading stof "accelerometer".toList (msgs.map Prod.fst ++ [data])
            = some ((parseSensorData stof (accumAfter stof imu {} msgs) data now imu).2.1.ax,
                (parseSensorData stof (accumAfter stof imu {} msgs) data now imu).2.1.ay,
                (parseSensorData stof (accumAfter stof imu {} msgs) data now imu).2.1.az)
          ∧ lastReading stof "gyroscope".toList (msgs.map Prod.fst ++ [data])
            = some ((parseSensorData stof (accumAfter stof imu {} msgs) data now imu).2.1.gx,
                (parseSensorData stof (accumAfter stof imu {} msgs) data now imu).2.1.gy,
                (parseSensorData stof (accumAfter stof imu {} msgs) data now imu).2.1.gz)
          ∧ (parseSensorData stof (accumAfter stof imu {} msgs) data now imu).2.1.timestamp
            = now)
      ∧ emittedSamples stof imu {} [(a1, t1), (a2, t2), (g, t3)]
        = [{ timestamp := t3,
             ax := (parseValues stof a2).1, ay := (parseValues stof a2).2.1,
             az := (parseValues stof a2).2.2,
             gx := (parseValues stof g).1, gy := (parseValues stof g).2.1,
             gz := (parseValues stof g).2.2 }] := by
  constructor
  · intro hemit
    have hall := accumAfter_holds_latest stof imu (msgs ++ [(data, now)])
    rw [accumAfter_append, List.map_append, List.map_cons, List.map_nil] at hall
    obtain ⟨la, lg, _, _⟩ := hall
    obtain ⟨_, _, hs⟩ :=
      parseSensorData_values stof (accumAfter stof imu {} msgs) data now imu
    obtain ⟨hf, _, _⟩ :=
      parseSensorData_flags stof (accumAfter stof imu {} msgs) data now imu
    obtain ⟨_, _, fa, fg⟩ := accumAfter_holds_latest stof imu msgs
    have hs2 := hs hemit
    rw [hemit] at hf
    have hf2 : ((accumAfter stof imu {} msgs).hasAccel = true
          ∨ (find data "accelerometer".toList).isSome = true)
        ∧ ((accumAfter stof imu {} msgs).hasGyro = true
          ∨ (find data "gyroscope".toList).isSome = true) := by
      have := hf.symm
      simp only [Bool.and_eq_true, Bool.or_eq_true] at this
      exact ⟨this.1.2, this.2⟩
    have hsomeA : (lastReading stof "accelerometer".toList
        (msgs.map Prod.fst ++ [data])).isSome = true := by
      rw [lastReading_append]
      rcases hf2.1 with h | h
      · by_cases hA : "accelerometer".toList <:+: data
        · rw [if_pos hA]; rfl
        · rw [if_neg hA]; exact fa h
      · rw [if_pos ((find_isSome_iff _ _).mp h)]; rfl
    have hsomeG : (lastReading stof "gyroscope".toList
        (msgs.map Prod.fst ++ [data])).isSome = true := by
      rw [lastReading_append]
      rcases hf2.2 with h | h
      · by_cases hG : "gyroscope".toList <:+: data
        · rw [if_pos hG]; rfl
        · rw [if_neg hG]; exact fg h
      · rw [if_pos ((find_isSome_iff _ _).mp h)]; rfl
    obtain ⟨va, hva⟩ := Option.isSome_iff_exists.mp hsomeA
    obtain ⟨vg, hvg⟩ := Option.isSome_iff_exists.mp hsomeG
    rw [hva, Option.getD_some] at la
    rw [hvg, Option.getD_some] at lg
    rw [hs2]
    simp only []
    rw [hva, hvg, ← la, ← lg]
    refine ⟨?_, ?_, ?_⟩ <;> first | rfl | trivial
  · have f1a : (find a1 "accelerometer".toList).isSome = true := (find_isSome_iff _ _).mpr ha1
    have f1g : (find a1 "gyroscope".toList).isSome = false := by
      rw [find_isSome_eq_decide]; exact decide_eq_false hg1
    have f2a : (find a2 "accelerometer".toList).isSome = true := (find_isSome_iff _ _).mpr ha2
    have f2g : (find a2 "gyroscope".toList).isSome = false := by
      rw [find_isSome_eq_decide]; exact decide_eq_false hg2
    have f3a : (find g "accelerometer".toList).isSome = false := by
      rw [find_isSome_eq_decide]; exact decide_eq_false ha3
    have f3g : (find g "gyroscope".toList).isSome = true := (find_isSome_iff _ _).mpr hg3
    simp only [emittedSamples, parseSensorData, f1a, f1g, f2a, f2g, f3a, f3g]
    simp

end PhoneSlamWebsocket

namespace PhoneSlamWebsocket

open StdString

theorem parseValues_array_4_5_6 :
    parseValues stofDecimal "accelerometer \"values\":[4,5,6]".toList = (4, 5, 6) := by
  have hv : find "accelerometer \"values\":[4,5,6]".toList "\"values\"".toList = some 14 := by
    decide
  have hb : findFrom "accelerometer \"values\":[4,5,6]".toList ['['] 14 = some 23 := by decide
  have he : findFrom "accelerometer \"values\":[4,5,6]".toList [']'] (23 + 1) = some 29 := by
    decide
  have ht : getlineTokens ','
      (substr "accelerometer \"values\":[4,5,6]".toList (23 + 1) (29 - (23 + 1))) []
      = [['4'], ['5'], ['6']] := by decide
  have s4 : stofDecimal ['4'] = some 4 := by
    simp [stofDecimal, takeSign, isspace, isdigit, digitsValue, exponentValue]
  have s5 : stofDecimal ['5'] = some 5 := by
    simp [stofDecimal, takeSign, isspace, isdigit, digitsValue, exponentValue]
  have s6 : stofDecimal ['6'] = some 6 := by
    simp [stofDecimal, takeSign, isspace, isdigit, digitsValue, exponentValue]
  unfold parseValues
  rw [hv]
  simp only [hb, he, ht, List.get?, List.nil_append, s4, s5, s6]

theorem parseValues_array_7_8_9 :
    parseValues stofDecimal "gyroscope \"values\":[7,8,9]".toList = (7, 8, 9) := by
  have hv : find "gyroscope \"values\":[7,8,9]".toList "\"values\"".toList = some 10 := by
    decide
  have hb : findFrom "gyroscope \"values\":[7,8,9]".toList ['['] 10 = some 19 := by decide
  have he : findFrom "gyroscope \"values\":[7,8,9]".toList [']'] (19 + 1) = some 25 := by
    decide
  have ht : getlineTokens ','
      (substr "gyroscope \"values\":[7,8,9]".toList (19 + 1) (25 - (19 + 1))) []
      = [['7'], ['8'], ['9']] := by decide
  have s7 : stofDecimal ['7'] = some 7 := by
    simp [stofDecimal, takeSign, isspace, isdigit, digitsValue, exponentValue]
  have s8 : stofDecimal ['8'] = some 8 := by
    simp [stofDecimal, takeSign, isspace, isdigit, digitsValue, exponentValue]
  have s9 : stofDecimal ['9'] = some 9 := by
    simp [stofDecimal, takeSign, isspace, isdigit, digitsValue, exponentValue]
  unfold parseValues
  rw [hv]
  simp only [hb, he, ht, List.get?, List.nil_append, s7, s8, s9]

/-- The texts accelerometer `[1,2,3]`, accelerometer `[4,5,6]`, gyroscope
`[7,8,9]` received at clock readings 10, 20, 30: exactly one sample is
emitted, with accelerometer values 4, 5, 6, gyroscope values 7, 8, 9 and
timestamp 30. -/
theorem emitted_sample_latest_parsed_example :
    emittedSamples stofDecimal ⟨0, 0, 0, 0, 0, 0, 0⟩ {}
        [("accelerometer \"values\":[1,2,3]".toList, 10),
          ("accelerometer \"values\":[4,5,6]".toList, 20),
          ("gyroscope \"values\":[7,8,9]".toList, 30)]
      = [{ timestamp := 30, ax := 4, ay := 5, az := 6, gx := 7, gy := 8, gz := 9 }] := by
  have h := (emitted_sample_latest_parsed stofDecimal ⟨0, 0, 0, 0, 0, 0, 0⟩ [] [] 0
    "accelerometer \"values\":[1,2,3]".toList "accelerometer \"values\":[4,5,6]".toList
    "gyroscope \"values\":[7,8,9]".toList 10 20 30
    (by decide) (by decide) (by decide) (by decide) (by decide) (by decide)).2
  rw [parseValues_array_4_5_6, parseValues_array_7_8_9] at h
  exact h

end PhoneSlamWebsocket

/-! ## Theorems: camera receiver of `phone_slam.cpp` -/

namespace PhoneSlam

theorem recvStream_some (conn : Connection) (len : Nat) (hs : conn.stream ≠ []) (hl : 0 < len) :
    ∃ n : Nat, 1 ≤ n ∧ n ≤ len ∧ n ≤ conn.stream.length
      ∧ recvStream conn len
        = ((n : Int), conn.stream.take n,
            { stream := conn.stream.drop n, arrivals := conn.arrivals.tail }) := by
  have hpos : 0 < conn.stream.length := List.length_pos.mpr hs
  refine ⟨min len (min (max 1 (conn.arrivals.headD conn.stream.length)) conn.stream.length),
    ?_, ?_, ?_, ?_⟩
  · omega
  · omega
  · omega
  · unfold recvStream
    rw [if_neg (by simpa using hs)]

theorem recvStream_closed (conn : Connection) (len : Nat) (hs : conn.stream = []) :
    recvStream conn len = (0, [], conn) := by
  unfold recvStream
  rw [if_pos (by simp [hs])]

theorem readLoop_complete (n : Nat) (hn : n < 2 ^ 31) (fuel : Nat) :
    ∀ (k : Nat) (received : List Nat) (conn : Connection),
      k ≤ n → n - k ≤ fuel → n - k ≤ conn.stream.length →
      ∃ arrivals, readLoop fuel n n k received conn
        = ((n : Int), received ++ conn.stream.take (n - k),
            { stream := conn.stream.drop (n - k), arrivals := arrivals }) := by
  induction fuel with
  | zero =>
    intro k received conn hk hfuel _
    have hkn : k = n := by omega
    subst hkn
    exact ⟨conn.arrivals, by simp [readLoop]⟩
  | succ fuel ih =>
    intro k received conn hk hfuel hstream
    by_cases hlt : (k : Int) < (n : Int)
    · have hne : conn.stream ≠ [] := by
        intro h
        rw [h] at hstream
        simp only [List.length_nil] at hstream
        omega
      have hlen : (((n : Int) - (k : Int)) % 2 ^ 32).toNat = n - k := by omega
      obtain ⟨m, hm1, hm2, hm3, hrecv⟩ := recvStream_some conn (n - k) hne (by omega)
      obtain ⟨arrivals, hrec⟩ := ih (k + m) (received ++ conn.stream.take m)
        { stream := conn.stream.drop m, arrivals := conn.arrivals.tail } (by omega) (by omega)
        (by simp only [List.length_drop]; omega)
      refine ⟨arrivals, ?_⟩
      unfold readLoop
      rw [if_pos hlt, hlen]
      simp only [hrecv]
      rw [if_neg (by omega)]
      have hcast : (k : Int) + (m : Int) = ((k + m : Nat) : Int) := by push_cast; rfl
      rw [hcast, hrec]
      have hsplit : n - k = m + (n - (k + m)) := by omega
      simp only [List.drop_drop, List.append_assoc, Prod.mk.injEq, true_and]
      constructor
      · congr 1
        rw [hsplit, List.take_add]
      · congr 1
        congr 1
        omega
    · have hkn : k = n := by omega
      subst hkn
      refine ⟨conn.arrivals, ?_⟩
      unfold readLoop
      rw [if_neg hlt]
      simp

theorem readLoop_short (n : Nat) (hn : n < 2 ^ 31) (fuel : Nat) :
    ∀ (k : Nat) (received : List Nat) (conn : Connection),
      k ≤ n → conn.stream.length < fuel → conn.stream.length < n - k →
      ∃ arrivals, readLoop fuel n n k received conn
        = (((k + conn.stream.length : Nat) : Int), received ++ conn.stream,
            { stream := [], arrivals := arrivals }) := by
  induction fuel with
  | zero => intro k received conn _ hfuel _; omega
  | succ fuel ih =>
    intro k received conn hk hfuel hstream
    have hlt : (k : Int) < (n : Int) := by omega
    have hlen : (((n : Int) - (k : Int)) % 2 ^ 32).toNat = n - k := by omega
    by_cases hs : conn.stream = []
    · refine ⟨conn.arrivals, ?_⟩
      unfold readLoop
      rw [if_pos hlt, hlen]
      simp only [recvStream_closed conn (n - k) hs]
      rw [if_pos (le_refl _)]
      cases conn with
      | mk stream arrivals =>
        simp only at hs
        subst hs
        simp
    · obtain ⟨m, hm1, hm2, hm3, hrecv⟩ := recvStream_some conn (n - k) hs (by omega)
      obtain ⟨arrivals, hrec⟩ := ih (k + m) (received ++ conn.stream.take m)
        { stream := conn.stream.drop m, arrivals := conn.arrivals.tail } (by omega)
        (by simp only [List.length_drop]; omega)
        (by simp only [List.length_drop]; omega)
      refine ⟨arrivals, ?_⟩
      unfold readLoop
      rw [if_pos hlt, hlen]
      simp only [hrecv]
      rw [if_neg (by omega)]
      have hcast : (k : Int) + (m : Int) = ((k + m : Nat) : Int) := by push_cast; rfl
      rw [hcast, hrec]
      simp only [List.length_drop, List.append_assoc, List.take_append_drop, Prod.mk.injEq,
        and_true]
      congr 1
      omega


theorem readLoop_not_entered (fuel : Nat) (want : Int) (total : Nat) (bytes_read : Int)
    (received : List Nat) (conn : Connection) (h : ¬ bytes_read < want) :
    readLoop fuel want total bytes_read received conn = (bytes_read, received, conn) := by
  cases fuel with
  | zero => rfl
  | succ fuel =>
    unfold readLoop
    rw [if_neg h]

theorem toInt32_small (size : Nat) (h : size < 2 ^ 31) : toInt32 size = (size : Int) := by
  unfold toInt32
  have hm : size % 2 ^ 32 = size := Nat.mod_eq_of_lt (by omega)
  rw [hm, if_pos h]

theorem readHeader_complete (header tail : List Nat) (arrivals : List Nat)
    (hlen : header.length = 12) :
    ∃ arrivals2, readLoop 12 12 12 0 [] { stream := header ++ tail, arrivals := arrivals }
      = (12, header, { stream := tail, arrivals := arrivals2 }) := by
  obtain ⟨arr, h⟩ := readLoop_complete 12 (by norm_num) 12 0 []
    { stream := header ++ tail, arrivals := arrivals } (by omega) (by omega)
    (by simp only [List.length_append]; omega)
  refine ⟨arr, ?_⟩
  have h0 : ((0 : Nat) : Int) = 0 := rfl
  have h12 : ((12 : Nat) : Int) = 12 := rfl
  rw [h0, h12] at h
  rw [h]
  simp only [Nat.sub_zero, List.nil_append, ← hlen, List.take_left, List.drop_left]

/-- Complete frame with a length field below `2^31`: the payload is read
exactly, handed to the decoder with the header's timestamp, the frame is
pushed when the decoder returns an image, and the connection stands at the
byte after the payload. -/
theorem receiveFrame_complete (toDouble : List Nat → ℚ) (imdecode : List Nat → Option Mat)
    (st : CameraState) (header payload tail : List Nat)
    (hstream : st.conn.stream = header ++ payload ++ tail) (hlen : header.length = 12)
    (hsize : readUInt32 (header.drop 8) = payload.length) (hsmall : payload.length < 2 ^ 31) :
    (receiveFrame toDouble imdecode st).conn.stream = tail
      ∧ (receiveFrame toDouble imdecode st).connected = true
      ∧ (receiveFrame toDouble imdecode st).decoded
        = st.decoded ++ [(toDouble (header.take 8), payload)]
      ∧ (receiveFrame toDouble imdecode st).g_frame_queue
        = (match imdecode payload with
          | some frame =>
            st.g_frame_queue.push { timestamp := toDouble (header.take 8), image := frame }
          | none => st.g_frame_queue) := by
  obtain ⟨arr1, hhead⟩ := readHeader_complete header (payload ++ tail) st.conn.arrivals hlen
  have hconn : st.conn = { stream := header ++ (payload ++ tail), arrivals := st.conn.arrivals } := by
    cases hc : st.conn with
    | mk stream arrivals =>
      rw [hc] at hstream
      simp only at hstream
      simp [hstream]
  obtain ⟨arr2, hbody⟩ := readLoop_complete payload.length hsmall payload.length 0 []
    { stream := payload ++ tail, arrivals := arr1 } (by omega) (by omega)
    (by simp only [List.length_append]; omega)
  have h0 : ((0 : Nat) : Int) = 0 := rfl
  rw [h0] at hbody
  simp only [Nat.sub_zero, List.nil_append, List.take_left, List.drop_left] at hbody
  unfold receiveFrame
  rw [hconn, hhead]
  simp only [hsize, toInt32_small _ hsmall, hbody]
  rw [if_neg (by norm_num), if_neg (lt_irrefl _)]
  simp only [Nat.sub_self, List.replicate_zero, List.append_nil]
  cases imdecode payload <;> simp

/-- Payload cut short by the end of the connection (length field below
`2^31`): the loop is left, nothing is decoded and nothing is pushed. -/
theorem receiveFrame_short_payload (toDouble : List Nat → ℚ)
    (imdecode : List Nat → Option Mat) (st : CameraState) (header partialData : List Nat)
    (hstream : st.conn.stream = header ++ partialData) (hlen : header.length = 12)
    (hshort : partialData.length < readUInt32 (header.drop 8))
    (hsmall : readUInt32 (header.drop 8) < 2 ^ 31) :
    (receiveFrame toDouble imdecode st).connected = false
      ∧ (receiveFrame toDouble imdecode st).decoded = st.decoded
      ∧ (receiveFrame toDouble imdecode st).g_frame_queue = st.g_frame_queue
      ∧ (receiveFrame toDouble imdecode st).conn.stream = [] := by
  obtain ⟨arr1, hhead⟩ := readHeader_complete header partialData st.conn.arrivals hlen
  have hconn : st.conn = { stream := header ++ partialData, arrivals := st.conn.arrivals } := by
    cases hc : st.conn with
    | mk stream arrivals =>
      rw [hc] at hstream
      simp only at hstream
      simp [hstream]
  obtain ⟨arr2, hbody⟩ := readLoop_short (readUInt32 (header.drop 8)) hsmall
    (readUInt32 (header.drop 8)) 0 [] { stream := partialData, arrivals := arr1 }
    (by omega) hshort (by simpa using hshort)
  have h0 : ((0 : Nat) : Int) = 0 := rfl
  rw [h0] at hbody
  simp only [Nat.zero_add, List.nil_append] at hbody
  unfold receiveFrame
  rw [hconn, hhead]
  simp only [toInt32_small _ hsmall, hbody]
  rw [if_neg (by norm_num), if_pos (by exact_mod_cast hshort)]
  exact ⟨rfl, rfl, rfl, rfl⟩

/-- Header cut short by the end of the connection: the loop is left, nothing
is decoded and nothing is pushed. -/
theorem receiveFrame_short_header (toDouble : List Nat → ℚ)
    (imdecode : List Nat → Option Mat) (st : CameraState) (hshort : st.conn.stream.length < 12) :
    (receiveFrame toDouble imdecode st).connected = false
      ∧ (receiveFrame toDouble imdecode st).decoded = st.decoded
      ∧ (receiveFrame toDouble imdecode st).g_frame_queue = st.g_frame_queue := by
  obtain ⟨arr, hhead⟩ := readLoop_short 12 (by norm_num) 12 0 [] st.conn (by omega)
    hshort (by omega)
  have h0 : ((0 : Nat) : Int) = 0 := rfl
  have h12 : ((12 : Nat) : Int) = 12 := rfl
  rw [h0, h12] at hhead
  unfold receiveFrame
  rw [hhead]
  rw [if_pos (by simp only [Nat.zero_add]; exact_mod_cast hshort)]
  exact ⟨rfl, rfl, rfl⟩

theorem toInt32_large (size : Nat) (hbig : 2 ^ 31 ≤ size) (hlt : size < 2 ^ 32) :
    toInt32 size = (size : Int) - 2 ^ 32 := by
  unfold toInt32
  have hm : size % 2 ^ 32 = size := Nat.mod_eq_of_lt hlt
  rw [hm, if_neg (by omega)]

/-- Header whose length field is `2^31` or more: `(int)size` is negative, the
payload loop is not entered, no payload byte is taken off the stream and the
decoder gets `size` zero bytes. -/
theorem receiveFrame_large (toDouble : List Nat → ℚ) (imdecode : List Nat → Option Mat)
    (st : CameraState) (header tail : List Nat)
    (hstream : st.conn.stream = header ++ tail) (hlen : header.length = 12)
    (hbig : 2 ^ 31 ≤ readUInt32 (header.drop 8)) (hlt : readUInt32 (header.drop 8) < 2 ^ 32) :
    (receiveFrame toDouble imdecode st).conn.stream = tail
      ∧ (receiveFrame toDouble imdecode st).decoded
        = st.decoded ++ [(toDouble (header.take 8),
            List.replicate (readUInt32 (header.drop 8)) 0)]
      ∧ (receiveFrame toDouble imdecode st).connected = true := by
  obtain ⟨arr1, hhead⟩ := readHeader_complete header tail st.conn.arrivals hlen
  have hconn : st.conn = { stream := header ++ tail, arrivals := st.conn.arrivals } := by
    cases hc : st.conn with
    | mk stream arrivals =>
      rw [hc] at hstream
      simp only at hstream
      simp [hstream]
  have hneg : toInt32 (readUInt32 (header.drop 8)) < 0 := by
    rw [toInt32_large _ hbig hlt]; omega
  have hbody : readLoop (readUInt32 (header.drop 8)) (toInt32 (readUInt32 (header.drop 8)))
      (readUInt32 (header.drop 8)) 0 [] { stream := tail, arrivals := arr1 }
      = (0, [], { stream := tail, arrivals := arr1 }) :=
    readLoop_not_entered _ _ _ _ _ _ (by omega)
  unfold receiveFrame
  rw [hconn, hhead]
  simp only [hbody]
  rw [if_neg (by norm_num), if_neg (by omega)]
  simp only [List.length_nil, Nat.sub_zero, List.nil_append]
  cases imdecode (List.replicate (readUInt32 (header.drop 8)) 0) <;> exact ⟨rfl, rfl, rfl⟩

/-- C20 (the receiver run on the failing input): for a header whose length
field holds `2^31` (bytes `00 00 00 80`) the payload loop is not entered,
because `(int)size` is negative: no payload byte is taken off the stream, the
decoder gets a buffer of `2^31` zero bytes, and the connection stands at the
first payload byte, from which the next header will be read. -/
theorem receiveFrame_length_2_pow_31 (toDouble : List Nat → ℚ)
    (imdecode : List Nat → Option Mat) (t0 t1 t2 t3 t4 t5 t6 t7 : Nat)
    (tail arrivals : List Nat) :
    readUInt32 [0, 0, 0, 128] = 2 ^ 31
      ∧ toInt32 (readUInt32 [0, 0, 0, 128]) = -(2 ^ 31)
      ∧ (receiveFrame toDouble imdecode
          { conn := { stream := [t0, t1, t2, t3, t4, t5, t6, t7, 0, 0, 0, 128] ++ tail,
                      arrivals := arrivals } }).conn.stream = tail
      ∧ (receiveFrame toDouble imdecode
          { conn := { stream := [t0, t1, t2, t3, t4, t5, t6, t7, 0, 0, 0, 128] ++ tail,
                      arrivals := arrivals } }).decoded
        = [(toDouble [t0, t1, t2, t3, t4, t5, t6, t7],
            List.replicate (readUInt32 [0, 0, 0, 128]) 0)]
      ∧ (receiveFrame toDouble imdecode
          { conn := { stream := [t0, t1, t2, t3, t4, t5, t6, t7, 0, 0, 0, 128] ++ tail,
                      arrivals := arrivals } }).connected = true := by
  have hsize : readUInt32 [0, 0, 0, 128] = 2 ^ 31 := by decide
  have hint : toInt32 (readUInt32 [0, 0, 0, 128]) = -(2 ^ 31) := by
    rw [toInt32_large _ (by rw [hsize]) (by rw [hsize]; norm_num), hsize]
    norm_num
  exact ⟨hsize, hint,
    receiveFrame_large toDouble imdecode
      { conn := { stream := [t0, t1, t2, t3, t4, t5, t6, t7, 0, 0, 0, 128] ++ tail,
                  arrivals := arrivals } }
      [t0, t1, t2, t3, t4, t5, t6, t7, 0, 0, 0, 128] tail rfl rfl
      (by show 2 ^ 31 ≤ readUInt32 [0, 0, 0, 128]; rw [hsize])
      (by show readUInt32 [0, 0, 0, 128] < 2 ^ 32; rw [hsize]; norm_num)⟩

end PhoneSlam

/-! ## Theorems: forward-moving queries, emission counts, key fallback, datagram layout -/

namespace PhoneSlam

/-- C25: for every buffer and all `a ≤ a2`, any `b`, `b2`: the call
`getImuMeasurements(a2, b2)` made right after `getImuMeasurements(a, b)`
returns the same measurements, and leaves the same buffer, as the call
`getImuMeasurements(a2, b2)` made on the original buffer. -/
theorem trimming_keeps_forward_queries (buf : List ImuMeasurement) (a b a2 b2 : ℚ)
    (hle : a ≤ a2) :
    getImuMeasurements (getImuMeasurements buf a b).2 a2 b2 = getImuMeasurements buf a2 b2 := by
  have h1 : (getImuMeasurements (getImuMeasurements buf a b).2 a2 b2).1
      = (getImuMeasurements buf a2 b2).1 := by
    rw [getImuMeasurements_fst, getImuMeasurements_fst, getImuMeasurements_snd,
      samplesInWindow_trimmed buf a a2 b2 hle]
  have h2 : (getImuMeasurements (getImuMeasurements buf a b).2 a2 b2).2
      = (getImuMeasurements buf a2 b2).2 := by
    rw [getImuMeasurements_snd, getImuMeasurements_snd, getImuMeasurements_snd,
      List.filter_filter]
    apply List.filter_congr
    intro m _
    by_cases hm : a2 - 1 ≤ m.timestamp
    · have : a - 1 ≤ m.timestamp := by linarith
      simp [hm, this]
    · simp [hm]
  exact Prod.ext h1 h2

/-- The C25 theorem on the buffer with samples at 0.5, 0.9, 1.5, 1.8 and the
queries `(1, 2]` after `(0, 1]`. -/
theorem trimming_keeps_forward_queries_witness :
    getImuMeasurements
        (getImuMeasurements [sampleAt (1/2), sampleAt (9/10), sampleAt (3/2), sampleAt (9/5)]
          0 1).2 1 2
      = getImuMeasurements [sampleAt (1/2), sampleAt (9/10), sampleAt (3/2), sampleAt (9/5)]
          1 2 :=
  trimming_keeps_forward_queries _ 0 1 1 2 (by norm_num)

/-- C22: a receiver pass for a 32-byte datagram `b0 ... b31` appends exactly
one sample (and then applies the size cap): its timestamp is read from bytes
0-7, and ax, ay, az, gx, gy, gz from the 4-byte groups at offsets 8, 12, 16,
20, 24 and 28, in that order; `toDouble` and `toFloat` stand for reading the
bytes, unchanged, as a `double` and as a `float`. -/
theorem datagram_layout (toDouble toFloat : List Nat → ℚ) (buf : List ImuMeasurement)
    (b0 b1 b2 b3 b4 b5 b6 b7 b8 b9 b10 b11 b12 b13 b14 b15 : Nat)
    (b16 b17 b18 b19 b20 b21 b22 b23 b24 b25 b26 b27 b28 b29 b30 b31 : Nat) :
    imuReceiverStep toDouble toFloat buf
        (some [b0, b1, b2, b3, b4, b5, b6, b7, b8, b9, b10, b11, b12, b13, b14, b15,
          b16, b17, b18, b19, b20, b21, b22, b23, b24, b25, b26, b27, b28, b29, b30, b31])
      = (if buf.length + 1 > 10000 then
          (buf ++ [ImuMeasurement.mk (toDouble [b0, b1, b2, b3, b4, b5, b6, b7])
            (toFloat [b8, b9, b10, b11]) (toFloat [b12, b13, b14, b15])
            (toFloat [b16, b17, b18, b19]) (toFloat [b20, b21, b22, b23])
            (toFloat [b24, b25, b26, b27]) (toFloat [b28, b29, b30, b31])]).drop 5000
        else
          buf ++ [ImuMeasurement.mk (toDouble [b0, b1, b2, b3, b4, b5, b6, b7])
            (toFloat [b8, b9, b10, b11]) (toFloat [b12, b13, b14, b15])
            (toFloat [b16, b17, b18, b19]) (toFloat [b20, b21, b22, b23])
            (toFloat [b24, b25, b26, b27]) (toFloat [b28, b29, b30, b31])]) := by
  simp [imuReceiverStep, recv, decodeImu]

end PhoneSlam

namespace PhoneSlamWebsocket

open StdString

theorem emission_count_le (stof : List Char → Option ℚ) (imu : ImuMeasurement)
    (msgs : List (List Char × ℚ)) :
    ∀ accum : SensorAccumulator,
      (runMessages stof imu accum msgs).1.count true
          ≤ msgs.countP (fun m => decide ("accelerometer".toList <:+: m.1))
            + (if accum.hasAccel then 1 else 0)
        ∧ (runMessages stof imu accum msgs).1.count true
          ≤ msgs.countP (fun m => decide ("gyroscope".toList <:+: m.1))
            + (if accum.hasGyro then 1 else 0) := by
  induction msgs with
  | nil => intro accum; simp [runMessages]
  | cons m rest ih =>
    intro accum
    obtain ⟨data, now⟩ := m
    obtain ⟨h1, h2, h3⟩ := parseSensorData_flags stof accum data now imu
    obtain ⟨iha, ihg⟩ := ih (parseSensorData stof accum data now imu).2.2
    have hstep : (runMessages stof imu accum ((data, now) :: rest)).1
        = (parseSensorData stof accum data now imu).1
          :: (runMessages stof imu (parseSensorData stof accum data now imu).2.2 rest).1 := rfl
    rw [hstep, List.count_cons, List.countP_cons, List.countP_cons]
    rw [h2] at iha
    rw [h3] at ihg
    rw [find_isSome_eq_decide] at h1 iha
    rw [find_isSome_eq_decide] at h1 ihg
    simp only []
    revert iha ihg h1
    generalize (parseSensorData stof accum data now imu).1 = e
    generalize (runMessages stof imu (parseSensorData stof accum data now imu).2.2 rest).1.count
      true = c
    cases e <;> cases accum.hasAccel <;> cases accum.hasGyro <;>
      cases decide ("accelerometer".toList <:+: data) <;>
      cases decide ("gyroscope".toList <:+: data) <;>
      simp <;> omega

/-- C29: over every sequence of messages fed to `parseSensorData` from a fresh
accumulator, the number of calls that emit a sample is at most the number of
messages containing "accelerometer" and at most the number of messages
containing "gyroscope"; and a call with a message containing neither returns
false and leaves the accumulator and the caller's `imu` as they were. -/
theorem emissions_bounded_by_readings (stof : List Char → Option ℚ) (imu : ImuMeasurement)
    (msgs : List (List Char × ℚ)) (accum : SensorAccumulator) (data : List Char) (now : ℚ) :
    (runMessages stof imu {} msgs).1.count true
        ≤ min (msgs.countP (fun m => decide ("accelerometer".toList <:+: m.1)))
            (msgs.countP (fun m => decide ("gyroscope".toList <:+: m.1)))
      ∧ (¬ "accelerometer".toList <:+: data → ¬ "gyroscope".toList <:+: data →
          parseSensorData stof accum data now imu = (false, imu, accum)) := by
  constructor
  · obtain ⟨ha, hg⟩ := emission_count_le stof imu msgs {}
    simp only [Bool.false_eq_true, if_false, Nat.add_zero] at ha hg
    exact le_min ha hg
  · intro hA hG
    have fa : (find data "accelerometer".toList).isSome = false := by
      rw [find_isSome_eq_decide]; exact decide_eq_false hA
    have fg : (find data "gyroscope".toList).isSome = false := by
      rw [find_isSome_eq_decide]; exact decide_eq_false hG
    unfold parseSensorData
    simp only [fa, fg]
    rfl

/-- The C29 theorem on the messages accelerometer, accelerometer, gyroscope,
and on a call with the message `ping`. -/
theorem emissions_bounded_by_readings_witness :
    (runMessages stofDecimal ⟨0, 0, 0, 0, 0, 0, 0⟩ {}
        [("accelerometer".toList, 1), ("accelerometer".toList, 2),
          ("gyroscope".toList, 3)]).1.count true
        ≤ min
          ([("accelerometer".toList, (1 : ℚ)), ("accelerometer".toList, 2),
            ("gyroscope".toList, 3)].countP
              (fun m => decide ("accelerometer".toList <:+: m.1)))
          ([("accelerometer".toList, (1 : ℚ)), ("accelerometer".toList, 2),
            ("gyroscope".toList, 3)].countP
              (fun m => decide ("gyroscope".toList <:+: m.1)))
      ∧ parseSensorData stofDecimal { hasAccel := true } "ping".toList 4 ⟨0, 0, 0, 0, 0, 0, 0⟩
        = (false, ⟨0, 0, 0, 0, 0, 0, 0⟩, { hasAccel := true }) := by
  have h := emissions_bounded_by_readings stofDecimal ⟨0, 0, 0, 0, 0, 0, 0⟩
    [("accelerometer".toList, 1), ("accelerometer".toList, 2), ("gyroscope".toList, 3)]
    { hasAccel := true } "ping".toList 4
  exact ⟨h.1, h.2 (by decide) (by decide)⟩

end PhoneSlamWebsocket

/-! ## Theorems: key fallback and poll pass of `phone_slam_phyphox.cpp` -/

namespace PhoneSlamPhyphox

open StdString

theorem axisValue_eq_firstNonZero (stof : List Char → Option ℚ) (json : List Char)
    (k1 k2 k3 : String) :
    axisValue stof json k1 k2 k3
      = firstNonZero [extractValue stof json k1.toList, extractValue stof json k2.toList,
          extractValue stof json k3.toList] := by
  unfold axisValue firstNonZero
  simp only []
  generalize extractValue stof json k1.toList = v1
  generalize extractValue stof json k2.toList = v2
  generalize extractValue stof json k3.toList = v3
  by_cases h1 : v1 = 0
  · by_cases h2 : v2 = 0
    · by_cases h3 : v3 = 0
      · simp [h1, h2, h3]
      · simp [h1, h2, h3]
    · simp [h1, h2]
  · simp [h1]

/-- C30: in `parsePhyphoxData` every axis takes the extracted value of the
first of its three key names, in the fixed order, whose extracted value is
not 0, and 0 when all three are 0; the call returns true and leaves the
timestamp alone. So when the value extracted for `accX` is 0 (the key being
present or not) and the value `v` extracted for `acc_x` is not 0, `ax = v`. -/
theorem axis_fallback_on_zero (stof : List Char → Option ℚ) (json : List Char)
    (imu : ImuMeasurement) (v : ℚ) :
    (parsePhyphoxData stof json imu).1 = true
      ∧ (parsePhyphoxData stof json imu).2.timestamp = imu.timestamp
      ∧ (parsePhyphoxData stof json imu).2.ax
        = firstNonZero [extractValue stof json "accX".toList,
            extractValue stof json "acc_x".toList, extractValue stof json "accelerationX".toList]
      ∧ (parsePhyphoxData stof json imu).2.ay
        = firstNonZero [extractValue stof json "accY".toList,
            extractValue stof json "acc_y".toList, extractValue stof json "accelerationY".toList]
      ∧ (parsePhyphoxData stof json imu).2.az
        = firstNonZero [extractValue stof json "accZ".toList,
            extractValue stof json "acc_z".toList, extractValue stof json "accelerationZ".toList]
      ∧ (parsePhyphoxData stof json imu).2.gx
        = firstNonZero [extractValue stof json "gyroX".toList,
            extractValue stof json "gyro_x".toList, extractValue stof json "gyroscopeX".toList]
      ∧ (parsePhyphoxData stof json imu).2.gy
        = firstNonZero [extractValue stof json "gyroY".toList,
            extractValue stof json "gyro_y".toList, extractValue stof json "gyroscopeY".toList]
      ∧ (parsePhyphoxData stof json imu).2.gz
        = firstNonZero [extractValue stof json "gyroZ".toList,
            extractValue stof json "gyro_z".toList, extractValue stof json "gyroscopeZ".toList]
      ∧ (extractValue stof json "accX".toList = 0 → extractValue stof json "acc_x".toList = v →
          v ≠ 0 → (parsePhyphoxData stof json imu).2.ax = v) := by
  refine ⟨rfl, rfl, axisValue_eq_firstNonZero _ _ _ _ _, axisValue_eq_firstNonZero _ _ _ _ _,
    axisValue_eq_firstNonZero _ _ _ _ _, axisValue_eq_firstNonZero _ _ _ _ _,
    axisValue_eq_firstNonZero _ _ _ _ _, axisValue_eq_firstNonZero _ _ _ _ _, ?_⟩
  intro h0 hv hne
  show axisValue stof json "accX" "acc_x" "accelerationX" = v
  unfold axisValue
  simp only [h0, hv, if_true, if_neg hne]

theorem extractValue_absent (stof : List Char → Option ℚ) (json key : List Char)
    (habsent : ¬ searchKey key <:+: json) : extractValue stof json key = 0 := by
  have hnone : find json (searchKey key) = none := by
    rw [← Option.not_isSome_iff_eq_none, find_isSome_iff]
    exact habsent
  unfold extractValue
  rw [hnone]

theorem stofDecimal_0 : stofDecimal ['0'] = some 0 := by
  simp [stofDecimal, takeSign, isspace, isdigit, digitsValue, exponentValue]

theorem stofDecimal_2_5 : stofDecimal ['2', '.', '5'] = some (5 / 2) := by
  simp [stofDecimal, takeSign, isspace, isdigit, digitsValue, exponentValue]
  norm_num

/-- The C30 theorem on the response `"accX":{"buffer":[0],"acc_x":{"buffer":[2.5]`:
`accX` is present with last value 0, `acc_x` with last value 2.5, and the
axis gets 2.5. -/
theorem axis_fallback_on_zero_witness :
    (parsePhyphoxData stofDecimal
        ([] ++ searchKey "accX".toList
          ++ (['0'] ++ ']' :: (',' :: searchKey "acc_x".toList ++ ['2', '.', '5', ']'])))
        ⟨1, 0, 0, 0, 0, 0, 0⟩).2.ax = 5 / 2 := by
  have h0 : extractValue stofDecimal
      ([] ++ searchKey "accX".toList
        ++ (['0'] ++ ']' :: (',' :: searchKey "acc_x".toList ++ ['2', '.', '5', ']'])))
      "accX".toList = 0 := by
    rw [extractValue_of_first stofDecimal "accX".toList [] ['0'] _ (by simp) (by decide)]
    have hl : lastValue ['0'] = ['0'] := by decide
    rw [hl, stofDecimal_0]
    rfl
  have hjson : ([] ++ searchKey "accX".toList
        ++ (['0'] ++ ']' :: (',' :: searchKey "acc_x".toList ++ ['2', '.', '5', ']'])))
      = (searchKey "accX".toList ++ ['0', ']', ',']) ++ searchKey "acc_x".toList
          ++ (['2', '.', '5'] ++ ']' :: []) := by
    decide
  have hv : extractValue stofDecimal
      ([] ++ searchKey "accX".toList
        ++ (['0'] ++ ']' :: (',' :: searchKey "acc_x".toList ++ ['2', '.', '5', ']'])))
      "acc_x".toList = 5 / 2 := by
    rw [hjson, extractValue_of_first stofDecimal "acc_x".toList _ ['2', '.', '5'] _
      (by decide) (by decide)]
    have hl : lastValue ['2', '.', '5'] = ['2', '.', '5'] := by decide
    rw [hl, stofDecimal_2_5]
    rfl
  exact (axis_fallback_on_zero stofDecimal _ ⟨1, 0, 0, 0, 0, 0, 0⟩ (5 / 2)).2.2.2.2.2.2.2.2
    h0 hv (by norm_num)

/-- C24 (the poller run on the failing input): for the non-empty response
`{}`, in which no axis key occurs, `parsePhyphoxData` returns true and the
poll pass appends a sample whose six readings are 0. -/
theorem pollStep_appends_for_unparsable (stof : List Char → Option ℚ) (now : ℚ) :
    (parsePhyphoxData stof ['\x7b', '\x7d'] ⟨now, 0, 0, 0, 0, 0, 0⟩).1 = true
      ∧ pollStep stof [] ['\x7b', '\x7d'] now = [⟨now, 0, 0, 0, 0, 0, 0⟩] := by
  have hx : ∀ key : String, ¬ searchKey key.toList <:+: ['\x7b', '\x7d'] := by
    intro key hin
    have hlen := hin.length_le
    simp [searchKey] at hlen
  have hax : ∀ k1 k2 k3 : String, axisValue stof ['\x7b', '\x7d'] k1 k2 k3 = 0 := by
    intro k1 k2 k3
    unfold axisValue
    simp only [extractValue_absent stof _ _ (hx k1), extractValue_absent stof _ _ (hx k2),
      extractValue_absent stof _ _ (hx k3), if_true]
  refine ⟨rfl, ?_⟩
  unfold pollStep parsePhyphoxData
  simp [hax]

end PhoneSlamPhyphox

/-! ## Theorems: text UDP receiver of `phone_slam_ipwebcam.cpp` -/

namespace PhoneSlamIpwebcam

open StdString

theorem appendImu_nil (imu : ImuMeasurement) : appendImu [] imu = [imu] := by
  simp [appendImu]

/-- Datagram text that holds both quoted sensor names: whatever the
conversions read, the pass appends one sample. -/
theorem imuReceiverStep_both_names (scanFloat : List Char → Option (ℚ × List Char))
    (bytes : List Nat) (now : ℚ) (accel gyro : List Char)
    (hn : 0 < (bytes.take 255).length)
    (ha : strstr (cString (bytes.take 255)) "\"accelerometer\"".toList = some accel)
    (hg : strstr (cString (bytes.take 255)) "\"gyroscope\"".toList = some gyro) :
    (imuReceiverStep scanFloat [] (some bytes) now).length = 1 := by
  have hpos : ((bytes.take 255).length : Int) > 0 := by exact_mod_cast hn
  unfold imuReceiverStep
  simp only [recvfrom]
  rw [if_pos hpos]
  split
  · rw [appendImu_nil]; rfl
  · rw [ha, hg]
    simp only []
    rw [appendImu_nil]; rfl

/-- C23 (the receiver run on the failing input): the datagram
`{"accelerometer":null,"gyroscope":null}` is not a line of six numbers and
holds no readable x/y/z triple, yet the pass appends a sample to the empty
buffer, whatever the `%f` conversion reads. -/
theorem imuReceiverStep_appends_unreadable_json
    (scanFloat : List Char → Option (ℚ × List Char)) (now : ℚ) :
    (imuReceiverStep scanFloat []
        (some ("\x7b\"accelerometer\":null,\"gyroscope\":null\x7d".toList.map Char.toNat))
        now).length = 1 :=
  imuReceiverStep_both_names scanFloat _ now
    "\"accelerometer\":null,\"gyroscope\":null\x7d".toList "\"gyroscope\":null\x7d".toList
    (by decide) (by decide) (by decide)

end PhoneSlamIpwebcam

/-! ## Theorems: a connection carrying complete frames and a truncated tail -/

namespace PhoneSlam

theorem framesBytes_length (frames : List (List Nat × List Nat))
    (hframes : ∀ f ∈ frames, CompleteFrame f) :
    frames.length ≤ (framesBytes frames).length := by
  induction frames with
  | nil => simp
  | cons f rest ih =>
    have hf := (hframes f (by simp)).1
    have hrest := ih (fun g hg => hframes g (by simp [hg]))
    simp only [framesBytes, List.length_append, List.length_cons]
    omega

theorem serveClientLoop_frames (toDouble : List Nat → ℚ) (imdecode : List Nat → Option Mat)
    (tail : List Nat) (htail : TruncatedFrame tail) (frames : List (List Nat × List Nat)) :
    ∀ (fuel : Nat) (st : CameraState), frames.length < fuel →
      st.conn.stream = framesBytes frames ++ tail →
      (∀ f ∈ frames, CompleteFrame f) →
      (serveClientLoop toDouble imdecode fuel st).connected = false
        ∧ (serveClientLoop toDouble imdecode fuel st).decoded
          = st.decoded ++ frames.map (fun f => (toDouble (f.1.take 8), f.2))
        ∧ (serveClientLoop toDouble imdecode fuel st).g_frame_queue
          = pushAll st.g_frame_queue
              (frames.filterMap (fun f =>
                (imdecode f.2).map (fun image => TimestampedFrame.mk (toDouble (f.1.take 8)) image)))
      := by
  induction frames with
  | nil =>
    intro fuel st hfuel hstream _
    obtain ⟨fuel, rfl⟩ : ∃ k, fuel = k + 1 := ⟨fuel - 1, by simp at hfuel; omega⟩
    simp only [framesBytes, List.nil_append] at hstream
    have hnext : (receiveFrame toDouble imdecode st).connected = false
        ∧ (receiveFrame toDouble imdecode st).decoded = st.decoded
        ∧ (receiveFrame toDouble imdecode st).g_frame_queue = st.g_frame_queue := by
      rcases htail with hshort | ⟨header, rest, hsplit, hlen, hpart, hsmall⟩
      · exact receiveFrame_short_header toDouble imdecode st (by rw [hstream]; exact hshort)
      · obtain ⟨h1, h2, h3, _⟩ := receiveFrame_short_payload toDouble imdecode st header rest
          (by rw [hstream, hsplit]) hlen hpart hsmall
        exact ⟨h1, h2, h3⟩
    have hloop : serveClientLoop toDouble imdecode (fuel + 1) st
        = receiveFrame toDouble imdecode st := by
      simp only [serveClientLoop, hnext.1, Bool.false_eq_true, if_false]
    rw [hloop]
    exact ⟨hnext.1, by rw [hnext.2.1]; simp, by rw [hnext.2.2]; rfl⟩
  | cons f rest ih =>
    intro fuel st hfuel hstream hframes
    obtain ⟨fuel, rfl⟩ : ∃ k, fuel = k + 1 := ⟨fuel - 1, by simp at hfuel; omega⟩
    obtain ⟨hlen, hsize, hsmall⟩ := hframes f (by simp)
    have hstream2 : st.conn.stream = f.1 ++ f.2 ++ (framesBytes rest ++ tail) := by
      rw [hstream]
      simp [framesBytes]
    obtain ⟨n1, n2, n3, n4⟩ := receiveFrame_complete toDouble imdecode st f.1 f.2
      (framesBytes rest ++ tail) hstream2 hlen hsize hsmall
    have hloop : serveClientLoop toDouble imdecode (fuel + 1) st
        = serveClientLoop toDouble imdecode fuel (receiveFrame toDouble imdecode st) := by
      simp only [serveClientLoop, n2, if_true]
    obtain ⟨r1, r2, r3⟩ := ih fuel (receiveFrame toDouble imdecode st)
      (by simp only [List.length_cons] at hfuel; omega) n1
      (fun g hg => hframes g (by simp [hg]))
    rw [hloop]
    refine ⟨r1, ?_, ?_⟩
    · rw [r2, n3]
      simp
    · rw [r3, n4]
      cases hd : imdecode f.2 with
      | none => simp [hd]
      | some image => simp [hd, pushAll]

/-- C21: for a connection whose byte stream is `k` complete camera frames
(12-byte header, payload of the announced length, below `2^31`) followed by a
truncated header or a truncated payload, delivered in any chunk sizes: the
receiver hands exactly the `k` payloads, each with its header's timestamp, to
the decoder in stream order; the frame queue, which held no more than its
capacity before, afterwards holds its former content followed by one frame
with that timestamp and the decoded image for every payload the decoder
turns into an image, in stream order, and nothing else, cut at the front to
the capacity (not cut at all when everything fits); and the receiver then
leaves the loop of the connection. -/
theorem serveClient_complete_frames_then_truncated (toDouble : List Nat → ℚ)
    (imdecode : List Nat → Option Mat) (frames : List (List Nat × List Nat))
    (tail arrivals : List Nat) (queue : SafeQueue TimestampedFrame)
    (hframes : ∀ f ∈ frames, CompleteFrame f) (htail : TruncatedFrame tail)
    (hqueue : queue.queue_.length ≤ queue.max_size_) :
    (serveClient toDouble imdecode
        { conn := { stream := framesBytes frames ++ tail, arrivals := arrivals },
          g_frame_queue := queue }).connected = false
      ∧ (serveClient toDouble imdecode
        { conn := { stream := framesBytes frames ++ tail, arrivals := arrivals },
          g_frame_queue := queue }).decoded
        = frames.map (fun f => (toDouble (f.1.take 8), f.2))
      ∧ (serveClient toDouble imdecode
        { conn := { stream := framesBytes frames ++ tail, arrivals := arrivals },
          g_frame_queue := queue }).g_frame_queue.queue_
        = (queue.queue_ ++ frames.filterMap (fun f =>
              (imdecode f.2).map (fun image => TimestampedFrame.mk (toDouble (f.1.take 8)) image))).drop
            ((queue.queue_ ++ frames.filterMap (fun f =>
              (imdecode f.2).map (fun image =>
                TimestampedFrame.mk (toDouble (f.1.take 8)) image))).length - queue.max_size_)
      ∧ (serveClient toDouble imdecode
        { conn := { stream := framesBytes frames ++ tail, arrivals := arrivals },
          g_frame_queue := queue }).g_frame_queue.max_size_ = queue.max_size_
      ∧ ((queue.queue_ ++ frames.filterMap (fun f =>
              (imdecode f.2).map (fun image =>
                TimestampedFrame.mk (toDouble (f.1.take 8)) image))).length ≤ queue.max_size_ →
          (serveClient toDouble imdecode
            { conn := { stream := framesBytes frames ++ tail, arrivals := arrivals },
              g_frame_queue := queue }).g_frame_queue.queue_
            = queue.queue_ ++ frames.filterMap (fun f =>
                (imdecode f.2).map (fun image =>
                  TimestampedFrame.mk (toDouble (f.1.take 8)) image))) := by
  have hlen := framesBytes_length frames hframes
  have h := serveClientLoop_frames toDouble imdecode tail htail frames
    ((framesBytes frames ++ tail).length + 1)
    { conn := { stream := framesBytes frames ++ tail, arrivals := arrivals },
      g_frame_queue := queue }
    (by simp only [List.length_append]; omega) rfl hframes
  obtain ⟨h1, h2, h3⟩ := h
  have hq := pushAll_queue
    (frames.filterMap (fun f =>
      (imdecode f.2).map (fun image => TimestampedFrame.mk (toDouble (f.1.take 8)) image)))
    queue hqueue
  have e3 : (serveClient toDouble imdecode
        { conn := { stream := framesBytes frames ++ tail, arrivals := arrivals },
          g_frame_queue := queue }).g_frame_queue
      = pushAll queue (frames.filterMap (fun f =>
          (imdecode f.2).map (fun image =>
            TimestampedFrame.mk (toDouble (f.1.take 8)) image))) := h3
  refine ⟨h1, by simpa [serveClient] using h2, ?_, ?_, ?_⟩
  · rw [e3]; exact hq.1
  · rw [e3]; exact hq.2
  · intro hfits
    rw [e3, hq.1, Nat.sub_eq_zero_of_le hfits, List.drop_zero]

/-- The C21 theorem on a stream of two complete frames, with payloads `07 09`
and `05`, followed by three bytes of a third header, for a decoder that
accepts only the first payload and an empty queue: both payloads reach the
decoder, and the queue ends up holding the one decoded frame. -/
theorem serveClient_complete_frames_then_truncated_witness :
    (∀ f ∈ [([0, 0, 0, 0, 0, 0, 0, 0, 2, 0, 0, 0], [7, 9]),
            ([1, 0, 0, 0, 0, 0, 0, 0, 1, 0, 0, 0], [5])], CompleteFrame f)
      ∧ TruncatedFrame [1, 2, 3]
      ∧ (serveClient (fun bytes => (bytes.headD 0 : ℚ))
            (fun p => if p = [7, 9] then some [[1]] else none)
            { conn := { stream := framesBytes [([0, 0, 0, 0, 0, 0, 0, 0, 2, 0, 0, 0], [7, 9]),
                ([1, 0, 0, 0, 0, 0, 0, 0, 1, 0, 0, 0], [5])] ++ [1, 2, 3], arrivals := [5, 1] },
              g_frame_queue := {} }).connected = false
      ∧ (serveClient (fun bytes => (bytes.headD 0 : ℚ))
            (fun p => if p = [7, 9] then some [[1]] else none)
            { conn := { stream := framesBytes [([0, 0, 0, 0, 0, 0, 0, 0, 2, 0, 0, 0], [7, 9]),
                ([1, 0, 0, 0, 0, 0, 0, 0, 1, 0, 0, 0], [5])] ++ [1, 2, 3], arrivals := [5, 1] },
              g_frame_queue := {} }).decoded = [(0, [7, 9]), (1, [5])]
      ∧ (serveClient (fun bytes => (bytes.headD 0 : ℚ))
            (fun p => if p = [7, 9] then some [[1]] else none)
            { conn := { stream := framesBytes [([0, 0, 0, 0, 0, 0, 0, 0, 2, 0, 0, 0], [7, 9]),
                ([1, 0, 0, 0, 0, 0, 0, 0, 1, 0, 0, 0], [5])] ++ [1, 2, 3], arrivals := [5, 1] },
              g_frame_queue := {} }).g_frame_queue.queue_ = [TimestampedFrame.mk 0 [[1]]] := by
  have hframes : ∀ f ∈ [([0, 0, 0, 0, 0, 0, 0, 0, 2, 0, 0, 0], [7, 9]),
      ([1, 0, 0, 0, 0, 0, 0, 0, 1, 0, 0, 0], [5])], CompleteFrame f := by
    intro f hf
    simp only [List.mem_cons, List.mem_singleton, List.not_mem_nil, or_false] at hf
    rcases hf with rfl | rfl <;> exact ⟨by decide, by decide, by decide⟩
  obtain ⟨h1, h2, _, _, h5⟩ :=
    serveClient_complete_frames_then_truncated (fun bytes => (bytes.headD 0 : ℚ))
      (fun p => if p = [7, 9] then some [[1]] else none)
      [([0, 0, 0, 0, 0, 0, 0, 0, 2, 0, 0, 0], [7, 9]), ([1, 0, 0, 0, 0, 0, 0, 0, 1, 0, 0, 0], [5])]
      [1, 2, 3] [5, 1] {} hframes (Or.inl (by decide)) (by decide)
  refine ⟨hframes, Or.inl (by decide), h1, ?_, ?_⟩
  · rw [h2]
    simp
  · rw [h5 (by simp)]
    simp

end PhoneSlam

/-! ## Theorems: frame lengths and the drain loop of `websocketReceiverThread` -/

namespace PhoneSlamWebsocket

theorem decodePayload_incomplete (data : List Nat) (len opcode : Nat) (masked : Bool)
    (payload_len header_len0 : Nat)
    (hshort : len < (if masked then header_len0 + 4 else header_len0) + payload_len)
    (hfit : (if masked then header_len0 + 4 else header_len0) + payload_len < 2 ^ 64) :
    decodePayload data len opcode masked payload_len header_len0 = some ([], 0) := by
  unfold decodePayload
  simp only []
  rw [Nat.mod_eq_of_lt hfit, if_pos hshort]

/-- C26 (the decoder on a frame whose declared length makes the sum wrap):
the ten bytes `81 7F FF FF FF FF FF FF FF FF` declare a payload of `2^64 - 1`
bytes, far more than the buffer holds, but `header_len + payload_len` is 9
in 64-bit arithmetic, the completeness test passes, and `result.resize`
throws instead of the function returning an empty payload with
`consumed = 0`. -/
theorem decodeWebSocketFrame_declared_length_wraps :
    (List.range 8).foldl
        (fun payload_len i => ((payload_len <<< 8) % 2 ^ 64)
          ||| [129, 127, 255, 255, 255, 255, 255, 255, 255, 255].getD (2 + i) 0) 0 = 2 ^ 64 - 1
      ∧ [129, 127, 255, 255, 255, 255, 255, 255, 255, 255].length < 10 + (2 ^ 64 - 1)
      ∧ decodeWebSocketFrame [129, 127, 255, 255, 255, 255, 255, 255, 255, 255] 10 = none := by
  refine ⟨by decide, by decide, by decide⟩

end PhoneSlamWebsocket
namespace PhoneSlamWebsocket

theorem decodePayload_consumed (data : List Nat) (len opcode : Nat) (masked : Bool)
    (payload_len header_len0 : Nat) (hlo : 2 ≤ header_len0) (hhi : header_len0 ≤ 10)
    (payload : List Nat) (consumed : Nat)
    (h : decodePayload data len opcode masked payload_len header_len0 = some (payload, consumed)) :
    consumed = 0 ∨ (2 ≤ consumed ∧ consumed ≤ len) := by
  unfold decodePayload at h
  simp only [] at h
  have hhdr : 2 ≤ (if masked then header_len0 + 4 else header_len0)
      ∧ (if masked then header_len0 + 4 else header_len0) ≤ 14 := by
    cases masked <;> simp <;> omega
  generalize (if masked then header_len0 + 4 else header_len0) = header_len at h hhdr
  by_cases h1 : len < (header_len + payload_len) % 2 ^ 64
  · rw [if_pos h1] at h
    simp only [Option.some.injEq, Prod.mk.injEq] at h
    exact Or.inl h.2.symm
  · rw [if_neg h1] at h
    by_cases h2 : payload_len > string_max_size
    · rw [if_pos h2] at h
      exact absurd h (by simp)
    · rw [if_neg h2] at h
      unfold string_max_size at h2
      have hc : consumed = (header_len + payload_len) % 2 ^ 64 := by
        by_cases hop : opcode = 1 ∨ opcode = 2
        · rw [if_pos hop] at h
          simp only [Option.some.injEq, Prod.mk.injEq] at h
          exact h.2.symm
        · rw [if_neg hop] at h
          simp only [Option.some.injEq, Prod.mk.injEq] at h
          exact h.2.symm
      right
      omega

theorem decodeWebSocketFrame_consumed (data : List Nat) (len : Nat) (payload : List Nat)
    (consumed : Nat) (h : decodeWebSocketFrame data len = some (payload, consumed)) :
    consumed = 0 ∨ (2 ≤ consumed ∧ consumed ≤ len) := by
  unfold decodeWebSocketFrame at h
  simp only [] at h
  split_ifs at h
  all_goals first
    | (simp only [Option.some.injEq, Prod.mk.injEq] at h; exact Or.inl h.2.symm)
    | exact decodePayload_consumed _ _ _ _ _ _ (by omega) (by omega) _ _ h

theorem drainIteration_shortens (stof : List Char → Option ℚ) (clock : Nat → ℚ × ℚ)
    (st st1 : DrainState) (h : drainIteration stof clock st = DrainStep.next st1) :
    st1.recvBuffer.length + 2 ≤ st.recvBuffer.length := by
  unfold drainIteration at h
  by_cases hsize : st.recvBuffer.length ≥ 2
  · rw [if_pos hsize] at h
    cases hdec : decodeWebSocketFrame st.recvBuffer st.recvBuffer.length with
    | none =>
      rw [hdec] at h
      exact absurd h (by simp)
    | some r =>
      obtain ⟨payload, consumed⟩ := r
      rw [hdec] at h
      simp only [] at h
      have hc := decodeWebSocketFrame_consumed _ _ _ _ hdec
      by_cases h0 : consumed = 0
      · rw [if_pos h0] at h
        exact absurd h (by simp)
      · rw [if_neg h0] at h
        have hlen : (st.recvBuffer.drop consumed).length + 2 ≤ st.recvBuffer.length := by
          rw [List.length_drop]
          omega
        split_ifs at h
        all_goals
          simp only [DrainStep.next.injEq] at h
          rw [← h]
          exact hlen
  · rw [if_neg hsize] at h
    exact absurd h (by simp)

theorem drainLoop_enough_fuel (stof : List Char → Option ℚ) (clock : Nat → ℚ × ℚ) :
    ∀ (fuel : Nat) (st : DrainState), st.recvBuffer.length < 2 * fuel →
      drainLoop stof clock fuel st ≠ DrainResult.outOfFuel := by
  intro fuel
  induction fuel with
  | zero => intro st h; omega
  | succ fuel ih =>
    intro st hfuel
    unfold drainLoop
    cases hstep : drainIteration stof clock st with
    | stop st1 => simp
    | threw st1 => simp
    | next st1 =>
      have hshort := drainIteration_shortens stof clock st st1 hstep
      simp only []
      exact ih st1 (by omega)

/-- C27: whenever `decodeWebSocketFrame` returns on `len` bytes, `consumed` is
0 or lies between 2 and `len`; every pass through the drain loop after which
the loop goes on leaves a receive buffer that is at least two bytes shorter;
and the loop ends, by leaving or by an exception of the decoder, within
`size / 2 + 1` passes for every buffer content. -/
theorem drain_loop_terminates (stof : List Char → Option ℚ) (clock : Nat → ℚ × ℚ)
    (data : List Nat) (len : Nat) (payload : List Nat) (consumed : Nat) (st : DrainState)
    (hdec : decodeWebSocketFrame data len = some (payload, consumed)) :
    (consumed = 0 ∨ (2 ≤ consumed ∧ consumed ≤ len))
      ∧ (∀ st1, drainIteration stof clock st = DrainStep.next st1 →
          st1.recvBuffer.length < st.recvBuffer.length)
      ∧ drainLoop stof clock (st.recvBuffer.length / 2 + 1) st ≠ DrainResult.outOfFuel := by
  refine ⟨decodeWebSocketFrame_consumed data len payload consumed hdec, ?_, ?_⟩
  · intro st1 h
    have := drainIteration_shortens stof clock st st1 h
    omega
  · exact drainLoop_enough_fuel stof clock _ st (by omega)

/-- The C27 theorem on a buffer holding the text frame `81 01 41` followed by
the first byte of another frame: the decoder reports `consumed = 3` on the
four bytes, and the drain loop ends within three passes. -/
theorem drain_loop_terminates_witness :
    decodeWebSocketFrame [129, 1, 65, 129] 4 = some ([65], 3)
      ∧ ((3 = 0 ∨ (2 ≤ 3 ∧ 3 ≤ 4))
        ∧ (∀ st1, drainIteration StdString.stofDecimal (fun _ => (0, 0))
              (DrainState.mk [129, 1, 65, 129] {} [] []) = DrainStep.next st1 →
            st1.recvBuffer.length
              < (DrainState.mk [129, 1, 65, 129] {} [] []).recvBuffer.length)
        ∧ drainLoop StdString.stofDecimal (fun _ => (0, 0))
            ((DrainState.mk [129, 1, 65, 129] {} [] []).recvBuffer.length / 2 + 1)
            (DrainState.mk [129, 1, 65, 129] {} [] []) ≠ DrainResult.outOfFuel) :=
  ⟨by decide,
    drain_loop_terminates StdString.stofDecimal (fun _ => (0, 0)) [129, 1, 65, 129] 4 [65] 3
      (DrainState.mk [129, 1, 65, 129] {} [] []) (by decide)⟩

end PhoneSlamWebsocket
namespace PhoneSlamWebsocket

theorem encodeHeader_length_ge (fin : Bool) (rsv opcode : Nat) (enc : LengthEncoding)
    (mask : Option MaskKey) (n : Nat) : 2 ≤ (encodeHeader fin rsv opcode enc mask n).length := by
  cases enc <;> simp [encodeHeader, encodeLength]

theorem encodeFrame_length (fin : Bool) (rsv opcode : Nat) (enc : LengthEncoding)
    (mask : Option MaskKey) (payload : List Nat) :
    (encodeFrame fin rsv opcode enc mask payload).length
      = (encodeHeader fin rsv opcode enc mask payload.length).length + payload.length := by
  cases mask <;> simp [encodeFrame, maskPayload_length]

theorem getD_cons_add (b : Nat) (data : List Nat) (k i : Nat) :
    (b :: data).getD (k + 1 + i) 0 = data.getD (k + i) 0 := by
  rw [show k + 1 + i = (k + i) + 1 by omega]
  rfl

theorem decodePayload_first_byte (b c : Nat) (data : List Nat) (len opcode : Nat) (masked : Bool)
    (payload_len k : Nat) :
    decodePayload (b :: data) len opcode masked payload_len (k + 1)
      = decodePayload (c :: data) len opcode masked payload_len (k + 1) := by
  cases masked
  · simp only [decodePayload, Bool.false_eq_true, if_false, getD_cons_add]
  · simp only [decodePayload, if_true, getD_cons_add,
      show ∀ i, k + 1 + 4 + i = (k + 4) + 1 + i from fun i => by omega]

theorem decodeWebSocketFrame_first_byte (b c : Nat) (data : List Nat) (len : Nat)
    (h : b &&& 0x0F = c &&& 0x0F) :
    decodeWebSocketFrame (b :: data) len = decodeWebSocketFrame (c :: data) len := by
  have hr : List.range 8 = [0, 1, 2, 3, 4, 5, 6, 7] := by decide
  unfold decodeWebSocketFrame
  simp only [hr, List.foldl_cons, List.foldl_nil, List.getD_cons_zero, List.getD_cons_succ,
    Nat.reduceAdd, h]
  rw [decodePayload_first_byte b c data len _ _ _ 3, decodePayload_first_byte b c data len _ _ _ 9,
    decodePayload_first_byte b c data len _ _ _ 1]

theorem fin_bit_outside_opcode (b : Nat) : (b ^^^ 0x80) &&& 0x0F = b &&& 0x0F := by
  rw [Nat.and_xor_distrib_right]
  have h : (128 : Nat) &&& 15 = 0 := by decide
  rw [h, Nat.xor_zero]

/-- C28: a complete frame whose opcode is neither 1 nor 2, in any length
encoding that fits its payload, masked or not, followed by any bytes in a
receive buffer of fewer than `2^63` bytes: `decodeWebSocketFrame` returns an
empty payload with `consumed` equal to the length of the whole frame; the
pass of the drain loop removes exactly the frame from the receive buffer and
hands nothing to `parseSensorData`, leaving accumulator and IMU buffer as they
were; and for every buffer, toggling the FIN bit of the first byte does not
change what the decoder returns. -/
theorem non_data_frame_is_skipped (stof : List Char → Option ℚ) (clock : Nat → ℚ × ℚ)
    (fin : Bool) (rsv opcode : Nat) (enc : LengthEncoding) (mask : Option MaskKey)
    (payload rest : List Nat) (g_sensor_accum : SensorAccumulator)
    (g_imu_buffer : List ImuMeasurement) (parsed : List (List Char))
    (hop : opcode < 16) (hop1 : opcode ≠ 1) (hop2 : opcode ≠ 2) (hrsv : rsv < 8)
    (hfit : enc.fits payload.length) (hpay : ∀ b ∈ payload, b < 256)
    (hhi : (encodeFrame fin rsv opcode enc mask payload ++ rest).length < 2 ^ 63) :
    decodeWebSocketFrame (encodeFrame fin rsv opcode enc mask payload ++ rest)
        (encodeFrame fin rsv opcode enc mask payload ++ rest).length
        = some ([], (encodeFrame fin rsv opcode enc mask payload).length)
      ∧ drainIteration stof clock
          (DrainState.mk (encodeFrame fin rsv opcode enc mask payload ++ rest)
            g_sensor_accum g_imu_buffer parsed)
        = DrainStep.next (DrainState.mk rest g_sensor_accum g_imu_buffer parsed)
      ∧ (∀ (b0 : Nat) (data : List Nat) (len : Nat),
          decodeWebSocketFrame ((b0 ^^^ 0x80) :: data) len
            = decodeWebSocketFrame (b0 :: data) len) := by
  have hnd : ¬ (opcode = 1 ∨ opcode = 2) := by omega
  have hdec := decodeWebSocketFrame_encodeFrame fin rsv opcode enc mask payload rest
    (encodeFrame fin rsv opcode enc mask payload ++ rest).length hop hrsv hfit hpay
    (by rw [List.length_append]; omega) hhi
  rw [if_neg hnd, ← encodeFrame_length] at hdec
  have hge := encodeHeader_length_ge fin rsv opcode enc mask payload.length
  have hlen := encodeFrame_length fin rsv opcode enc mask payload
  refine ⟨hdec, ?_, fun b0 data len =>
    decodeWebSocketFrame_first_byte _ _ data len (fin_bit_outside_opcode b0)⟩
  unfold drainIteration
  simp only []
  rw [if_pos (by rw [List.length_append]; omega), hdec]
  simp only []
  rw [if_neg (by omega)]
  simp

/-- The C28 theorem on a masked ping frame (opcode 9) with the payload `hi`,
followed by the first byte of the next frame: the decoder reports the eight
bytes of the frame as consumed and returns no payload. -/
theorem non_data_frame_is_skipped_witness :
    decodeWebSocketFrame
        (encodeFrame true 0 9 LengthEncoding.bits7 (some ⟨1, 2, 3, 4⟩) [104, 105] ++ [129])
        (encodeFrame true 0 9 LengthEncoding.bits7 (some ⟨1, 2, 3, 4⟩) [104, 105] ++ [129]).length
        = some ([], (encodeFrame true 0 9 LengthEncoding.bits7 (some ⟨1, 2, 3, 4⟩)
            [104, 105]).length)
      ∧ drainIteration StdString.stofDecimal (fun _ => (0, 0))
          (DrainState.mk
            (encodeFrame true 0 9 LengthEncoding.bits7 (some ⟨1, 2, 3, 4⟩) [104, 105] ++ [129])
            {} [] [])
        = DrainStep.next (DrainState.mk [129] {} [] [])
      ∧ (∀ (b0 : Nat) (data : List Nat) (len : Nat),
          decodeWebSocketFrame ((b0 ^^^ 0x80) :: data) len
            = decodeWebSocketFrame (b0 :: data) len) :=
  non_data_frame_is_skipped StdString.stofDecimal (fun _ => (0, 0)) true 0 9
    LengthEncoding.bits7 (some ⟨1, 2, 3, 4⟩) [104, 105] [129] {} [] []
    (by decide) (by decide) (by decide) (by decide) (by simp [LengthEncoding.fits])
    (by decide) (by decide)

end PhoneSlamWebsocket

/-! ## Theorems: readings carried by the messages of the sensor server -/

namespace StdString

end StdString

namespace PhoneSlamWebsocket

open StdString

end PhoneSlamWebsocket

namespace PhoneSlamWebsocket

open StdString

end PhoneSlamWebsocket

namespace PhoneSlamWebsocket

open StdString

end PhoneSlamWebsocket

namespace PhoneSlamWebsocket

open StdString

end PhoneSlamWebsocket

namespace PhoneSlamWebsocket

open StdString

end PhoneSlamWebsocket

namespace PhoneSlamWebsocket

open StdString

end PhoneSlamWebsocket
